import Mathlib

/-!
# EmptyFS: directory enumeration, name lookup, the root vnode, mounting

A shallow embedding of `EmptyFS.c`: the vnode operations that answer
directory enumeration (`VNOPReadDir`, with its helper `uiomove_atomic`) and
name lookup (`VNOPLookup`); the code that creates, hands out and forgets the
root vnode of a mount (`EmptyFSMountGetRootVNodeCreatingIfNecessary`,
`EmptyFSMountDetachRootVNode`, `VFSOPRoot`, `VNOPReclaim`); the operations
that mount and unmount a volume (`VFSOPMount`, `VFSOPUnmount`,
`EmptyFSMountFromMount`); and the entry points that load and unload the
kernel extension (`MODULE_START`, `MODULE_STOP`, with `ErrnoFromKernReturn`
and `KernReturnFromErrno`), followed by theorems about them.

Conventions of the embedding.

* C `int`, `errno_t`, `kern_return_t` and `off_t` values are `Int`; an
  `off_t` result that could leave the 64-bit signed range is wrapped
  explicitly by `wrap64`.
* A nullable pointer is an `Option`: `none` is `NULL`, `some v` is a pointer
  to a cell that holds `v`.
* The kernel's `assert` panics when the kernel is built with `MACH_ASSERT`
  and does nothing otherwise; the build flag is a parameter, and an
  operation returns `none` (or `Progress.panic`) when it panics.
* `sizeof(struct dirent)` comes from `<sys/dirent.h>`, which is not part of
  the repository; it is the parameter `sizeof_dirent`. The mount arguments
  are declared in `EmptyFSMountArgs.h`, which is not part of the repository
  either; `kEmptyFSMountArgsMagic` is a parameter.
* Kernel routines the driver calls (`uiomove`, `vnode_get`, `vnode_create`,
  `vnode_getwithvid`, `msleep`, `wakeup`, `vflush`, `OSMalloc`, `OSFree`) are
  modelled by small definitions that follow what the source's comments say
  about them; what they answer is an input of the model.
* Arguments that VFS supplies and the entry asserts only inspect (non-NULL
  argument pointers, the calling context, the vnode being a directory of
  this mount) are taken as valid by their types.
* Code that several threads run on one mount is embedded as the run of one
  thread from one stopping point to the next (where it may have to wait for
  the mutex or sleep, and around each call it makes without the mutex); a
  system of threads takes these runs one at a time, in any order.
-/

namespace EmptyFS

/-! ## Constants of the kernel headers -/

abbrev errno_t := Int

/-- Value of `ENOENT` in `<sys/errno.h>`. -/
def ENOENT : errno_t := 2

/-- Value of `EINVAL` in `<sys/errno.h>`. -/
def EINVAL : errno_t := 22

/-- Value of `ENOBUFS` in `<sys/errno.h>`. -/
def ENOBUFS : errno_t := 55

/-- Value of `EFAULT` in `<sys/errno.h>`. -/
def EFAULT : errno_t := 14

/-- Value of `FALSE`. -/
def FALSE : Int := 0

/-- Value of `TRUE`. -/
def TRUE : Int := 1

/-- Value of `DT_DIR` in `<sys/dirent.h>`. -/
def DT_DIR : Nat := 4

/-- Value of `VNODE_READDIR_EXTENDED` in `<sys/vnode.h>`. -/
def VNODE_READDIR_EXTENDED : Nat := 0x0001

/-- Value of `VNODE_READDIR_REQSEEKOFF` in `<sys/vnode.h>`. -/
def VNODE_READDIR_REQSEEKOFF : Nat := 0x0002

/-- Value of `ISDOTDOT` in `<sys/vnode.h>`. -/
def ISDOTDOT : Nat := 0x00002000

/-! ## Machine arithmetic and asserts -/

/-- Reduction of an integer to the 64-bit two's complement range of `off_t`. -/
def wrap64 (x : Int) : Int := Int.bmod x (2 ^ 64)

/-- Membership in the range of `off_t`. -/
def isOff (x : Int) : Prop := -(2 ^ 63) ≤ x ∧ x < 2 ^ 63

instance (x : Int) : Decidable (isOff x) :=
  inferInstanceAs (Decidable (_ ∧ _))

/-- The `assert` of `<kern/assert.h>`: a panic (`none`) when the kernel is
built with `MACH_ASSERT` and the condition is false, no effect otherwise. -/
def assert (MACH_ASSERT : Bool) (cond : Bool) : Option Unit :=
  if MACH_ASSERT && !cond then none else some ()

/-! ## Directory records and the caller's buffer -/

/-- The fields of `struct dirent` that `VNOPReadDir` sets. `d_name` is the C
string held in the name array. -/
structure dirent where
  d_fileno : Nat
  d_reclen : Nat
  d_type : Nat
  d_name : String
  d_namlen : Nat
deriving DecidableEq, Repr

/-- The state of a `struct uio`: the offset, the space left in the caller's
buffer in bytes, and what has been moved into that buffer so far, as a list
of (source record, number of its bytes moved). -/
structure uio where
  offset : Int
  resid : Nat
  moved : List (dirent × Nat)
deriving DecidableEq, Repr

/-- Kernel accessor `uio_offset`. -/
def uio_offset (u : uio) : Int := u.offset

/-- Kernel accessor `uio_resid`. -/
def uio_resid (u : uio) : Nat := u.resid

/-- Kernel accessor `uio_setoffset`. -/
def uio_setoffset (u : uio) (off : Int) : uio := { u with offset := off }

/-- Kernel routine `uiomove`. Whether the copy into the caller's buffer goes
through is the kernel's answer and an input of the model: `uiomove_err u` is
the error with which the copy into the buffer that `u` describes ends (0
when it goes through, `EFAULT` for a buffer that cannot be written, say). A
copy that goes through is as the comments of `VNOPReadDir` describe it: it
moves as much of the `size` bytes as fits, does not fail when only a part
fits, lowers the residual count and raises the offset by the number of bytes
it moved. A copy that fails returns its error and has moved nothing. -/
def uiomove (uiomove_err : uio → errno_t) (addr : dirent) (size : Nat) (u : uio) :
    errno_t × uio :=
  if uiomove_err u = 0 then
    let n := min size u.resid
    (0, { offset := wrap64 (u.offset + n), resid := u.resid - n,
          moved := u.moved ++ [(addr, n)] })
  else
    (uiomove_err u, u)

/-- Source `uiomove_atomic`: refuse with `ENOBUFS` when the whole of `size`
does not fit, otherwise `uiomove`. -/
def uiomove_atomic (uiomove_err : uio → errno_t) (addr : dirent) (size : Nat) (u : uio) :
    errno_t × uio :=
  if size > uio_resid u then
    (ENOBUFS, u)
  else
    uiomove uiomove_err addr size u

/-- The arguments of `VNOPReadDir` that the routine uses. The two output
pointers may be `NULL`. -/
structure vnop_readdir_args where
  a_uio : uio
  a_flags : Nat
  a_eofflag : Option Int
  a_numdirent : Option Int
deriving DecidableEq, Repr

/-- Source `VNOPReadDir`, with the kernel's answers to `uiomove` as the input
`uiomove_err`. The result is the returned error together with the argument
block as the call leaves it (the uio and the cells behind the two output
pointers); `none` is a panic at the offset assert. -/
def VNOPReadDir (MACH_ASSERT : Bool) (sizeof_dirent : Nat) (uiomove_err : uio → errno_t)
    (ap : vnop_readdir_args) : Option (errno_t × vnop_readdir_args) :=
  let uio₀ := ap.a_uio
  let flags := ap.a_flags
  let eofflagPtr := ap.a_eofflag
  let numdirentPtr := ap.a_numdirent
  let eofflag₀ : Int := FALSE
  let numdirent₀ : Int := 0
  let body : Option (errno_t × uio × Int × Int) :=
    if flags &&& VNODE_READDIR_EXTENDED ≠ 0 ∨ flags &&& VNODE_READDIR_REQSEEKOFF ≠ 0 then
      some (EINVAL, uio₀, eofflag₀, numdirent₀)
    else
      let thisItem : dirent :=
        { d_fileno := 2, d_reclen := sizeof_dirent, d_type := DT_DIR,
          d_name := ".", d_namlen := ".".length }
      (assert MACH_ASSERT (Int.tmod (uio_offset uio₀) 7 == 0)).bind fun _ =>
      let index₀ : Int := Int.tdiv (uio_offset uio₀) 7
      -- the first directory entry
      let s₁ : errno_t × uio × Int × Int :=
        if index₀ = 0 then
          let r := uiomove_atomic uiomove_err thisItem sizeof_dirent uio₀
          if r.1 = 0 then (r.1, r.2, numdirent₀ + 1, wrap64 (index₀ + 1))
          else (r.1, r.2, numdirent₀, index₀)
        else (0, uio₀, numdirent₀, index₀)
      let err₁ := s₁.1
      let uio₁ := s₁.2.1
      let numdirent₁ := s₁.2.2.1
      let index₁ := s₁.2.2.2
      -- the second directory entry
      let s₂ : errno_t × uio × Int × Int :=
        if err₁ = 0 ∧ index₁ = 1 then
          let thisItem₂ : dirent := { thisItem with d_name := "..", d_namlen := "..".length }
          let r := uiomove_atomic uiomove_err thisItem₂ sizeof_dirent uio₁
          if r.1 = 0 then (r.1, r.2, numdirent₁ + 1, wrap64 (index₁ + 1))
          else (r.1, r.2, numdirent₁, index₁)
        else (err₁, uio₁, numdirent₁, index₁)
      let err₂ := s₂.1
      let uio₂ := s₂.2.1
      let numdirent₂ := s₂.2.2.1
      let index₂ := s₂.2.2.2
      -- swallow the lack of space
      let err₃ : errno_t := if err₂ = ENOBUFS then 0 else err₂
      let uio₃ := uio_setoffset uio₂ (wrap64 (index₂ * 7))
      let eofflag₃ : Int := if index₂ > 1 then TRUE else FALSE
      some (err₃, uio₃, eofflag₃, numdirent₂)
  body.map fun b =>
    (b.1, { ap with a_uio := b.2.1,
                    a_eofflag := eofflagPtr.map (fun _ => b.2.2.1),
                    a_numdirent := numdirentPtr.map (fun _ => b.2.2.2) })

/-- The record `VNOPReadDir` builds for the directory itself. -/
def dotItem (sizeof_dirent : Nat) : dirent :=
  { d_fileno := 2, d_reclen := sizeof_dirent, d_type := DT_DIR, d_name := ".", d_namlen := 1 }

/-- The record `VNOPReadDir` builds for the parent directory. -/
def dotdotItem (sizeof_dirent : Nat) : dirent :=
  { d_fileno := 2, d_reclen := sizeof_dirent, d_type := DT_DIR, d_name := "..", d_namlen := 2 }

/-- Plain enumeration mode: neither of the two unsupported flags is set. -/
def plainMode (flags : Nat) : Prop :=
  flags &&& VNODE_READDIR_EXTENDED = 0 ∧ flags &&& VNODE_READDIR_REQSEEKOFF = 0

instance (flags : Nat) : Decidable (plainMode flags) :=
  inferInstanceAs (Decidable (_ ∧ _))

/-- What a call of `VNOPReadDir` leaves behind when it ends with error `err`,
the uio `u`, and the locals `eofflag` and `numdirent`. -/
def leaves (ap : vnop_readdir_args) (err : errno_t) (u : uio) (eofflag numdirent : Int) :
    Option (errno_t × vnop_readdir_args) :=
  some (err, { ap with a_uio := u,
                       a_eofflag := ap.a_eofflag.map (fun _ => eofflag),
                       a_numdirent := ap.a_numdirent.map (fun _ => numdirent) })

/-- The records a plain enumeration still has to emit when it starts at
directory index `index`, each with the number of bytes of a whole record. -/
def entriesFrom (sizeof_dirent : Nat) (index : Int) : List (dirent × Nat) :=
  if index = 0 then [(dotItem sizeof_dirent, sizeof_dirent), (dotdotItem sizeof_dirent, sizeof_dirent)]
  else if index = 1 then [(dotdotItem sizeof_dirent, sizeof_dirent)]
  else []

/-- The arguments of a call with the uio positioned at `cursor`. -/
def withCursor (ap : vnop_readdir_args) (cursor : Int) : vnop_readdir_args :=
  { ap with a_uio := { ap.a_uio with offset := cursor } }

/-- The uio as a `uiomove` that goes through leaves it after moving the
whole record `item` of `sizeof_dirent` bytes. -/
def afterRecord (u : uio) (item : dirent) (sizeof_dirent : Nat) : uio :=
  { offset := wrap64 (u.offset + sizeof_dirent), resid := u.resid - sizeof_dirent,
    moved := u.moved ++ [(item, sizeof_dirent)] }

/-- The error `VNOPReadDir` returns when `uiomove` has answered `err`: the
error itself, except that `ENOBUFS` is swallowed. -/
def surfaced (err : errno_t) : errno_t := if err = ENOBUFS then 0 else err

/-- A caller's buffer every copy into which goes through. -/
def goodBuffer : uio → errno_t := fun _ => 0

/-- A caller's buffer that cannot be written: every copy into it fails with
`EFAULT`. -/
def badBuffer : uio → errno_t := fun _ => EFAULT

/-- A caller's buffer whose first record-sized part can be written and
nothing after it: a copy fails with `EFAULT` once something has been moved
into the buffer. -/
def shortBuffer : uio → errno_t := fun u => if u.moved = [] then 0 else EFAULT

/-- Arguments of a call on an empty buffer of `resid` bytes at cursor
`cursor`, with both output pointers supplied. -/
def sampleArgs (cursor : Int) (resid : Nat) (flags : Nat) : vnop_readdir_args :=
  { a_uio := { offset := cursor, resid := resid, moved := [] }, a_flags := flags,
    a_eofflag := some 0, a_numdirent := some 0 }

/-! ## Name lookup -/

/-- A vnode handle that refers to a vnode (a non-NULL `vnode_t`); a nullable
`vnode_t` is an `Option vnode_t`. -/
abbrev vnode_t := Nat

/-- The part of the kernel's vnode state that lookup touches: for every
vnode, the error `vnode_get` answers with (0 when it grants the reference)
and the number of I/O references handed out so far. -/
structure VNodeTable where
  vnode_get_err : vnode_t → errno_t
  iocount : vnode_t → Nat

/-- Kernel routine `vnode_get`: take an I/O reference on `vp`, or fail with
an error and take none. -/
def vnode_get (k : VNodeTable) (vp : vnode_t) : errno_t × VNodeTable :=
  if k.vnode_get_err vp = 0 then
    (0, { k with iocount := Function.update k.iocount vp (k.iocount vp + 1) })
  else
    (k.vnode_get_err vp, k)

/-- The fields of `struct componentname` that `VNOPLookup` reads.
`cn_nameptr` holds the characters from the start of the component up to the
terminating NUL of the path buffer; the component is its first `cn_namelen`
characters. -/
structure componentname where
  cn_flags : Nat
  cn_nameptr : List Char
  cn_namelen : Nat
deriving DecidableEq, Repr

/-- The name of a component: the first `cn_namelen` characters at
`cn_nameptr`. -/
def componentName (cnp : componentname) : List Char :=
  cnp.cn_nameptr.take cnp.cn_namelen

/-- The component is the one-byte name ".". -/
def namedDot (cnp : componentname) : Prop :=
  cnp.cn_namelen = 1 ∧ componentName cnp = ['.']

instance (cnp : componentname) : Decidable (namedDot cnp) :=
  inferInstanceAs (Decidable (_ ∧ _))

/-- The arguments of `VNOPLookup` that the routine uses; `a_vpp` is the cell
behind the output pointer (whatever VFS left in it before the call). -/
structure vnop_lookup_args where
  a_dvp : vnode_t
  a_vpp : Option vnode_t
  a_cnp : componentname
deriving DecidableEq, Repr

/-- Source `VNOPLookup`. The result is the returned error, the argument
block as the call leaves it (the cell behind `vpp`), and the vnode table;
`none` is a panic at the post-condition assert. Reading `cn_nameptr[0]` of
an empty buffer reads the terminating NUL. -/
def VNOPLookup (MACH_ASSERT : Bool) (k : VNodeTable) (ap : vnop_lookup_args) :
    Option (errno_t × vnop_lookup_args × VNodeTable) :=
  let dvp := ap.a_dvp
  let cnp := ap.a_cnp
  -- prepare for failure
  let vn₀ : Option vnode_t := none
  let s : errno_t × Option vnode_t × VNodeTable :=
    if cnp.cn_flags &&& ISDOTDOT ≠ 0 then
      let r := vnode_get k dvp
      if r.1 = 0 then (r.1, some dvp, r.2) else (r.1, vn₀, r.2)
    else if cnp.cn_namelen = 1 ∧ cnp.cn_nameptr.getD 0 (Char.ofNat 0) = '.' then
      let r := vnode_get k dvp
      if r.1 = 0 then (r.1, some dvp, r.2) else (r.1, vn₀, r.2)
    else
      (ENOENT, vn₀, k)
  let err := s.1
  let vpp := s.2.1
  (assert MACH_ASSERT ((err == 0) == (vpp != none))).map fun _ =>
    (err, { ap with a_vpp := vpp }, s.2.2)

/-- A vnode table in which `vnode_get` succeeds on vnode 5 alone (any other
vnode is refused with error 2), with no I/O reference handed out yet. -/
def sampleTable : VNodeTable :=
  { vnode_get_err := fun vp => if vp = 5 then 0 else 2, iocount := fun _ => 0 }

/-- Lookup arguments for directory `dvp` and a component with the given
flags whose name is the whole of `name`. -/
def sampleLookup (dvp : vnode_t) (flags : Nat) (name : String) : vnop_lookup_args :=
  { a_dvp := dvp, a_vpp := some 99,
    a_cnp := { cn_flags := flags, cn_nameptr := name.toList, cn_namelen := name.length } }

/-! ## The root vnode of a mount -/

/-- Value of `EAGAIN` in `<sys/errno.h>`. -/
def EAGAIN : errno_t := 35

/-- Value of `ENOMEM` in `<sys/errno.h>`. -/
def ENOMEM : errno_t := 12

/-- Source `struct EmptyFSMount`, without the volume name and the attribute
snapshot. The last three fields are the ones `fRootMutex` protects. -/
structure EmptyFSMount where
  fMagic : Nat
  fMountPoint : Option Nat
  fDebugLevel : Nat
  fBlockRDevNum : Nat
  fBlockDevVNode : Option vnode_t
  fRootMutex : Option Nat
  fRootAttaching : Bool
  fRootWaiting : Bool
  fRootVNode : Option vnode_t
deriving DecidableEq, Repr

/-- A call the driver makes into the kernel's vnode cache or scheduler, with
its arguments and, where it has one that matters, its result. -/
inductive Event where
  | vnode_create (err : errno_t) (newVN : Option vnode_t)
  | vnode_addfsref (vn : vnode_t)
  | vnode_removefsref (vn : vnode_t)
  | vnode_getwithvid (vn : vnode_t) (vid : Nat) (err : errno_t)
  | wakeup
deriving DecidableEq, Repr

/-- What the threads share: the mount record, the thread that holds
`fRootMutex` (if any), the threads asleep in `msleep` on the channel
`&fRootVNode` that no `wakeup` has reached yet, and the calls made into the
kernel so far, oldest first. -/
structure World where
  mtmp : EmptyFSMount
  mutexOwner : Option Nat
  waitq : List Nat
  trace : List Event
deriving DecidableEq, Repr

/-- What the kernel answers to the calls a step may make: the error of
`vnode_create` and the vnode it makes when that error is 0, the value
`vnode_vid` reads, and the error of `vnode_getwithvid`. A step uses the
fields of the call it makes and ignores the others. -/
structure Answer where
  create_err : errno_t
  create_vn : vnode_t
  vid : Nat
  getwithvid_err : errno_t
deriving DecidableEq, Repr

/-- Result of letting a thread run to its next stopping point: it cannot run
(`blocked`: the mutex is taken, it sleeps, or it has returned), it panics at
an assert, or it reaches the next point with a new shared state. -/
inductive Progress (α : Type) where
  | blocked
  | panic
  | next (w : World) (a : α)
deriving DecidableEq, Repr

/-- Where a thread stands inside `EmptyFSMountGetRootVNodeCreatingIfNecessary`,
with the locals that are live there.

* `entry`: called, before the first `lck_mtx_lock`.
* `loopTop`: at the top of the loop body, holding the mutex.
* `sleeping`: inside `msleep`, the mutex released.
* `creating`: the mutex released, before `vnode_create`.
* `created err newVN`: `vnode_create` has returned, before `lck_mtx_lock`.
* `revalidating candidateVN vid`: the mutex released, before
  `vnode_getwithvid`.
* `revalidated err resultVN`: after the test of its result, before
  `lck_mtx_lock`.
* `returned err vn`: returned `err`, with `*vnPtr = vn`. -/
inductive GetRootPC where
  | entry
  | loopTop
  | sleeping
  | creating
  | created (err : errno_t) (newVN : Option vnode_t)
  | revalidating (candidateVN : vnode_t) (vid : Nat)
  | revalidated (err : errno_t) (resultVN : Option vnode_t)
  | returned (err : errno_t) (vn : Option vnode_t)
deriving DecidableEq, Repr

/-- The end of `EmptyFSMountGetRootVNodeCreatingIfNecessary`, reached with
the mutex held once the loop body has set `err` and `resultVN`: the assert
that closes the loop body, the loop test, and after the loop the unlock, the
store to `*vnPtr` (which the caller passed as `NULL`) and the post-condition
assert. -/
def getRootLoopEnd (MACH_ASSERT : Bool) (t : Nat) (w : World) (err : errno_t)
    (resultVN : Option vnode_t) : Progress GetRootPC :=
  match assert MACH_ASSERT ((err == 0) == (resultVN != none)) with
  | none => .panic
  | some _ =>
    if err = EAGAIN then
      .next { w with mutexOwner := some t } .loopTop
    else
      let vnPtr : Option vnode_t := if err = 0 then resultVN else none
      match assert MACH_ASSERT ((err == 0) == (vnPtr != none)) with
      | none => .panic
      | some _ => .next { w with mutexOwner := none } (.returned err vnPtr)

/-- Source `EmptyFSMountGetRootVNodeCreatingIfNecessary`, as the run of
thread `t` from one stopping point to the next. A thread stops where it may
have to wait (`lck_mtx_lock`, `msleep`) and around each call it makes
without the mutex; what it does while it holds the mutex is one step.
`vnode_create` keeps its contract (a vnode exactly when the error is 0), and
`vnode_addfsref` returns 0. -/
def getRootStep (MACH_ASSERT : Bool) (t : Nat) (o : Answer) (w : World) :
    GetRootPC → Progress GetRootPC
  | .entry =>
    -- lck_mtx_lock
    if w.mutexOwner = none then .next { w with mutexOwner := some t } .loopTop else .blocked
  | .loopTop =>
    if w.mtmp.fRootAttaching then
      -- fRootWaiting = TRUE; msleep gives up the mutex and sleeps
      .next { w with mtmp := { w.mtmp with fRootWaiting := true },
                     mutexOwner := none, waitq := t :: w.waitq } .sleeping
    else
      match w.mtmp.fRootVNode with
      | none =>
        -- fRootAttaching = TRUE; lck_mtx_unlock
        .next { w with mtmp := { w.mtmp with fRootAttaching := true }, mutexOwner := none }
          .creating
      | some candidateVN =>
        -- vid = vnode_vid(candidateVN); lck_mtx_unlock
        .next { w with mutexOwner := none } (.revalidating candidateVN o.vid)
  | .sleeping =>
    -- msleep returns once woken and once it has the mutex again; err = EAGAIN
    if t ∈ w.waitq then .blocked
    else if w.mutexOwner = none then getRootLoopEnd MACH_ASSERT t w EAGAIN none
    else .blocked
  | .creating =>
    -- err = vnode_create(..., &newVN)
    let err := o.create_err
    let newVN : Option vnode_t := if o.create_err = 0 then some o.create_vn else none
    match assert MACH_ASSERT ((err == 0) == (newVN != none)) with
    | none => .panic
    | some _ => .next { w with trace := w.trace ++ [.vnode_create err newVN] } (.created err newVN)
  | .created err newVN =>
    -- lck_mtx_lock
    if w.mutexOwner ≠ none then .blocked
    else if err = 0 then
      match assert MACH_ASSERT (w.mtmp.fRootVNode == none) with
      | none => .panic
      | some _ =>
        match newVN with
        | none => .panic -- vnode_addfsref(NULL) faults
        | some vn =>
          -- fRootVNode = newVN; junk = vnode_addfsref(newVN)
          match assert MACH_ASSERT w.mtmp.fRootAttaching with
          | none => .panic
          | some _ =>
            let woken := w.mtmp.fRootWaiting
            let w₁ : World :=
              { w with mtmp := { w.mtmp with fRootVNode := some vn, fRootAttaching := false,
                                                fRootWaiting := false },
                       waitq := if woken then [] else w.waitq,
                       trace := w.trace ++ [.vnode_addfsref vn] ++
                                  (if woken then [.wakeup] else []) }
            getRootLoopEnd MACH_ASSERT t w₁ 0 (some vn)
    else
      getRootLoopEnd MACH_ASSERT t w err none
  | .revalidating candidateVN vid =>
    -- err = vnode_getwithvid(candidateVN, vid)
    let w₁ : World :=
      { w with trace := w.trace ++ [.vnode_getwithvid candidateVN vid o.getwithvid_err] }
    if o.getwithvid_err = 0 then .next w₁ (.revalidated 0 (some candidateVN))
    else .next w₁ (.revalidated EAGAIN none)
  | .revalidated err resultVN =>
    -- lck_mtx_lock
    if w.mutexOwner ≠ none then .blocked else getRootLoopEnd MACH_ASSERT t w err resultVN
  | .returned _ _ => .blocked

/-- Source `VFSOPRoot`, given what its call of
`EmptyFSMountGetRootVNodeCreatingIfNecessary` (made with `vn = NULL`)
returned: the store of `vn` to `*vpp`, whatever VFS left there, and the
post-condition assert. The result is the returned error and `*vpp`. -/
def VFSOPRoot (MACH_ASSERT : Bool) (call : errno_t × Option vnode_t) :
    Option (errno_t × Option vnode_t) :=
  let err := call.1
  let vn := call.2
  let vpp := vn
  (assert MACH_ASSERT (err != 0 || vpp != none)).map fun _ => (err, vpp)

/-- Source `EmptyFSMountDetachRootVNode`: the whole body runs with the mutex
held, so it is one step, which has to wait while another thread holds the
mutex. `vnode_removefsref` returns 0. -/
def EmptyFSMountDetachRootVNode (MACH_ASSERT : Bool) (w : World) (vn : vnode_t) :
    Progress Unit :=
  -- lck_mtx_lock
  if w.mutexOwner ≠ none then .blocked
  else
    match assert MACH_ASSERT (!w.mtmp.fRootAttaching || w.mtmp.fRootVNode == none) with
    | none => .panic
    | some _ =>
      match w.mtmp.fRootVNode with
      | none => .next w ()
      | some root =>
        match assert MACH_ASSERT (root == vn) with
        | none => .panic
        | some _ =>
          .next { w with mtmp := { w.mtmp with fRootVNode := none },
                         trace := w.trace ++ [.vnode_removefsref root] } ()

/-- Source `ValidVNode` (compiled with `MACH_ASSERT` only): the vnode is the
root vnode of the mount. -/
def ValidVNode (w : World) (vn : vnode_t) : Bool :=
  w.mtmp.fRootVNode == some vn

/-- Source `VNOPReclaim`: assert the vnode is valid, detach it, return 0.
`ValidVNode` and the detach both start by taking the mutex. -/
def VNOPReclaim (MACH_ASSERT : Bool) (w : World) (vp : vnode_t) : Progress errno_t :=
  if w.mutexOwner ≠ none then .blocked
  else
    match assert MACH_ASSERT (ValidVNode w vp) with
    | none => .panic
    | some _ =>
      match EmptyFSMountDetachRootVNode MACH_ASSERT w vp with
      | .blocked => .blocked
      | .panic => .panic
      | .next w₁ _ => .next w₁ 0

/-! ## Threads that share a mount -/

/-- A mounted volume in use: the shared state and, for every thread that has
called `VFSOPRoot`, where its call of
`EmptyFSMountGetRootVNodeCreatingIfNecessary` stands. A thread is named by
its position in the list. -/
structure System where
  world : World
  threads : List GetRootPC
deriving DecidableEq, Repr

/-- What can happen next in a system.

* `call`: VFS calls `VFSOPRoot` on a new thread.
* `run t o`: thread `t` runs to its next stopping point, the kernel
  answering the call it makes with `o`.
* `reclaim vp`: VFS reclaims the vnode `vp`, which runs
  `EmptyFSMountDetachRootVNode`.
* `spurious t`: the `msleep` of thread `t` ends although no `wakeup` reached
  it. -/
inductive Label where
  | call
  | run (t : Nat) (o : Answer)
  | reclaim (vp : vnode_t)
  | spurious (t : Nat)
deriving DecidableEq, Repr

/-- One step of the system; `none` when the step cannot be taken (the thread
is blocked or does not exist) or ends in a panic. -/
def System.step (MACH_ASSERT : Bool) (σ : System) : Label → Option System
  | .call => some { σ with threads := σ.threads ++ [.entry] }
  | .run t o =>
    match σ.threads[t]? with
    | none => none
    | some pc =>
      match getRootStep MACH_ASSERT t o σ.world pc with
      | .next w pc' => some { world := w, threads := σ.threads.set t pc' }
      | _ => none
  | .reclaim vp =>
    match EmptyFSMountDetachRootVNode MACH_ASSERT σ.world vp with
    | .next w _ => some { σ with world := w }
    | _ => none
  | .spurious t =>
    if t ∈ σ.world.waitq then
      some { σ with world := { σ.world with waitq := σ.world.waitq.filter (fun u => u ≠ t) } }
    else none

/-- A run of the system along a list of labels; `none` when one of the steps
cannot be taken. -/
def System.exec (MACH_ASSERT : Bool) : System → List Label → Option System
  | σ, [] => some σ
  | σ, l :: ls =>
    match σ.step MACH_ASSERT l with
    | none => none
    | some σ' => System.exec MACH_ASSERT σ' ls

/-- The root fields of a mount record as `VFSOPMount` leaves them: no root
vnode, nobody attaching, nobody waiting. -/
def postMount (m : EmptyFSMount) : Prop :=
  m.fRootAttaching = false ∧ m.fRootWaiting = false ∧ m.fRootVNode = none

instance (m : EmptyFSMount) : Decidable (postMount m) :=
  inferInstanceAs (Decidable (_ ∧ _))

/-- The system right after the mount, with `n` threads that have just called
`VFSOPRoot`. -/
def System.init (m : EmptyFSMount) (n : Nat) : System :=
  { world := { mtmp := m, mutexOwner := none, waitq := [], trace := [] },
    threads := List.replicate n .entry }

/-- The systems that can arise after a mount. -/
def Reachable (MACH_ASSERT : Bool) (σ : System) : Prop :=
  ∃ (m : EmptyFSMount) (n : Nat) (ls : List Label),
    postMount m ∧ System.exec MACH_ASSERT (System.init m n) ls = some σ

/-- A mount record fresh from `VFSOPMount`. -/
def sampleMount : EmptyFSMount :=
  { fMagic := 0x4d744d6e, fMountPoint := some 1, fDebugLevel := 0, fBlockRDevNum := 7,
    fBlockDevVNode := some 9, fRootMutex := some 1,
    fRootAttaching := false, fRootWaiting := false, fRootVNode := none }

/-- A kernel answer: `vnode_create` ends with `err` (making vnode `vn` when
`err` is 0), `vnode_vid` reads 1 and `vnode_getwithvid` succeeds. -/
def answer (err : errno_t) (vn : vnode_t) : Answer :=
  { create_err := err, create_vn := vn, vid := 1, getwithvid_err := 0 }

/-- The moves of `getRootStep` for thread `t`, one constructor for every way
through the code between two stopping points, without the asserts. -/
inductive GetRootTrans (t : Nat) : World → GetRootPC → World → GetRootPC → Prop where
  | lock (w : World) (h : w.mutexOwner = none) :
      GetRootTrans t w .entry { w with mutexOwner := some t } .loopTop
  | wait (w : World) (h : w.mtmp.fRootAttaching = true) :
      GetRootTrans t w .loopTop
        { w with mtmp := { w.mtmp with fRootWaiting := true },
                 mutexOwner := none, waitq := t :: w.waitq } .sleeping
  | attach (w : World) (h : w.mtmp.fRootAttaching = false) (hr : w.mtmp.fRootVNode = none) :
      GetRootTrans t w .loopTop
        { w with mtmp := { w.mtmp with fRootAttaching := true }, mutexOwner := none } .creating
  | found (w : World) (c : vnode_t) (vid : Nat) (h : w.mtmp.fRootAttaching = false)
      (hr : w.mtmp.fRootVNode = some c) :
      GetRootTrans t w .loopTop { w with mutexOwner := none } (.revalidating c vid)
  | wake (w : World) (hq : t ∉ w.waitq) (h : w.mutexOwner = none) :
      GetRootTrans t w .sleeping { w with mutexOwner := some t } .loopTop
  | create (w : World) (err : errno_t) (v : vnode_t) :
      GetRootTrans t w .creating
        { w with trace := w.trace ++ [.vnode_create err (if err = 0 then some v else none)] }
        (.created err (if err = 0 then some v else none))
  | install (w : World) (vn : vnode_t) (h : w.mutexOwner = none) :
      GetRootTrans t w (.created 0 (some vn))
        { w with mtmp := { w.mtmp with fRootVNode := some vn, fRootAttaching := false,
                                          fRootWaiting := false },
                 waitq := if w.mtmp.fRootWaiting then [] else w.waitq,
                 trace := w.trace ++ [.vnode_addfsref vn] ++
                            (if w.mtmp.fRootWaiting then [.wakeup] else []),
                 mutexOwner := none }
        (.returned 0 (some vn))
  | fail (w : World) (err : errno_t) (newVN : Option vnode_t) (h : w.mutexOwner = none)
      (he : err ≠ 0) (ha : err ≠ EAGAIN) :
      GetRootTrans t w (.created err newVN) { w with mutexOwner := none } (.returned err none)
  | failAgain (w : World) (newVN : Option vnode_t) (h : w.mutexOwner = none) :
      GetRootTrans t w (.created EAGAIN newVN) { w with mutexOwner := some t } .loopTop
  | fresh (w : World) (c : vnode_t) (vid : Nat) :
      GetRootTrans t w (.revalidating c vid)
        { w with trace := w.trace ++ [.vnode_getwithvid c vid 0] } (.revalidated 0 (some c))
  | stale (w : World) (c : vnode_t) (vid : Nat) (err : errno_t) (he : err ≠ 0) :
      GetRootTrans t w (.revalidating c vid)
        { w with trace := w.trace ++ [.vnode_getwithvid c vid err] } (.revalidated EAGAIN none)
  | done (w : World) (err : errno_t) (r : Option vnode_t) (h : w.mutexOwner = none)
      (ha : err ≠ EAGAIN) :
      GetRootTrans t w (.revalidated err r) { w with mutexOwner := none }
        (.returned err (if err = 0 then r else none))
  | again (w : World) (r : Option vnode_t) (h : w.mutexOwner = none) :
      GetRootTrans t w (.revalidated EAGAIN r) { w with mutexOwner := some t } .loopTop

/-- The thread is constructing the root vnode: the mutex released after
setting `fRootAttaching`, not yet taken again. -/
def GetRootPC.isCreator : GetRootPC → Bool
  | .creating => true
  | .created _ _ => true
  | _ => false

/-- The locals at a stopping point fit together: an error of 0 goes with a
vnode, any other error with `NULL`. -/
def GetRootPC.localsOk : GetRootPC → Prop
  | .created err newVN => (err = 0 ↔ newVN ≠ none)
  | .revalidated err resultVN => (err = 0 ↔ resultVN ≠ none)
  | .returned err vn => (err = 0 ↔ vn ≠ none)
  | _ => True

/-- What holds of every system that can arise after a mount. -/
structure RootInv (σ : System) : Prop where
  attaching_root : σ.world.mtmp.fRootAttaching = true → σ.world.mtmp.fRootVNode = none
  waiting_attaching : σ.world.mtmp.fRootWaiting = true → σ.world.mtmp.fRootAttaching = true
  owner_loopTop : ∀ t : Nat, σ.world.mutexOwner = some t ↔ σ.threads[t]? = some .loopTop
  creator_attaching : ∀ (t : Nat) (pc : GetRootPC), σ.threads[t]? = some pc →
    pc.isCreator = true →
    σ.world.mtmp.fRootAttaching = true
  creator_unique : ∀ (t u : Nat) (pc qc : GetRootPC), σ.threads[t]? = some pc →
    σ.threads[u]? = some qc → pc.isCreator = true → qc.isCreator = true → t = u
  locals : ∀ (t : Nat) (pc : GetRootPC), σ.threads[t]? = some pc → pc.localsOk
  waitq_sleeping : ∀ t : Nat, t ∈ σ.world.waitq → σ.threads[t]? = some .sleeping
  waitq_waiting : σ.world.waitq ≠ [] → σ.world.mtmp.fRootWaiting = true

/-- A world with the given root fields, the mutex free, nobody asleep and no
call made yet. -/
def sampleWorld (attaching waiting : Bool) (root : Option vnode_t) : World :=
  { mtmp := { sampleMount with fRootAttaching := attaching, fRootWaiting := waiting,
                                fRootVNode := root },
    mutexOwner := none, waitq := [], trace := [] }

/-! ## Concurrent callers on a fresh mount -/

/-- The calls of `vnode_create` in a trace, each with its result. -/
def createCalls : List Event → List (errno_t × Option vnode_t)
  | [] => []
  | .vnode_create err newVN :: tr => (err, newVN) :: createCalls tr
  | _ :: tr => createCalls tr

/-- Steps of a run in which construction succeeds and nothing is reclaimed:
a step of one of the callers in which `vnode_create`, if called, succeeds, or
a spurious wakeup. -/
def Label.steady : Label → Bool
  | .run _ o => o.create_err == 0
  | .spurious _ => true
  | _ => false

/-- Steps of a run in which moreover `vnode_getwithvid` succeeds and no
`msleep` ends without a `wakeup`. -/
def Label.calm : Label → Bool
  | .run _ o => o.create_err == 0 && o.getwithvid_err == 0
  | _ => false

/-- What holds moreover of a system that arose from a fresh mount through
steady steps. -/
structure SteadyInv (σ : System) : Prop where
  fresh_none : σ.world.mtmp.fRootAttaching = false → σ.world.mtmp.fRootVNode = none →
    createCalls σ.world.trace = []
  root_created : ∀ h : vnode_t, σ.world.mtmp.fRootVNode = some h →
    createCalls σ.world.trace = [(0, some h)]
  creating_none : ∀ t : Nat, σ.threads[t]? = some .creating → createCalls σ.world.trace = []
  created_ok : ∀ (t : Nat) (e : errno_t) (v : Option vnode_t),
    σ.threads[t]? = some (.created e v) →
    e = 0 ∧ ∃ h : vnode_t, v = some h ∧ createCalls σ.world.trace = [(0, some h)]
  returned_root : ∀ (t : Nat) (e : errno_t) (v : Option vnode_t),
    σ.threads[t]? = some (.returned e v) →
    e = 0 ∧ v = σ.world.mtmp.fRootVNode ∧ v ≠ none
  revalidating_root : ∀ (t : Nat) (c : vnode_t) (vid : Nat),
    σ.threads[t]? = some (.revalidating c vid) → σ.world.mtmp.fRootVNode = some c
  revalidated_root : ∀ (t : Nat) (e : errno_t) (r : Option vnode_t),
    σ.threads[t]? = some (.revalidated e r) →
    (e = 0 ∧ r = σ.world.mtmp.fRootVNode ∧ r ≠ none) ∨ (e = EAGAIN ∧ r = none)
  attaching_creator : σ.world.mtmp.fRootAttaching = true →
    ∃ (t : Nat) (pc : GetRootPC), σ.threads[t]? = some pc ∧ pc.isCreator = true

/-- What holds moreover of a system that arose from a fresh mount through
calm steps: no revalidation has failed, and until the root vnode is
installed every sleeping thread is still in the wait queue. -/
structure CalmInv (σ : System) : Prop where
  revalidated_ok : ∀ (t : Nat) (e : errno_t) (r : Option vnode_t),
    σ.threads[t]? = some (.revalidated e r) → e = 0
  sleeping_waitq : σ.world.mtmp.fRootVNode = none →
    ∀ t : Nat, σ.threads[t]? = some .sleeping → t ∈ σ.world.waitq

/-- A bound on the number of steps a call still takes in a calm run,
depending on whether the root vnode is installed (`done`). -/
def GetRootPC.weight (done : Bool) : GetRootPC → Nat
  | .entry => if done then 4 else 7
  | .loopTop => if done then 3 else 6
  | .sleeping => if done then 4 else 5
  | .creating => 2
  | .created _ _ => 1
  | .revalidating _ _ => 2
  | .revalidated _ _ => 1
  | .returned _ _ => 0

/-- A bound on the number of steps left in a calm run of a system. -/
def System.measure (σ : System) : Nat :=
  (σ.threads.map (GetRootPC.weight σ.world.mtmp.fRootVNode.isSome)).sum

/-- The thread reached its next stopping point. -/
def Progress.isNext {α : Type} : Progress α → Bool
  | .next _ _ => true
  | _ => false

/-! ## Loading and unloading the kernel extension -/

abbrev kern_return_t := Int

/-- Value of `KERN_SUCCESS` in `<mach/kern_return.h>`. -/
def KERN_SUCCESS : kern_return_t := 0

/-- Value of `KERN_FAILURE` in `<mach/kern_return.h>`. -/
def KERN_FAILURE : kern_return_t := 5

/-- Value of `EBUSY` in `<sys/errno.h>`. -/
def EBUSY : errno_t := 16

/-- Source `ErrnoFromKernReturn`. -/
def ErrnoFromKernReturn (kernErr : kern_return_t) : errno_t :=
  if kernErr = KERN_SUCCESS then 0 else EINVAL

/-- Source `KernReturnFromErrno`. The body sets the local `kernErr` and then
ends with `return err;`: the value returned is the argument. -/
def KernReturnFromErrno (err : errno_t) : kern_return_t :=
  let kernErr : kern_return_t := if err = 0 then KERN_SUCCESS else KERN_FAILURE
  -- return err;
  (fun (_ : kern_return_t) => err) kernErr

/-- The globals of the kernel extension: the malloc tag, the lock group and
the reference to the registered VFS table. -/
structure Globals where
  gOSMallocTag : Option Nat
  gLockGroup : Option Nat
  gVFSTableRef : Option Nat
deriving DecidableEq, Repr

/-- What the kernel answers to the calls made while the extension is loaded
or unloaded: the results of `OSMalloc_Tagalloc` and `lck_grp_alloc_init`
(`none` is `NULL`), the error of `vfs_fsadd` and the table reference it
stores when that error is 0, and the error of `vfs_fsremove`. -/
structure LoadAnswer where
  tagalloc : Option Nat
  grp_alloc : Option Nat
  fsadd_err : errno_t
  fsadd_table : Nat
  fsremove_err : errno_t
deriving DecidableEq, Repr

/-- Source `TermMemoryAndLocks`. -/
def TermMemoryAndLocks (g : Globals) : Globals :=
  let g₁ := if g.gLockGroup ≠ none then { g with gLockGroup := none } else g
  if g₁.gOSMallocTag ≠ none then { g₁ with gOSMallocTag := none } else g₁

/-- Source `InitMemoryAndLocks`; `none` is a panic at one of its asserts. -/
def InitMemoryAndLocks (MACH_ASSERT : Bool) (o : LoadAnswer) (g : Globals) :
    Option (kern_return_t × Globals) :=
  let err₀ : kern_return_t := KERN_SUCCESS
  let g₁ : Globals := { g with gOSMallocTag := o.tagalloc }
  let err₁ : kern_return_t := if g₁.gOSMallocTag = none then KERN_FAILURE else err₀
  let s₂ : kern_return_t × Globals :=
    if err₁ = KERN_SUCCESS then
      let g₂ : Globals := { g₁ with gLockGroup := o.grp_alloc }
      if g₂.gLockGroup = none then (KERN_FAILURE, g₂) else (err₁, g₂)
    else (err₁, g₁)
  let err := s₂.1
  let g₃ := if err ≠ KERN_SUCCESS then TermMemoryAndLocks s₂.2 else s₂.2
  (assert MACH_ASSERT ((err == KERN_SUCCESS) == (g₃.gOSMallocTag != none))).bind fun _ =>
  (assert MACH_ASSERT ((err == KERN_SUCCESS) == (g₃.gLockGroup != none))).map fun _ =>
  (err, g₃)

/-- Source `MODULE_START`; `none` is a panic at an assert. -/
def MODULE_START (MACH_ASSERT : Bool) (o : LoadAnswer) (g : Globals) :
    Option (kern_return_t × Globals) :=
  (assert MACH_ASSERT (g.gVFSTableRef == none)).bind fun _ =>
  (InitMemoryAndLocks MACH_ASSERT o g).map fun r =>
  let kernErr := r.1
  let err₀ := ErrnoFromKernReturn kernErr
  let s : errno_t × Globals :=
    if err₀ = 0 then
      -- err = vfs_fsadd(&gVFSEntry, &gVFSTableRef)
      (o.fsadd_err, if o.fsadd_err = 0 then { r.2 with gVFSTableRef := some o.fsadd_table } else r.2)
    else (err₀, r.2)
  let err := s.1
  let g₂ := if err ≠ 0 then TermMemoryAndLocks s.2 else s.2
  (KernReturnFromErrno err, g₂)

/-- Source `MODULE_STOP`. -/
def MODULE_STOP (o : LoadAnswer) (g : Globals) : kern_return_t × Globals :=
  -- err = vfs_fsremove(gVFSTableRef)
  let err := o.fsremove_err
  let g₁ := if err = 0 then TermMemoryAndLocks { g with gVFSTableRef := none } else g
  (KernReturnFromErrno err, g₁)

/-- The globals of an extension that is loaded and registered. -/
def sampleGlobals : Globals :=
  { gOSMallocTag := some 1, gLockGroup := some 2, gVFSTableRef := some 3 }

/-- The globals before the extension is loaded. -/
def noGlobals : Globals :=
  { gOSMallocTag := none, gLockGroup := none, gVFSTableRef := none }

/-! ## Resuming a directory enumeration -/

/-- A caller that enumerates the directory with one call of `VNOPReadDir`
per argument block: the first call at cursor `cursor`, each later call at
the cursor the call before it left in its uio. The result lists what every
call returned; `none` when one of the calls panics. -/
def readDirFrom (MACH_ASSERT : Bool) (sizeof_dirent : Nat) (uiomove_err : uio → errno_t) :
    Int → List vnop_readdir_args → Option (List (errno_t × vnop_readdir_args))
  | _, [] => some []
  | cursor, ap :: aps =>
    match VNOPReadDir MACH_ASSERT sizeof_dirent uiomove_err (withCursor ap cursor) with
    | none => none
    | some r =>
      match readDirFrom MACH_ASSERT sizeof_dirent uiomove_err r.2.a_uio.offset aps with
      | none => none
      | some rs => some (r :: rs)

/-- The records the calls of such a run emitted, in order: for every call,
what it appended to the buffer it was given. -/
def emittedBy : List vnop_readdir_args → List (errno_t × vnop_readdir_args) →
    List (dirent × Nat)
  | ap :: aps, r :: rs => r.2.a_uio.moved.drop ap.a_uio.moved.length ++ emittedBy aps rs
  | _, _ => []

/-- The number of records a resumed call is to emit when `already` records
have been emitted before it and the caller offers `resid` bytes: what is
left of the two, or as many whole records as fit, whichever is less. -/
def emitCount (sizeof_dirent already resid : Nat) : Nat :=
  min (2 - already) (resid / sizeof_dirent)

/-- What a resumed call is to return when `already` records have been emitted
before it: error 0, the next `emitCount` records of ".", ".." appended to the
buffer, that count reported, the cursor at 7 times the number emitted so far,
and end of directory reported exactly when that number is 2. -/
def resumedCall (sizeof_dirent already : Nat) (ap : vnop_readdir_args) :
    errno_t × vnop_readdir_args :=
  let n := emitCount sizeof_dirent already ap.a_uio.resid
  (0, { a_uio := { offset := 7 * ((already + n : Nat) : Int),
                   resid := ap.a_uio.resid - n * sizeof_dirent,
                   moved := ap.a_uio.moved ++
                     ([(dotItem sizeof_dirent, sizeof_dirent),
                       (dotdotItem sizeof_dirent, sizeof_dirent)].drop already).take n },
        a_flags := ap.a_flags,
        a_eofflag := ap.a_eofflag.map (fun _ => if already + n = 2 then TRUE else FALSE),
        a_numdirent := ap.a_numdirent.map (fun _ => (n : Int)) })

/-- What the calls of a resumed enumeration are to return, one after the
other, when `already` records have been emitted before the first of them. -/
def resumedRun (sizeof_dirent : Nat) : Nat → List vnop_readdir_args →
    List (errno_t × vnop_readdir_args)
  | _, [] => []
  | already, ap :: aps =>
    resumedCall sizeof_dirent already ap ::
      resumedRun sizeof_dirent (already + emitCount sizeof_dirent already ap.a_uio.resid) aps

/-- Along the calls of a resumed enumeration, with `already` records emitted
before the first of them: every call reports end of directory exactly when
the number of records emitted up to and including that call is 2. -/
def eofWhenDone : Nat → List vnop_readdir_args → List (errno_t × vnop_readdir_args) → Prop
  | already, ap :: aps, r :: rs =>
    r.2.a_eofflag =
        ap.a_eofflag.map
          (fun _ => if already + (r.2.a_uio.moved.length - ap.a_uio.moved.length) = 2
                    then TRUE else FALSE) ∧
      eofWhenDone (already + (r.2.a_uio.moved.length - ap.a_uio.moved.length)) aps rs
  | _, _, _ => True

/-! ## Where the errors of a call come from -/

/-- The error a thread holds at a stopping point is accounted for by the
calls made so far (`tr`): after `vnode_create` it is the recorded result of a
`vnode_create`, with no vnode when it is not 0; after the revalidation it is
0 or `EAGAIN`; and a returned error is not `EAGAIN` and, when it is not 0,
the recorded error of a `vnode_create` that made no vnode. -/
def GetRootPC.errOk (tr : List Event) : GetRootPC → Prop
  | .created err newVN => Event.vnode_create err newVN ∈ tr ∧ (err ≠ 0 → newVN = none)
  | .revalidated err _ => err = 0 ∨ err = EAGAIN
  | .returned err _ => err ≠ EAGAIN ∧ (err ≠ 0 → Event.vnode_create err none ∈ tr)
  | _ => True

/-- Every thread of the system holds an error that is accounted for. -/
def ErrInv (σ : System) : Prop :=
  ∀ pc ∈ σ.threads, pc.errOk σ.world.trace

/-! ## Soft references on the root vnode -/

/-- The number of `vnode_addfsref` calls in a trace. -/
def addfsrefCount : List Event → Nat
  | [] => 0
  | .vnode_addfsref _ :: tr => addfsrefCount tr + 1
  | _ :: tr => addfsrefCount tr

/-- The number of `vnode_removefsref` calls in a trace. -/
def removefsrefCount : List Event → Nat
  | [] => 0
  | .vnode_removefsref _ :: tr => removefsrefCount tr + 1
  | _ :: tr => removefsrefCount tr

/-- The vnode that holds the driver's soft reference after the calls of a
trace, when `held` held it before: `vnode_addfsref vn` is in order only while
no vnode holds the reference and gives it to `vn`; `vnode_removefsref vn` is
in order only while `vn` holds it and leaves no holder. `none` when a call is
out of order. -/
def fsrefHolder : Option vnode_t → List Event → Option (Option vnode_t)
  | held, [] => some held
  | held, .vnode_addfsref vn :: tr => if held = none then fsrefHolder (some vn) tr else none
  | held, .vnode_removefsref vn :: tr => if held = some vn then fsrefHolder none tr else none
  | held, _ :: tr => fsrefHolder held tr

/-! ## The mutex around the root fields -/

/-- The fields of the mount record that `fRootMutex` protects. -/
inductive RootField where
  | fRootAttaching
  | fRootWaiting
  | fRootVNode
deriving DecidableEq, Repr

/-- What `EmptyFSMountGetRootVNodeCreatingIfNecessary` does to the mutex, to
the fields the mutex protects and to the kernel, one operation at a time:
`lck_mtx_lock` and `lck_mtx_unlock`; `msleep` giving up the mutex and
`msleep` having taken it again; a read and a write of a root field;
`vnode_vid`; and a call that is recorded in the trace. -/
inductive LockOp where
  | lck_mtx_lock
  | lck_mtx_unlock
  | msleep_release
  | msleep_reacquire
  | read (f : RootField)
  | write (f : RootField)
  | vnode_vid
  | call (e : Event)
deriving DecidableEq, Repr

/-- The operations of the step `getRootStep` takes from a stopping point, in
the order of the source. The reads made by an `assert` are there when the
kernel is built with `MACH_ASSERT`. -/
def getRootOps (MACH_ASSERT : Bool) (o : Answer) (w : World) : GetRootPC → List LockOp
  | .entry => [.lck_mtx_lock]
  | .loopTop =>
    if w.mtmp.fRootAttaching then
      -- if (fRootAttaching) { fRootWaiting = TRUE; msleep(...) }
      [.read .fRootAttaching, .write .fRootWaiting, .msleep_release]
    else
      match w.mtmp.fRootVNode with
      | none =>
        -- else if (fRootVNode == NULL) { fRootAttaching = TRUE; lck_mtx_unlock
        [.read .fRootAttaching, .read .fRootVNode, .write .fRootAttaching, .lck_mtx_unlock]
      | some _ =>
        -- else { candidateVN = fRootVNode; vid = vnode_vid(candidateVN); lck_mtx_unlock
        [.read .fRootAttaching, .read .fRootVNode, .read .fRootVNode, .vnode_vid,
         .lck_mtx_unlock]
  | .sleeping => [.msleep_reacquire]
  | .creating =>
    [.call (.vnode_create o.create_err (if o.create_err = 0 then some o.create_vn else none))]
  | .created err newVN =>
    [.lck_mtx_lock] ++
    (if err = 0 then
      (if MACH_ASSERT then [.read .fRootVNode] else []) ++
      [.write .fRootVNode] ++
      (match newVN with
       | some vn => [.call (.vnode_addfsref vn)]
       | none => []) ++
      (if MACH_ASSERT then [.read .fRootAttaching] else []) ++
      [.write .fRootAttaching, .read .fRootWaiting] ++
      (if w.mtmp.fRootWaiting then [.call .wakeup, .write .fRootWaiting] else []) ++
      [.read .fRootVNode]
    else []) ++
    (if err = EAGAIN then [] else [.lck_mtx_unlock])
  | .revalidating candidateVN vid =>
    [.call (.vnode_getwithvid candidateVN vid o.getwithvid_err)]
  | .revalidated err _ =>
    [.lck_mtx_lock] ++ (if err = EAGAIN then [] else [.lck_mtx_unlock])
  | .returned _ _ => []

/-- The calls among a list of operations that are recorded in the trace. -/
def callsOf : List LockOp → List Event
  | [] => []
  | .call e :: ops => e :: callsOf ops
  | _ :: ops => callsOf ops

/-- The call is one that has to be made without the mutex. -/
def Event.unlocked : Event → Bool
  | .vnode_create _ _ => true
  | .vnode_getwithvid _ _ _ => true
  | _ => false

/-- The lock discipline, checked along a list of operations of one thread
that starts with the mutex held by the thread or not (`held`): the mutex is
taken only when the thread does not hold it and released only when it does;
every read and every write of a root field is made with the mutex held; and
`vnode_create` and `vnode_getwithvid` are called without it. The result is
whether the thread holds the mutex at the end, or `none` when an operation
breaks the discipline. -/
def lockReplay : Bool → List LockOp → Option Bool
  | held, [] => some held
  | held, .lck_mtx_lock :: ops => if held then none else lockReplay true ops
  | held, .msleep_reacquire :: ops => if held then none else lockReplay true ops
  | held, .lck_mtx_unlock :: ops => if held then lockReplay false ops else none
  | held, .msleep_release :: ops => if held then lockReplay false ops else none
  | held, .read _ :: ops => if held then lockReplay held ops else none
  | held, .write _ :: ops => if held then lockReplay held ops else none
  | held, .vnode_vid :: ops => lockReplay held ops
  | held, .call e :: ops => if held && e.unlocked then none else lockReplay held ops

/-- The number of times a list of operations takes the mutex. -/
def acquireCount : List LockOp → Nat
  | [] => 0
  | .lck_mtx_lock :: ops => acquireCount ops + 1
  | .msleep_reacquire :: ops => acquireCount ops + 1
  | _ :: ops => acquireCount ops

/-- The number of times a list of operations releases the mutex. -/
def releaseCount : List LockOp → Nat
  | [] => 0
  | .lck_mtx_unlock :: ops => releaseCount ops + 1
  | .msleep_release :: ops => releaseCount ops + 1
  | _ :: ops => releaseCount ops

/-- The thread holds the mutex at this stopping point. -/
def GetRootPC.holdsMutex : GetRootPC → Bool
  | .loopTop => true
  | _ => false

/-- Thread `t` of the system holds the mutex (a thread that has not called
yet does not). -/
def System.heldBy (σ : System) (t : Nat) : Bool :=
  match σ.threads[t]? with
  | some pc => pc.holdsMutex
  | none => false

/-- The operations thread `t` performs in one step of the system: those of
its own step when the step is a step of `t`, none otherwise. -/
def System.stepOps (MACH_ASSERT : Bool) (t : Nat) (σ : System) : Label → List LockOp
  | .run u o =>
    match σ.threads[t]? with
    | some pc => if u = t then getRootOps MACH_ASSERT o σ.world pc else []
    | none => []
  | _ => []

/-- The operations thread `t` performs in a run of the system, in order. -/
def System.opsOf (MACH_ASSERT : Bool) (t : Nat) : System → List Label → List LockOp
  | _, [] => []
  | σ, l :: ls =>
    match σ.step MACH_ASSERT l with
    | none => []
    | some σ' => σ.stepOps MACH_ASSERT t l ++ System.opsOf MACH_ASSERT t σ' ls

/-! ## Mounting and unmounting -/

/-- Value of `ENOTSUP` in `<sys/errno.h>`. -/
def ENOTSUP : errno_t := 45

/-- Value of `MNT_FORCE` in `<sys/mount.h>`. -/
def MNT_FORCE : Nat := 0x00080000

/-- Value of `FORCECLOSE` in `<sys/mount.h>`. -/
def FORCECLOSE : Nat := 0x0002

/-- Source `kEmptyFSMountMagic`, the four-character constant 'MtMn'. -/
def kEmptyFSMountMagic : Nat := 0x4d744d6e

/-- Source `kEmptyFSMountBadMagic`, the four-character constant 'M!Mn'. -/
def kEmptyFSMountBadMagic : Nat := 0x4d214d6e

/-- The fields of `EmptyFSMountArgs` that `VFSOPMount` reads. The structure
and `kEmptyFSMountArgsMagic` are declared in `EmptyFSMountArgs.h`, which is
not part of the repository; the constant is a parameter of `VFSOPMount`. -/
structure EmptyFSMountArgs where
  fMagic : Nat
  fDebugLevel : Nat
  fForceFailure : Nat
deriving DecidableEq, Repr

/-- A call the driver makes into the kernel while it mounts or unmounts, with
its arguments and, where it has one that matters, its result. `OSFree`
carries the record as it is handed back; `vnop` is a call made by a vnode
operation that VFS ran inside `vflush`. -/
inductive MountEvent where
  | OSMalloc (p : Option Nat)
  | vfs_setfsprivate (p : Nat)
  | vnode_ref (vp : vnode_t) (err : errno_t)
  | lck_mtx_alloc_init (m : Option Nat)
  | vfs_setflags
  | vflush (flags : Nat) (err : errno_t)
  | vnop (e : Event)
  | vnode_rele (vp : vnode_t)
  | lck_mtx_free (m : Nat)
  | OSFree (p : Nat) (mtmp : EmptyFSMount)
deriving DecidableEq, Repr

/-- A `mount_t` and what hangs off it: its identity `mp`, whether the request
is an update (`vfs_isupdate`), the private pointer (`vfs_fsprivate`, `none`
is `NULL`), the record `VFSOPMount` allocated while it is not freed (its
address and its contents), and the calls made so far, oldest first. -/
structure Mount where
  mp : Nat
  isupdate : Bool
  fsprivate : Option Nat
  heap : Option (Nat × EmptyFSMount)
  calls : List MountEvent
deriving DecidableEq, Repr

/-- What the kernel answers to the calls `VFSOPMount` and `VFSOPUnmount`
make: the error of `copyin` and the arguments it copies in, the result of
`OSMalloc` (`none` is `NULL`), the error of `vnode_ref`, the value of
`vnode_specrdev`, the result of `lck_mtx_alloc_init`, and the error of
`vflush`. -/
structure MountAnswer where
  copyin_err : errno_t
  args : EmptyFSMountArgs
  malloc : Option Nat
  vnode_ref_err : errno_t
  specrdev : Nat
  mutex : Option Nat
  vflush_err : errno_t
deriving DecidableEq, Repr

/-- The record at address `p`: `none` once it has been freed (or when nothing
was allocated there). -/
def Mount.deref (s : Mount) (p : Nat) : Option EmptyFSMount :=
  match s.heap with
  | some (q, r) => if q = p then some r else none
  | none => none

/-- A record as `memset(mtmp, 0, sizeof(*mtmp))` leaves it. -/
def zeroMount : EmptyFSMount :=
  { fMagic := 0, fMountPoint := none, fDebugLevel := 0, fBlockRDevNum := 0,
    fBlockDevVNode := none, fRootMutex := none,
    fRootAttaching := false, fRootWaiting := false, fRootVNode := none }

/-- Kernel routine `vflush`, as the comments of `VFSOPUnmount` describe it:
it fails with the error the kernel answers, or it succeeds and has then
forced VFS to reclaim every vnode of the mount. The one vnode this driver
makes is the root vnode, so a successful `vflush` runs `VNOPReclaim` on the
vnode in `fRootVNode`, if the mount has a record and the record has one.
Nobody else runs in the file system meanwhile: the mutex is free. `none` is
a panic inside `VNOPReclaim`. -/
def vflush (MACH_ASSERT : Bool) (err : errno_t) (s : Mount) (flags : Nat) :
    Option (errno_t × Mount) :=
  let s₁ : Mount := { s with calls := s.calls ++ [.vflush flags err] }
  if err ≠ 0 then some (err, s₁)
  else
    match s.fsprivate, s.heap with
    | some p, some (q, r) =>
      match r.fRootVNode with
      | some vn =>
        if p = q then
          match VNOPReclaim MACH_ASSERT
              { mtmp := r, mutexOwner := none, waitq := [], trace := [] } vn with
          | .next w _ =>
            some (0, { s₁ with heap := some (q, w.mtmp),
                               calls := s₁.calls ++ w.trace.map MountEvent.vnop })
          | _ => none
        else some (0, s₁)
      | none => some (0, s₁)
    | _, _ => some (0, s₁)

/-- Source `EmptyFSMountFromMount`: the private pointer of the mount. The
three asserts are the only code that looks at the pointer or behind it;
`none` is a panic at one of them, or a read of freed memory by one of
them. -/
def EmptyFSMountFromMount (MACH_ASSERT : Bool) (s : Mount) : Option (Option Nat) :=
  let result := s.fsprivate
  if MACH_ASSERT then
    match result with
    | none => none
    | some p =>
      match s.deref p with
      | none => none
      | some r =>
        (assert MACH_ASSERT (r.fMagic == kEmptyFSMountMagic)).bind fun _ =>
        (assert MACH_ASSERT (r.fMountPoint == some s.mp)).map fun _ => result
  else some result

/-- Source `VFSOPUnmount`. The result is the returned error and the mount as
the call leaves it; `none` is a panic at an assert or a use of freed
memory. -/
def VFSOPUnmount (MACH_ASSERT : Bool) (o : MountAnswer) (s : Mount) (mntflags : Nat) :
    Option (errno_t × Mount) :=
  let forcedUnmount : Bool := mntflags &&& MNT_FORCE != 0
  let flushFlags : Nat := if forcedUnmount then FORCECLOSE else 0
  -- err = vflush(mp, NULL, flushFlags)
  (vflush MACH_ASSERT o.vflush_err s flushFlags).bind fun f =>
  let err := f.1
  let s₁ := f.2
  if err = 0 then
    if s₁.fsprivate ≠ none then
      (EmptyFSMountFromMount MACH_ASSERT s₁).bind fun mtmp =>
      match mtmp with
      | none => none
      | some p =>
        match s₁.deref p with
        | none => none
        | some r =>
          -- if (mtmp->fBlockDevVNode != NULL) { vnode_rele(...); ... }
          let rel : EmptyFSMount × List MountEvent :=
            match r.fBlockDevVNode with
            | some vp => ({ r with fBlockDevVNode := none, fBlockRDevNum := 0 }, [.vnode_rele vp])
            | none => (r, [])
          let r₁ := rel.1
          (assert MACH_ASSERT (!r₁.fRootAttaching)).bind fun _ =>
          (assert MACH_ASSERT (!r₁.fRootWaiting)).bind fun _ =>
          (assert MACH_ASSERT (r₁.fRootVNode == none)).bind fun _ =>
          -- if (mtmp->fRootMutex != NULL) { lck_mtx_free(...); }
          let fre : List MountEvent :=
            match r₁.fRootMutex with
            | some m => [.lck_mtx_free m]
            | none => []
          let r₂ : EmptyFSMount := { r₁ with fMagic := kEmptyFSMountBadMagic }
          -- OSFree(mtmp, sizeof(*mtmp), gOSMallocTag)
          some (err, { s₁ with heap := none,
                               calls := s₁.calls ++ rel.2 ++ fre ++ [.OSFree p r₂] })
    else some (err, s₁)
  else some (err, s₁)

/-- A store through `mtmp` into the record `VFSOPMount` has allocated. -/
def Mount.store (s : Mount) (f : EmptyFSMount → EmptyFSMount) : Mount :=
  match s.heap with
  | some (p, r) => { s with heap := some (p, f r) }
  | none => s

/-- Source `VFSOPMount`, for the mount `s` and the device vnode `devvp`. The
result is the returned error and the mount as the call leaves it; `none` is
a panic at an assert. The volume name, the attribute snapshot and the statfs
block, which no other code of the embedding reads, are left out. -/
def VFSOPMount (MACH_ASSERT : Bool) (kEmptyFSMountArgsMagic : Nat) (o : MountAnswer)
    (s : Mount) (devvp : vnode_t) : Option (errno_t × Mount) :=
  -- err = 0; if (vfs_isupdate(mp)) err = ENOTSUP
  let err₀ : errno_t := if s.isupdate then ENOTSUP else 0
  -- err = copyin(data, &args, sizeof(EmptyFSMountArgs))
  let err₁ : errno_t := if err₀ = 0 then o.copyin_err else err₀
  let args := o.args
  let err₂ : errno_t :=
    if err₁ = 0 then (if args.fMagic ≠ kEmptyFSMountArgsMagic then EINVAL else err₁) else err₁
  -- mtmp = OSMalloc(sizeof(*mtmp), gOSMallocTag)
  let a : errno_t × Mount :=
    if err₂ = 0 then
      match o.malloc with
      | none => (ENOMEM, { s with calls := s.calls ++ [.OSMalloc none] })
      | some p =>
        (err₂, { s with fsprivate := some p,
                        heap := some (p, { zeroMount with fMagic := kEmptyFSMountMagic }),
                        calls := s.calls ++ [.OSMalloc (some p), .vfs_setfsprivate p] })
    else (err₂, s)
  -- the fields that can fail, then the ones that cannot
  let b : Option (errno_t × Mount) :=
    if a.1 = 0 then
      -- err = vnode_ref(devvp)
      let s₁ : Mount := { a.2 with calls := a.2.calls ++ [.vnode_ref devvp o.vnode_ref_err] }
      let err₃ := o.vnode_ref_err
      let s₂ : Mount :=
        if err₃ = 0 then
          s₁.store fun r => { r with fBlockDevVNode := some devvp, fBlockRDevNum := o.specrdev }
        else s₁
      let c : errno_t × Mount :=
        if err₃ = 0 then
          -- mtmp->fRootMutex = lck_mtx_alloc_init(gLockGroup, NULL)
          let s₃ : Mount :=
            { (s₂.store fun r => { r with fRootMutex := o.mutex }) with
              calls := s₂.calls ++ [.lck_mtx_alloc_init o.mutex] }
          (if o.mutex = none then ENOMEM else err₃, s₃)
        else (err₃, s₂)
      if c.1 = 0 then
        let s₄ : Mount :=
          c.2.store fun r => { r with fMountPoint := some s.mp, fDebugLevel := args.fDebugLevel }
        match s₄.heap with
        | none => none -- not reached: the record was allocated above
        | some (_, r) =>
          (assert MACH_ASSERT (!r.fRootAttaching)).bind fun _ =>
          (assert MACH_ASSERT (!r.fRootWaiting)).bind fun _ =>
          (assert MACH_ASSERT (r.fRootVNode == none)).map fun _ => (c.1, s₄)
      else some c
    else some a
  b.bind fun d =>
  -- vfs_setflags(mp, ...)
  let s₅ : Mount := { d.2 with calls := d.2.calls ++ [.vfs_setflags] }
  let err₅ : errno_t := if d.1 = 0 then (if args.fForceFailure ≠ 0 then ENOTSUP else d.1) else d.1
  if err₅ ≠ 0 then
    -- junk = VFSOPUnmount(mp, MNT_FORCE, context); assert(junk == 0)
    (VFSOPUnmount MACH_ASSERT o s₅ MNT_FORCE).bind fun u =>
    (assert MACH_ASSERT (u.1 == 0)).map fun _ => (err₅, u.2)
  else some (err₅, s₅)

/-- A `mount_t` as VFS hands it to `VFSOPMount` for a new mount: no private
pointer, nothing allocated, no call made. -/
def freshMount : Mount :=
  { mp := 1, isupdate := false, fsprivate := none, heap := none, calls := [] }

/-- Kernel answers with which a mount succeeds: the arguments carry the
magic `magic`, debug level 0 and the given force-failure flag; the record is
allocated at address 100 and the mutex at 200. -/
def mountAnswer (magic forceFailure : Nat) : MountAnswer :=
  { copyin_err := 0,
    args := { fMagic := magic, fDebugLevel := 0, fForceFailure := forceFailure },
    malloc := some 100, vnode_ref_err := 0, specrdev := 7, mutex := some 200, vflush_err := 0 }

/-- The mount `freshMount` after a `VFSOPMount` that allocated its record at
address 100 and then failed by the force-failure flag: the record has been
freed, the private pointer still holds its address. -/
def failedMount : Mount :=
  { freshMount with
      fsprivate := some 100, heap := none,
      calls := [.OSMalloc (some 100), .vfs_setfsprivate 100, .vnode_ref 9 0,
                .lck_mtx_alloc_init (some 200), .vfs_setflags, .vflush FORCECLOSE 0,
                .vnode_rele 9, .lck_mtx_free 200,
                .OSFree 100 { zeroMount with fMagic := kEmptyFSMountBadMagic,
                                             fMountPoint := some 1,
                                             fDebugLevel := 0,
                                             fRootMutex := some 200 }] }

/-- A mounted volume: the mount with identity 1 whose record, at address
100, is `r`. -/
def mountedWith (r : EmptyFSMount) : Mount :=
  { mp := 1, isupdate := false, fsprivate := some 100, heap := some (100, r), calls := [] }

/-! ## Facts about the embedding -/

theorem wrap64_of_isOff {x : Int} (h : isOff x) : wrap64 x = x := by
  unfold isOff at h
  unfold wrap64 Int.bmod
  have h2 : (2:Int)^63 = 9223372036854775808 := by norm_num
  rw [h2] at h
  have h3 : ((2 ^ 64 : Nat) : Int) = 18446744073709551616 := by norm_num
  simp only [h3]
  split_ifs <;> omega

theorem readdir_flagged (ma : Bool) (sz : Nat) (k : uio → errno_t) (ap : vnop_readdir_args)
    (hf : ¬ plainMode ap.a_flags) :
    VNOPReadDir ma sz k ap = leaves ap EINVAL ap.a_uio FALSE 0 := by
  have hf2 : ap.a_flags &&& VNODE_READDIR_EXTENDED ≠ 0 ∨ ap.a_flags &&& VNODE_READDIR_REQSEEKOFF ≠ 0 := by
    unfold plainMode at hf
    by_cases h1 : ap.a_flags &&& VNODE_READDIR_EXTENDED = 0
    · right; intro h2; exact hf ⟨h1, h2⟩
    · left; exact h1
  simp only [VNOPReadDir, leaves, if_pos hf2, Option.map_some']

theorem strlen_dot : ".".length = 1 := by decide

theorem strlen_dotdot : "..".length = 2 := by decide

theorem plain_not_flagged {flags : Nat} (hf : plainMode flags) :
    ¬ (flags &&& VNODE_READDIR_EXTENDED ≠ 0 ∨ flags &&& VNODE_READDIR_REQSEEKOFF ≠ 0) := by
  unfold plainMode at hf; simp [hf.1, hf.2]

theorem assert_passes {ma : Bool} {off : Int} (ha : ma = false ∨ Int.tmod off 7 = 0) :
    assert ma (Int.tmod off 7 == 0) = some () := by
  rcases ha with h | h <;> simp [assert, h]

theorem readdir_index0_none (ma : Bool) (sz : Nat) (k : uio → errno_t) (ap : vnop_readdir_args)
    (hf : plainMode ap.a_flags) (ha : ma = false ∨ Int.tmod ap.a_uio.offset 7 = 0)
    (hi : Int.tdiv ap.a_uio.offset 7 = 0) (hr : ap.a_uio.resid < sz) :
    VNOPReadDir ma sz k ap = leaves ap 0 { ap.a_uio with offset := 0 } FALSE 0 := by
  have hf2 := plain_not_flagged hf
  have has := assert_passes ha
  simp [VNOPReadDir, leaves, hf2, has, uio_offset, hi, uiomove_atomic, uio_resid, hr, ENOBUFS,
    uio_setoffset, wrap64, FALSE]

/-- Index 0, space for a record, and the copy of "." fails: the call returns
the error of `uiomove` (0 when that is `ENOBUFS`), counts no entry, and
leaves the uio as it was but for the cursor, set to 0. -/
theorem readdir_index0_fail (ma : Bool) (sz : Nat) (k : uio → errno_t) (ap : vnop_readdir_args)
    (hf : plainMode ap.a_flags) (ha : ma = false ∨ Int.tmod ap.a_uio.offset 7 = 0)
    (hi : Int.tdiv ap.a_uio.offset 7 = 0) (hr : sz ≤ ap.a_uio.resid) (hk : k ap.a_uio ≠ 0) :
    VNOPReadDir ma sz k ap =
      leaves ap (surfaced (k ap.a_uio)) { ap.a_uio with offset := 0 } FALSE 0 := by
  have hf2 := plain_not_flagged hf
  have has := assert_passes ha
  have h1 : ¬ (sz > ap.a_uio.resid) := by omega
  simp [VNOPReadDir, leaves, hf2, has, uio_offset, hi, uiomove_atomic, uiomove, uio_resid, h1, hk,
    uio_setoffset, wrap64, FALSE, surfaced]

theorem readdir_index0_one (ma : Bool) (sz : Nat) (k : uio → errno_t) (ap : vnop_readdir_args)
    (hf : plainMode ap.a_flags) (ha : ma = false ∨ Int.tmod ap.a_uio.offset 7 = 0)
    (hi : Int.tdiv ap.a_uio.offset 7 = 0) (hr1 : sz ≤ ap.a_uio.resid)
    (hr2 : ap.a_uio.resid < 2 * sz) (hk : k ap.a_uio = 0) :
    VNOPReadDir ma sz k ap =
      leaves ap 0 { offset := 7, resid := ap.a_uio.resid - sz,
                    moved := ap.a_uio.moved ++ [(dotItem sz, sz)] } FALSE 1 := by
  have hf2 := plain_not_flagged hf
  have has := assert_passes ha
  have h1 : ¬ (sz > ap.a_uio.resid) := by omega
  have h2 : sz > ap.a_uio.resid - sz := by omega
  have hm : min sz ap.a_uio.resid = sz := by omega
  simp [VNOPReadDir, leaves, hf2, has, uio_offset, hi, uiomove_atomic, uiomove, uio_resid, h1, h2, hm,
    hk, ENOBUFS, uio_setoffset, wrap64, FALSE, TRUE, dotItem, Int.bmod, strlen_dot]

/-- Index 0, space for two records, the copy of "." goes through and the
copy of ".." fails: the call returns the error of the second `uiomove` (0
when that is `ENOBUFS`), counts the one entry, and leaves the cursor at 7. -/
theorem readdir_index0_one_fail (ma : Bool) (sz : Nat) (k : uio → errno_t)
    (ap : vnop_readdir_args)
    (hf : plainMode ap.a_flags) (ha : ma = false ∨ Int.tmod ap.a_uio.offset 7 = 0)
    (hi : Int.tdiv ap.a_uio.offset 7 = 0) (hr : 2 * sz ≤ ap.a_uio.resid)
    (hk : k ap.a_uio = 0) (hk2 : k (afterRecord ap.a_uio (dotItem sz) sz) ≠ 0) :
    VNOPReadDir ma sz k ap =
      leaves ap (surfaced (k (afterRecord ap.a_uio (dotItem sz) sz)))
        { offset := 7, resid := ap.a_uio.resid - sz,
          moved := ap.a_uio.moved ++ [(dotItem sz, sz)] } FALSE 1 := by
  have hf2 := plain_not_flagged hf
  have has := assert_passes ha
  have h1 : ¬ (sz > ap.a_uio.resid) := by omega
  have h2 : ¬ (sz > ap.a_uio.resid - sz) := by omega
  have hm : min sz ap.a_uio.resid = sz := by omega
  simp only [afterRecord, dotItem] at hk2 ⊢
  simp only [wrap64, Int.bmod] at hk2
  simp at hk2
  simp [VNOPReadDir, leaves, hf2, has, uio_offset, hi, uiomove_atomic, uiomove, uio_resid, h1, h2, hm,
    hk, hk2, uio_setoffset, wrap64, FALSE, TRUE, Int.bmod, strlen_dot, surfaced]

theorem readdir_index0_two (ma : Bool) (sz : Nat) (k : uio → errno_t) (ap : vnop_readdir_args)
    (hf : plainMode ap.a_flags) (ha : ma = false ∨ Int.tmod ap.a_uio.offset 7 = 0)
    (hi : Int.tdiv ap.a_uio.offset 7 = 0) (hr : 2 * sz ≤ ap.a_uio.resid)
    (hk : k ap.a_uio = 0) (hk2 : k (afterRecord ap.a_uio (dotItem sz) sz) = 0) :
    VNOPReadDir ma sz k ap =
      leaves ap 0 { offset := 14, resid := ap.a_uio.resid - sz - sz,
                    moved := ap.a_uio.moved ++ [(dotItem sz, sz), (dotdotItem sz, sz)] } TRUE 2 := by
  have hf2 := plain_not_flagged hf
  have has := assert_passes ha
  have h1 : ¬ (sz > ap.a_uio.resid) := by omega
  have h2 : ¬ (sz > ap.a_uio.resid - sz) := by omega
  have hm : min sz ap.a_uio.resid = sz := by omega
  have hm2 : min sz (ap.a_uio.resid - sz) = sz := by omega
  simp only [afterRecord, dotItem, wrap64, Int.bmod] at hk2
  simp at hk2
  simp [VNOPReadDir, leaves, hf2, has, uio_offset, hi, uiomove_atomic, uiomove, uio_resid, h1, h2, hm, hm2,
    hk, hk2, ENOBUFS, uio_setoffset, wrap64, FALSE, TRUE, dotItem, dotdotItem, Int.bmod, strlen_dot]
  exact strlen_dotdot

theorem readdir_index1_none (ma : Bool) (sz : Nat) (k : uio → errno_t) (ap : vnop_readdir_args)
    (hf : plainMode ap.a_flags) (ha : ma = false ∨ Int.tmod ap.a_uio.offset 7 = 0)
    (hi : Int.tdiv ap.a_uio.offset 7 = 1) (hr : ap.a_uio.resid < sz) :
    VNOPReadDir ma sz k ap = leaves ap 0 { ap.a_uio with offset := 7 } FALSE 0 := by
  have hf2 := plain_not_flagged hf
  have has := assert_passes ha
  simp [VNOPReadDir, leaves, hf2, has, uio_offset, hi, uiomove_atomic, uio_resid, hr,
    ENOBUFS, uio_setoffset, wrap64, FALSE, Int.bmod]

/-- Index 1, space for a record, and the copy of ".." fails: the call returns
the error of `uiomove` (0 when that is `ENOBUFS`), counts no entry, and
leaves the uio as it was but for the cursor, set to 7. -/
theorem readdir_index1_fail (ma : Bool) (sz : Nat) (k : uio → errno_t) (ap : vnop_readdir_args)
    (hf : plainMode ap.a_flags) (ha : ma = false ∨ Int.tmod ap.a_uio.offset 7 = 0)
    (hi : Int.tdiv ap.a_uio.offset 7 = 1) (hr : sz ≤ ap.a_uio.resid) (hk : k ap.a_uio ≠ 0) :
    VNOPReadDir ma sz k ap =
      leaves ap (surfaced (k ap.a_uio)) { ap.a_uio with offset := 7 } FALSE 0 := by
  have hf2 := plain_not_flagged hf
  have has := assert_passes ha
  have h1 : ¬ (sz > ap.a_uio.resid) := by omega
  simp [VNOPReadDir, leaves, hf2, has, uio_offset, hi, uiomove_atomic, uiomove, uio_resid, h1, hk,
    uio_setoffset, wrap64, FALSE, Int.bmod, surfaced]

theorem readdir_index1_one (ma : Bool) (sz : Nat) (k : uio → errno_t) (ap : vnop_readdir_args)
    (hf : plainMode ap.a_flags) (ha : ma = false ∨ Int.tmod ap.a_uio.offset 7 = 0)
    (hi : Int.tdiv ap.a_uio.offset 7 = 1) (hr : sz ≤ ap.a_uio.resid) (hk : k ap.a_uio = 0) :
    VNOPReadDir ma sz k ap =
      leaves ap 0 { offset := 14, resid := ap.a_uio.resid - sz,
                    moved := ap.a_uio.moved ++ [(dotdotItem sz, sz)] } TRUE 1 := by
  have hf2 := plain_not_flagged hf
  have has := assert_passes ha
  have h1 : ¬ (sz > ap.a_uio.resid) := by omega
  have hm : min sz ap.a_uio.resid = sz := by omega
  simp [VNOPReadDir, leaves, hf2, has, uio_offset, hi, uiomove_atomic, uiomove, uio_resid, h1, hm,
    hk, ENOBUFS, uio_setoffset, wrap64, FALSE, TRUE, dotdotItem, Int.bmod]
  exact strlen_dotdot

theorem readdir_index_other (ma : Bool) (sz : Nat) (k : uio → errno_t) (ap : vnop_readdir_args)
    (hf : plainMode ap.a_flags) (ha : ma = false ∨ Int.tmod ap.a_uio.offset 7 = 0)
    (hi0 : Int.tdiv ap.a_uio.offset 7 ≠ 0) (hi1 : Int.tdiv ap.a_uio.offset 7 ≠ 1) :
    VNOPReadDir ma sz k ap =
      leaves ap 0 { ap.a_uio with offset := wrap64 (Int.tdiv ap.a_uio.offset 7 * 7) }
        (if Int.tdiv ap.a_uio.offset 7 > 1 then TRUE else FALSE) 0 := by
  have hf2 := plain_not_flagged hf
  have has := assert_passes ha
  simp [VNOPReadDir, leaves, hf2, has, uio_offset, hi0, hi1, ENOBUFS, uio_setoffset, FALSE]

theorem readdir_panics (sz : Nat) (k : uio → errno_t) (ap : vnop_readdir_args)
    (hf : plainMode ap.a_flags) (ha : Int.tmod ap.a_uio.offset 7 ≠ 0) :
    VNOPReadDir true sz k ap = none := by
  have hf2 := plain_not_flagged hf
  simp [VNOPReadDir, hf2, assert, uio_offset, ha]

theorem wrap64_small {x : Int} (h1 : -100 ≤ x) (h2 : x ≤ 100) : wrap64 x = x :=
  wrap64_of_isOff (by unfold isOff; constructor <;> omega)

theorem tdiv7_eq (x : Int) : Int.tdiv x 7 = if 0 ≤ x then x / 7 else -((-x) / 7) := by
  split_ifs with h
  · exact Int.tdiv_eq_ediv h (by norm_num)
  · have h1 : Int.tdiv (-(-x)) 7 = -(Int.tdiv (-x) 7) := Int.neg_tdiv (-x) 7
    rw [neg_neg] at h1
    rw [h1, Int.tdiv_eq_ediv (by omega) (by norm_num)]

theorem tmod7_eq (x : Int) : Int.tmod x 7 = x - 7 * Int.tdiv x 7 := Int.tmod_def x 7

theorem tdiv_mul_isOff {x : Int} (h : isOff x) : isOff (Int.tdiv x 7 * 7) := by
  unfold isOff at *
  have h2 : (2:Int)^63 = 9223372036854775808 := by norm_num
  rw [h2] at h ⊢
  rw [tdiv7_eq]
  split_ifs <;> omega

/-- Plain mode, offset assert passing: the call emits the first `n` of the
records that remain from its start index and stops either because nothing
remains or the next record does not fit, returning 0, or because the copy of
the next record fails, returning the error of `uiomove` (0 when that is
`ENOBUFS`). -/
theorem readdir_plain (ma : Bool) (sz : Nat) (k : uio → errno_t) (ap : vnop_readdir_args)
    (hf : plainMode ap.a_flags) (ha : ma = false ∨ Int.tmod ap.a_uio.offset 7 = 0) :
    ∃ (n : Nat) (err : errno_t),
      n ≤ (entriesFrom sz (Int.tdiv ap.a_uio.offset 7)).length ∧
      n * sz ≤ ap.a_uio.resid ∧
      (((n = (entriesFrom sz (Int.tdiv ap.a_uio.offset 7)).length ∨
          ap.a_uio.resid < (n + 1) * sz) ∧ err = 0) ∨
       (n < (entriesFrom sz (Int.tdiv ap.a_uio.offset 7)).length ∧
          (n + 1) * sz ≤ ap.a_uio.resid ∧
          ∃ u : uio, k u ≠ 0 ∧ err = surfaced (k u))) ∧
      VNOPReadDir ma sz k ap =
        leaves ap err
          { offset := wrap64 ((Int.tdiv ap.a_uio.offset 7 + n) * 7),
            resid := ap.a_uio.resid - n * sz,
            moved := ap.a_uio.moved ++ (entriesFrom sz (Int.tdiv ap.a_uio.offset 7)).take n }
          (if Int.tdiv ap.a_uio.offset 7 + n > 1 then TRUE else FALSE) n := by
  by_cases hi0 : Int.tdiv ap.a_uio.offset 7 = 0
  · by_cases hr1 : ap.a_uio.resid < sz
    · refine ⟨0, 0, by simp, by simp, Or.inl ⟨Or.inr (by simpa using hr1), rfl⟩, ?_⟩
      rw [readdir_index0_none ma sz k ap hf ha hi0 hr1]
      simp [hi0, wrap64_small, FALSE]
    · by_cases hk1 : k ap.a_uio = 0
      · by_cases hr2 : ap.a_uio.resid < 2 * sz
        · refine ⟨1, 0, by simp [entriesFrom, hi0], by omega,
            Or.inl ⟨Or.inr (by omega), rfl⟩, ?_⟩
          rw [readdir_index0_one ma sz k ap hf ha hi0 (by omega) hr2 hk1]
          simp [hi0, wrap64_small, FALSE, entriesFrom]
        · by_cases hk2 : k (afterRecord ap.a_uio (dotItem sz) sz) = 0
          · refine ⟨2, 0, by simp [entriesFrom, hi0], by omega,
              Or.inl ⟨Or.inl (by simp [entriesFrom, hi0]), rfl⟩, ?_⟩
            rw [readdir_index0_two ma sz k ap hf ha hi0 (by omega) hk1 hk2]
            have hs : ap.a_uio.resid - sz - sz = ap.a_uio.resid - 2 * sz := by omega
            simp [hi0, wrap64_small, TRUE, entriesFrom, hs]
          · refine ⟨1, _, by simp [entriesFrom, hi0], by omega,
              Or.inr ⟨by simp [entriesFrom, hi0], by omega, _, hk2, rfl⟩, ?_⟩
            rw [readdir_index0_one_fail ma sz k ap hf ha hi0 (by omega) hk1 hk2]
            simp [hi0, wrap64_small, FALSE, entriesFrom]
      · refine ⟨0, _, by simp, by simp,
          Or.inr ⟨by simp [entriesFrom, hi0], by omega, _, hk1, rfl⟩, ?_⟩
        rw [readdir_index0_fail ma sz k ap hf ha hi0 (by omega) hk1]
        simp [hi0, wrap64_small, FALSE]
  · by_cases hi1 : Int.tdiv ap.a_uio.offset 7 = 1
    · by_cases hr1 : ap.a_uio.resid < sz
      · refine ⟨0, 0, by simp, by simp, Or.inl ⟨Or.inr (by simpa using hr1), rfl⟩, ?_⟩
        rw [readdir_index1_none ma sz k ap hf ha hi1 hr1]
        simp [hi1, wrap64_small, FALSE]
      · by_cases hk1 : k ap.a_uio = 0
        · refine ⟨1, 0, by simp [entriesFrom, hi1], by omega,
            Or.inl ⟨Or.inl (by simp [entriesFrom, hi1]), rfl⟩, ?_⟩
          rw [readdir_index1_one ma sz k ap hf ha hi1 (by omega) hk1]
          simp [hi1, wrap64_small, TRUE, entriesFrom]
        · refine ⟨0, _, by simp, by simp,
            Or.inr ⟨by simp [entriesFrom, hi1], by omega, _, hk1, rfl⟩, ?_⟩
          rw [readdir_index1_fail ma sz k ap hf ha hi1 (by omega) hk1]
          simp [hi1, wrap64_small, FALSE]
    · refine ⟨0, 0, by simp, by simp, Or.inl ⟨Or.inl (by simp [entriesFrom, hi0, hi1]), rfl⟩, ?_⟩
      rw [readdir_index_other ma sz k ap hf ha hi0 hi1]
      simp

/-- Plain mode, offset assert passing, every copy going through: the call
ends without error after emitting the first `n` of the records that remain
from its start index, where `n` is as many of them as fit whole into the
caller's space. -/
theorem readdir_plain_good (ma : Bool) (sz : Nat) (k : uio → errno_t) (ap : vnop_readdir_args)
    (hf : plainMode ap.a_flags) (ha : ma = false ∨ Int.tmod ap.a_uio.offset 7 = 0)
    (hk : ∀ u : uio, k u = 0) :
    ∃ n : Nat, n ≤ (entriesFrom sz (Int.tdiv ap.a_uio.offset 7)).length ∧
      n * sz ≤ ap.a_uio.resid ∧
      (n < (entriesFrom sz (Int.tdiv ap.a_uio.offset 7)).length → ap.a_uio.resid < (n + 1) * sz) ∧
      VNOPReadDir ma sz k ap =
        leaves ap 0
          { offset := wrap64 ((Int.tdiv ap.a_uio.offset 7 + n) * 7),
            resid := ap.a_uio.resid - n * sz,
            moved := ap.a_uio.moved ++ (entriesFrom sz (Int.tdiv ap.a_uio.offset 7)).take n }
          (if Int.tdiv ap.a_uio.offset 7 + n > 1 then TRUE else FALSE) n := by
  obtain ⟨n, err, hlen, hfit, hstop, h⟩ := readdir_plain ma sz k ap hf ha
  rcases hstop with ⟨hs, rfl⟩ | ⟨-, -, u, hu, -⟩
  · refine ⟨n, hlen, hfit, fun hlt => ?_, h⟩
    rcases hs with hs | hs
    · omega
    · exact hs
  · exact absurd (hk u) hu

theorem leaves_eq_some (ap : vnop_readdir_args) (err : errno_t) (u : uio) (e n : Int) :
    leaves ap err u e n =
      some (err, { a_uio := u, a_flags := ap.a_flags,
                   a_eofflag := ap.a_eofflag.map (fun _ => e),
                   a_numdirent := ap.a_numdirent.map (fun _ => n) }) := rfl

theorem not_panics_iff {ma : Bool} {off : Int} (hp : ¬ (ma = true ∧ Int.tmod off 7 ≠ 0)) :
    ma = false ∨ Int.tmod off 7 = 0 := by
  cases ma
  · exact Or.inl rfl
  · right
    by_contra hne
    exact hp ⟨rfl, hne⟩

/-! ## Directory enumeration: the claims -/

/-- C1, counterexample. The first call of the round trip, at cursor 0 with
space for exactly one record of 264 bytes, on a buffer that cannot be
written: `uiomove` fails with `EFAULT`, and the call returns `EFAULT` with no
record written, zero entries reported and the cursor still 0, in either
build. -/
theorem C1_copy_failure_returned :
    VNOPReadDir true 264 badBuffer (withCursor (sampleArgs 0 264 0) 0) =
      some (EFAULT, { a_uio := { offset := 0, resid := 264, moved := [] }, a_flags := 0,
                      a_eofflag := some FALSE, a_numdirent := some 0 }) ∧
    VNOPReadDir false 264 badBuffer (withCursor (sampleArgs 0 264 0) 0) =
      some (EFAULT, { a_uio := { offset := 0, resid := 264, moved := [] }, a_flags := 0,
                      a_eofflag := some FALSE, a_numdirent := some 0 }) ∧
    EFAULT ≠ 0 := by
  decide

/-- C1 as amended, cursor round-trip. Three plain-mode calls, the first at
cursor 0 and each later one at the cursor the previous call returned, every
call with space for at least one record and fewer than two. When `uiomove`
goes through on the copy the first call makes and on the copy the second
call makes: all three return error 0; the first writes exactly one record,
named ".", the second exactly one, named "..", and the third writes none and
reports end of directory (the third makes no copy, and does so whatever its
space). When `uiomove` fails on the copy of the first call, or goes through
there and fails on the copy of the second, that call returns the error of
`uiomove` (0 when it is `ENOBUFS`) with no record written, zero entries and
the cursor where it was. -/
theorem C1_cursor_round_trip (ma : Bool) (sz : Nat) (k : uio → errno_t)
    (ap₁ ap₂ ap₃ : vnop_readdir_args)
    (hf₁ : plainMode ap₁.a_flags) (hf₂ : plainMode ap₂.a_flags) (hf₃ : plainMode ap₃.a_flags)
    (hs₁ : sz ≤ ap₁.a_uio.resid ∧ ap₁.a_uio.resid < 2 * sz)
    (hs₂ : sz ≤ ap₂.a_uio.resid ∧ ap₂.a_uio.resid < 2 * sz) :
    (k (withCursor ap₁ 0).a_uio = 0 → k (withCursor ap₂ 7).a_uio = 0 →
      ∃ o₁ o₂ o₃ : vnop_readdir_args,
        VNOPReadDir ma sz k (withCursor ap₁ 0) = some (0, o₁) ∧
        o₁.a_uio.moved = ap₁.a_uio.moved ++ [(dotItem sz, sz)] ∧
        o₁.a_numdirent = ap₁.a_numdirent.map (fun _ => 1) ∧
        VNOPReadDir ma sz k (withCursor ap₂ o₁.a_uio.offset) = some (0, o₂) ∧
        o₂.a_uio.moved = ap₂.a_uio.moved ++ [(dotdotItem sz, sz)] ∧
        o₂.a_numdirent = ap₂.a_numdirent.map (fun _ => 1) ∧
        VNOPReadDir ma sz k (withCursor ap₃ o₂.a_uio.offset) = some (0, o₃) ∧
        o₃.a_uio.moved = ap₃.a_uio.moved ∧
        o₃.a_numdirent = ap₃.a_numdirent.map (fun _ => 0) ∧
        o₃.a_eofflag = ap₃.a_eofflag.map (fun _ => TRUE) ∧
        (dotItem sz).d_name = "." ∧ (dotdotItem sz).d_name = "..") ∧
    (k (withCursor ap₁ 0).a_uio ≠ 0 →
      VNOPReadDir ma sz k (withCursor ap₁ 0) =
        some (surfaced (k (withCursor ap₁ 0).a_uio),
              { a_uio := (withCursor ap₁ 0).a_uio, a_flags := ap₁.a_flags,
                a_eofflag := ap₁.a_eofflag.map (fun _ => FALSE),
                a_numdirent := ap₁.a_numdirent.map (fun _ => 0) })) ∧
    (k (withCursor ap₂ 7).a_uio ≠ 0 →
      VNOPReadDir ma sz k (withCursor ap₂ 7) =
        some (surfaced (k (withCursor ap₂ 7).a_uio),
              { a_uio := (withCursor ap₂ 7).a_uio, a_flags := ap₂.a_flags,
                a_eofflag := ap₂.a_eofflag.map (fun _ => FALSE),
                a_numdirent := ap₂.a_numdirent.map (fun _ => 0) })) := by
  refine ⟨fun hk₁ hk₂ => ?_, fun hk₁ => ?_, fun hk₂ => ?_⟩
  · have e₁ := readdir_index0_one ma sz k (withCursor ap₁ 0) hf₁ (Or.inr rfl) rfl hs₁.1 hs₁.2 hk₁
    have e₂ := readdir_index1_one ma sz k (withCursor ap₂ 7) hf₂ (Or.inr rfl) rfl hs₂.1 hk₂
    have e₃ := readdir_index_other ma sz k (withCursor ap₃ 14) hf₃ (Or.inr rfl)
      (by simp [withCursor]; decide) (by simp [withCursor]; decide)
    rw [leaves_eq_some] at e₁ e₂ e₃
    have h14 : wrap64 (Int.tdiv 14 7 * 7) = 14 := by decide
    have h14' : (1 : Int) < Int.tdiv 14 7 := by decide
    have e₃' : VNOPReadDir ma sz k (withCursor ap₃ 14) =
        some (0, { a_uio := { offset := 14, resid := ap₃.a_uio.resid, moved := ap₃.a_uio.moved },
                   a_flags := ap₃.a_flags,
                   a_eofflag := ap₃.a_eofflag.map (fun _ => TRUE),
                   a_numdirent := ap₃.a_numdirent.map (fun _ => 0) }) := by
      rw [e₃]
      simp [withCursor, h14, h14']
    exact ⟨_, _, _, e₁, rfl, rfl, e₂, rfl, rfl, e₃', rfl, rfl, rfl, rfl, rfl⟩
  · have e := readdir_index0_fail ma sz k (withCursor ap₁ 0) hf₁ (Or.inr rfl) rfl hs₁.1 hk₁
    rw [leaves_eq_some] at e
    rw [e]
    rfl
  · have e := readdir_index1_fail ma sz k (withCursor ap₂ 7) hf₂ (Or.inr rfl) rfl hs₂.1 hk₂
    rw [leaves_eq_some] at e
    rw [e]
    rfl

theorem C1_cursor_round_trip_witness :
    ∃ o₁ o₂ o₃ : vnop_readdir_args,
      VNOPReadDir true 264 goodBuffer (withCursor (sampleArgs 0 264 0) 0) = some (0, o₁) ∧
      o₁.a_uio.moved = [(dotItem 264, 264)] ∧
      VNOPReadDir true 264 goodBuffer (withCursor (sampleArgs 0 300 0) o₁.a_uio.offset) =
        some (0, o₂) ∧
      o₂.a_uio.moved = [(dotdotItem 264, 264)] ∧
      VNOPReadDir true 264 goodBuffer (withCursor (sampleArgs 0 527 0) o₂.a_uio.offset) =
        some (0, o₃) ∧
      o₃.a_uio.moved = [] ∧ o₃.a_numdirent = some 0 ∧ o₃.a_eofflag = some TRUE := by
  obtain ⟨o₁, o₂, o₃, h₁, m₁, _, h₂, m₂, _, h₃, m₃, n₃, e₃, _⟩ :=
    (C1_cursor_round_trip true 264 goodBuffer (sampleArgs 0 264 0) (sampleArgs 0 300 0)
      (sampleArgs 0 527 0) (by decide) (by decide) (by decide) (by decide) (by decide)).1
      rfl rfl
  exact ⟨o₁, o₂, o₃, h₁, m₁, h₂, m₂, h₃, m₃, n₃, e₃⟩

/-- C2, insufficient space. Plain mode, a cursor that is a multiple of 7 and
space for less than one record: the call returns error 0 although
`uiomove_atomic` refuses with `ENOBUFS`, reports zero entries, and leaves the
uio as it was: nothing consumed, nothing moved, the cursor unchanged.
`uiomove` is not reached, so this holds whatever the kernel would answer. -/
theorem C2_insufficient_space (ma : Bool) (sz : Nat) (k : uio → errno_t)
    (ap : vnop_readdir_args)
    (hf : plainMode ap.a_flags) (hv : Int.tmod ap.a_uio.offset 7 = 0)
    (ho : isOff ap.a_uio.offset) (hr : ap.a_uio.resid < sz) :
    (∀ item : dirent, uiomove_atomic k item sz ap.a_uio = (ENOBUFS, ap.a_uio)) ∧
    ∃ o : vnop_readdir_args,
      VNOPReadDir ma sz k ap = some (0, o) ∧
      o.a_numdirent = ap.a_numdirent.map (fun _ => 0) ∧
      o.a_uio = ap.a_uio := by
  refine ⟨fun item => by simp [uiomove_atomic, uio_resid, hr], ?_⟩
  obtain ⟨n, err, -, hn, hstop, h⟩ := readdir_plain ma sz k ap hf (Or.inr hv)
  have hn0 : n = 0 := by
    by_contra hne
    have : sz ≤ n * sz := Nat.le_mul_of_pos_left sz (Nat.pos_of_ne_zero hne)
    omega
  subst hn0
  have he : err = 0 := by
    rcases hstop with ⟨-, he⟩ | ⟨-, hfit, -⟩
    · exact he
    · omega
  subst he
  have hc : wrap64 ((Int.tdiv ap.a_uio.offset 7 + ((0 : Nat) : Int)) * 7) = ap.a_uio.offset := by
    have h1 : (Int.tdiv ap.a_uio.offset 7 + ((0 : Nat) : Int)) * 7 = ap.a_uio.offset := by
      have := Int.tdiv_mul_cancel_of_tmod_eq_zero hv
      omega
    rw [h1]
    exact wrap64_of_isOff ho
  rw [leaves_eq_some, hc] at h
  exact ⟨_, h, rfl, by simp⟩

theorem C2_insufficient_space_witness :
    ∃ o : vnop_readdir_args,
      VNOPReadDir true 264 badBuffer (sampleArgs 7 263 0) = some (0, o) ∧
      o.a_numdirent = some 0 ∧ o.a_uio = (sampleArgs 7 263 0).a_uio :=
  (C2_insufficient_space true 264 badBuffer (sampleArgs 7 263 0) (by decide) (by decide)
    (by decide) (by decide)).2

/-- C3, no partial record. In plain mode, for every cursor, every space and
whatever the kernel answers to `uiomove`: `uiomove_atomic` refuses with
`ENOBUFS` and moves nothing when the record is larger than the space left;
the call fails to return only by the offset assert (a kernel built with
`MACH_ASSERT`, a cursor that is no multiple of 7); and when it returns, the
number `n` of entries it reports is the number of records it moved, every
one of them whole, the space consumed is exactly
`n * sizeof(struct dirent)`, a further record that remained either did not
fit or its copy failed, with space for less than one record nothing is
moved, and the index has advanced by exactly `n`. -/
theorem C3_whole_records_only (ma : Bool) (sz : Nat) (k : uio → errno_t)
    (ap : vnop_readdir_args) (hf : plainMode ap.a_flags) :
    (∀ (item : dirent) (u : uio), sz > uio_resid u →
      uiomove_atomic k item sz u = (ENOBUFS, u)) ∧
    (VNOPReadDir ma sz k ap = none ↔ (ma = true ∧ Int.tmod ap.a_uio.offset 7 ≠ 0)) ∧
    (∀ (err : errno_t) (o : vnop_readdir_args), VNOPReadDir ma sz k ap = some (err, o) →
      ∃ n : Nat,
        o.a_numdirent = ap.a_numdirent.map (fun _ => (n : Int)) ∧
        o.a_uio.resid + n * sz = ap.a_uio.resid ∧
        (∃ new : List (dirent × Nat),
          o.a_uio.moved = ap.a_uio.moved ++ new ∧ new.length = n ∧ ∀ p ∈ new, p.2 = sz) ∧
        (n < (entriesFrom sz (Int.tdiv ap.a_uio.offset 7)).length →
          ap.a_uio.resid < (n + 1) * sz ∨ ∃ u : uio, k u ≠ 0 ∧ err = surfaced (k u)) ∧
        (ap.a_uio.resid < sz → n = 0 ∧ err = 0) ∧
        o.a_uio.offset = wrap64 ((Int.tdiv ap.a_uio.offset 7 + n) * 7)) := by
  refine ⟨fun item u h => by simp [uiomove_atomic, h], ?_⟩
  by_cases hp : ma = true ∧ Int.tmod ap.a_uio.offset 7 ≠ 0
  · obtain ⟨rfl, hne⟩ := hp
    have hnone := readdir_panics sz k ap hf hne
    refine ⟨by simp [hnone, hne], fun err o h => ?_⟩
    rw [hnone] at h
    exact absurd h (by simp)
  · obtain ⟨n, e, hlen, hfit, hstop, h⟩ := readdir_plain ma sz k ap hf (not_panics_iff hp)
    rw [leaves_eq_some] at h
    refine ⟨?_, fun err o ho => ?_⟩
    · constructor
      · intro hnone
        rw [hnone] at h
        exact absurd h (by simp)
      · intro hp2
        exact absurd hp2 hp
    · rw [h] at ho
      simp only [Option.some.injEq, Prod.mk.injEq] at ho
      obtain ⟨rfl, rfl⟩ := ho
      refine ⟨n, rfl, ?_, ⟨_, rfl, ?_, ?_⟩, ?_, ?_, rfl⟩
      · show ap.a_uio.resid - n * sz + n * sz = ap.a_uio.resid
        omega
      · rw [List.length_take]
        omega
      · intro p hp3
        have hp4 := List.mem_of_mem_take hp3
        unfold entriesFrom at hp4
        split_ifs at hp4 <;> simp at hp4
        · rcases hp4 with rfl | rfl <;> rfl
        · rw [hp4]
      · intro hlt
        rcases hstop with ⟨hs, -⟩ | ⟨-, -, u, hu, he⟩
        · rcases hs with hs | hs
          · omega
          · exact Or.inl hs
        · exact Or.inr ⟨u, hu, he⟩
      · intro hr
        have hn0 : n = 0 := by
          by_contra hne
          have : sz ≤ n * sz := Nat.le_mul_of_pos_left sz (Nat.pos_of_ne_zero hne)
          omega
        refine ⟨hn0, ?_⟩
        rcases hstop with ⟨-, he⟩ | ⟨-, hfit2, -⟩
        · exact he
        · subst hn0
          omega

theorem C3_whole_records_only_witness :
    ∃ n : Nat, (some 1 : Option Int) = some (n : Int) ∧ 236 + n * 264 = 500 := by
  obtain ⟨n, h₁, h₂, -⟩ :=
    (C3_whole_records_only true 264 goodBuffer (sampleArgs 0 500 0) (by decide)).2.2 0
      { a_uio := { offset := 7, resid := 236, moved := [(dotItem 264, 264)] }, a_flags := 0,
        a_eofflag := some 0, a_numdirent := some 1 } (by decide)
  exact ⟨n, h₁, h₂⟩

/-- C4, counterexample. Cursor 0 and space that holds exactly one record (300
bytes for records of 264), on a buffer that cannot be written: the call
writes no entry and returns `EFAULT` with the cursor still 0, not one entry
and cursor 7. -/
theorem C4_copy_failure_no_entry :
    VNOPReadDir true 264 badBuffer (withCursor (sampleArgs 0 300 0) 0) =
      some (EFAULT, { a_uio := { offset := 0, resid := 300, moved := [] }, a_flags := 0,
                      a_eofflag := some FALSE, a_numdirent := some 0 }) ∧
    (264 ≤ 300 ∧ 300 < 2 * 264) ∧ EFAULT ≠ 0 := by
  decide

/-- C4 as amended, end of directory only after both entries. Plain mode.
From cursor 0 with space for exactly one record (at least one, fewer than
two): when `uiomove` goes through, the call writes one entry, returns cursor
7 and reports end of directory false; when `uiomove` fails, the call returns
its error (0 when it is `ENOBUFS`), writes no entry, leaves the cursor at 0
and reports end of directory false. And every call that starts at cursor 0 or
at cursor 7 returns, whatever `uiomove` answers, and the end of directory
flag it computes is true exactly when that call moved the ".." record. -/
theorem C4_eof_only_after_both (ma : Bool) (sz : Nat) (k : uio → errno_t)
    (ap : vnop_readdir_args) (hf : plainMode ap.a_flags) :
    ((sz ≤ ap.a_uio.resid ∧ ap.a_uio.resid < 2 * sz) → k (withCursor ap 0).a_uio = 0 →
      VNOPReadDir ma sz k (withCursor ap 0) =
        some (0, { a_uio := { offset := 7, resid := ap.a_uio.resid - sz,
                              moved := ap.a_uio.moved ++ [(dotItem sz, sz)] },
                   a_flags := ap.a_flags,
                   a_eofflag := ap.a_eofflag.map (fun _ => FALSE),
                   a_numdirent := ap.a_numdirent.map (fun _ => 1) })) ∧
    ((sz ≤ ap.a_uio.resid ∧ ap.a_uio.resid < 2 * sz) → k (withCursor ap 0).a_uio ≠ 0 →
      VNOPReadDir ma sz k (withCursor ap 0) =
        some (surfaced (k (withCursor ap 0).a_uio),
              { a_uio := (withCursor ap 0).a_uio, a_flags := ap.a_flags,
                a_eofflag := ap.a_eofflag.map (fun _ => FALSE),
                a_numdirent := ap.a_numdirent.map (fun _ => 0) })) ∧
    (∀ c : Int, c = 0 ∨ c = 7 →
      ∃ (err : errno_t) (o : vnop_readdir_args) (new : List (dirent × Nat)) (eofflag : Int),
        VNOPReadDir ma sz k (withCursor ap c) = some (err, o) ∧
        o.a_uio.moved = ap.a_uio.moved ++ new ∧
        o.a_eofflag = ap.a_eofflag.map (fun _ => eofflag) ∧
        (eofflag = TRUE ∨ eofflag = FALSE) ∧
        (eofflag = TRUE ↔ (dotdotItem sz, sz) ∈ new)) := by
  have hdd : (dotItem sz, sz) ≠ (dotdotItem sz, sz) := by
    intro h
    have h2 := congrArg (fun p => p.1.d_namlen) h
    simp [dotItem, dotdotItem] at h2
  have htf : TRUE ≠ FALSE := by decide
  refine ⟨fun hs hk => ?_, fun hs hk => ?_, ?_⟩
  · exact readdir_index0_one ma sz k (withCursor ap 0) hf (Or.inr rfl) rfl hs.1 hs.2 hk
  · have e := readdir_index0_fail ma sz k (withCursor ap 0) hf (Or.inr rfl) rfl hs.1 hk
    rw [leaves_eq_some] at e
    rw [e]
    rfl
  · intro c hc
    have hmod : Int.tmod (withCursor ap c).a_uio.offset 7 = 0 := by
      rcases hc with rfl | rfl <;> rfl
    obtain ⟨n, err, hlen, -, -, h⟩ := readdir_plain ma sz k (withCursor ap c) hf (Or.inr hmod)
    rw [leaves_eq_some] at h
    rcases hc with rfl | rfl
    · have hi : Int.tdiv (withCursor ap 0).a_uio.offset 7 = 0 := rfl
      rw [hi] at h hlen
      have hn : n ≤ 2 := by simpa [entriesFrom] using hlen
      interval_cases n
      · exact ⟨_, _, [], FALSE, h, by simp [withCursor], by simp [FALSE, withCursor], Or.inr rfl,
          by simp [htf.symm]⟩
      · exact ⟨_, _, [(dotItem sz, sz)], FALSE, h, by simp [withCursor, entriesFrom],
          by simp [FALSE, withCursor], Or.inr rfl, by simp [htf.symm, hdd.symm]⟩
      · exact ⟨_, _, [(dotItem sz, sz), (dotdotItem sz, sz)], TRUE, h,
          by simp [withCursor, entriesFrom], by simp [TRUE, withCursor], Or.inl rfl, by simp⟩
    · have hi : Int.tdiv (withCursor ap 7).a_uio.offset 7 = 1 := rfl
      rw [hi] at h hlen
      have hn : n ≤ 1 := by simpa [entriesFrom] using hlen
      interval_cases n
      · exact ⟨_, _, [], FALSE, h, by simp [withCursor], by simp [FALSE, withCursor], Or.inr rfl,
          by simp [htf.symm]⟩
      · exact ⟨_, _, [(dotdotItem sz, sz)], TRUE, h, by simp [withCursor, entriesFrom],
          by simp [TRUE, withCursor], Or.inl rfl, by simp⟩

theorem C4_eof_only_after_both_witness :
    VNOPReadDir true 264 goodBuffer (withCursor (sampleArgs 0 264 0) 0) =
      some (0, { a_uio := { offset := 7, resid := 0, moved := [(dotItem 264, 264)] },
                 a_flags := 0, a_eofflag := some FALSE, a_numdirent := some 1 }) :=
  (C4_eof_only_after_both true 264 goodBuffer (sampleArgs 0 264 0) (by decide)).1
    (by decide) rfl

/-- C5, evaluation at a cursor that is no multiple of 7 (cursor 3, space for
two records of 264 bytes, no flags, a buffer every copy into which goes
through). A kernel without `MACH_ASSERT` trusts the cursor: index 3 / 7 = 0,
both records are written and the call returns error 0, cursor 14. A kernel
with `MACH_ASSERT` panics at the offset assert, whatever `uiomove` would
answer. Neither returns `EINVAL`. -/
theorem C5_bogus_cursor_not_rejected :
    VNOPReadDir false 264 goodBuffer (sampleArgs 3 528 0) =
      some (0, { a_uio := { offset := 14, resid := 0,
                            moved := [(dotItem 264, 264), (dotdotItem 264, 264)] },
                 a_flags := 0, a_eofflag := some TRUE, a_numdirent := some 2 }) ∧
    (∀ k : uio → errno_t, VNOPReadDir true 264 k (sampleArgs 3 528 0) = none) ∧
    Int.tmod (sampleArgs 3 528 0).a_uio.offset 7 ≠ 0 := by
  refine ⟨by decide, fun k => ?_, by decide⟩
  exact readdir_panics 264 k (sampleArgs 3 528 0) (by decide) (by decide)

/-- C6, unsupported enumeration modes. When the flags contain
`VNODE_READDIR_EXTENDED` or `VNODE_READDIR_REQSEEKOFF` the call returns
`EINVAL`, reports zero entries and end of directory false, and leaves the
uio (cursor, space, buffer) unchanged, whatever the cursor and the build.
When neither flag is set the flags play no part: the call does what it does
with flags 0, it fails to return only by the offset assert, and when it
returns an error, that error is one `uiomove` answered: when every copy goes
through the error is 0. -/
theorem C6_unsupported_modes (ma : Bool) (sz : Nat) (k : uio → errno_t)
    (ap : vnop_readdir_args) :
    ((ap.a_flags &&& VNODE_READDIR_EXTENDED ≠ 0 ∨ ap.a_flags &&& VNODE_READDIR_REQSEEKOFF ≠ 0) →
      VNOPReadDir ma sz k ap =
        some (EINVAL, { a_uio := ap.a_uio, a_flags := ap.a_flags,
                        a_eofflag := ap.a_eofflag.map (fun _ => FALSE),
                        a_numdirent := ap.a_numdirent.map (fun _ => 0) })) ∧
    ((ap.a_flags &&& VNODE_READDIR_EXTENDED = 0 ∧ ap.a_flags &&& VNODE_READDIR_REQSEEKOFF = 0) →
      VNOPReadDir ma sz k ap =
        (VNOPReadDir ma sz k { ap with a_flags := 0 }).map
          (fun r => (r.1, { r.2 with a_flags := ap.a_flags })) ∧
      (VNOPReadDir ma sz k ap = none ↔ (ma = true ∧ Int.tmod ap.a_uio.offset 7 ≠ 0)) ∧
      (∀ (err : errno_t) (o : vnop_readdir_args),
        VNOPReadDir ma sz k ap = some (err, o) →
          (err = 0 ∨ ∃ u : uio, k u ≠ 0 ∧ err = surfaced (k u)) ∧
          ((∀ u : uio, k u = 0) → err = 0))) := by
  constructor
  · intro hflag
    have hnp : ¬ plainMode ap.a_flags := by
      intro hp
      exact plain_not_flagged hp hflag
    exact readdir_flagged ma sz k ap hnp
  · intro hf
    have hf2 := plain_not_flagged hf
    have h0 : ¬ ((0 : Nat) &&& VNODE_READDIR_EXTENDED ≠ 0 ∨
        (0 : Nat) &&& VNODE_READDIR_REQSEEKOFF ≠ 0) := by decide
    refine ⟨?_, ?_⟩
    · simp only [VNOPReadDir, if_neg hf2, if_neg h0, Option.map_map]
      rfl
    · by_cases hp : ma = true ∧ Int.tmod ap.a_uio.offset 7 ≠ 0
      · obtain ⟨rfl, hne⟩ := hp
        have hnone := readdir_panics sz k ap hf hne
        refine ⟨by simp [hnone, hne], fun err o h => ?_⟩
        rw [hnone] at h
        exact absurd h (by simp)
      · obtain ⟨n, e, -, -, hstop, h⟩ := readdir_plain ma sz k ap hf (not_panics_iff hp)
        rw [leaves_eq_some] at h
        refine ⟨?_, fun err o ho => ?_⟩
        · constructor
          · intro hnone
            rw [hnone] at h
            exact absurd h (by simp)
          · intro hp2
            exact absurd hp2 hp
        · rw [h] at ho
          simp only [Option.some.injEq, Prod.mk.injEq] at ho
          obtain ⟨rfl, -⟩ := ho
          rcases hstop with ⟨-, he⟩ | ⟨-, -, u, hu, he⟩
          · exact ⟨Or.inl he, fun _ => he⟩
          · exact ⟨Or.inr ⟨u, hu, he⟩, fun hk => absurd (hk u) hu⟩

theorem C6_unsupported_modes_witness :
    VNOPReadDir true 264 goodBuffer (sampleArgs 3 528 2) =
      some (EINVAL, { a_uio := { offset := 3, resid := 528, moved := [] }, a_flags := 2,
                      a_eofflag := some FALSE, a_numdirent := some 0 }) ∧
    (∀ (err : errno_t) (o : vnop_readdir_args),
      VNOPReadDir true 264 goodBuffer (sampleArgs 0 528 4) = some (err, o) → err = 0) :=
  ⟨(C6_unsupported_modes true 264 goodBuffer (sampleArgs 3 528 2)).1 (by decide),
   fun err o h =>
     (((C6_unsupported_modes true 264 goodBuffer (sampleArgs 0 528 4)).2 (by decide)).2.2
       err o h).2 (fun _ => rfl)⟩

/-- C7, counterexample. Cursor 0 and space for two records of 264 bytes. On a
buffer that cannot be written the call returns `EFAULT` with no entry and
cursor 0; on a buffer of which only the first record-sized part can be
written it returns `EFAULT` after the one entry ".", with cursor 7 and end of
directory false. Neither returns error 0 with two entries and cursor 14. -/
theorem C7_copy_failure_stops_enumeration :
    VNOPReadDir true 264 badBuffer (withCursor (sampleArgs 0 528 0) 0) =
      some (EFAULT, { a_uio := { offset := 0, resid := 528, moved := [] }, a_flags := 0,
                      a_eofflag := some FALSE, a_numdirent := some 0 }) ∧
    VNOPReadDir true 264 shortBuffer (withCursor (sampleArgs 0 528 0) 0) =
      some (EFAULT, { a_uio := { offset := 7, resid := 264, moved := [(dotItem 264, 264)] },
                      a_flags := 0, a_eofflag := some FALSE, a_numdirent := some 1 }) ∧
    2 * 264 ≤ (sampleArgs 0 528 0).a_uio.resid ∧ EFAULT ≠ 0 := by
  decide

/-- C7 as amended, full enumeration in one call. Plain mode, cursor 0 and
space for at least two records. When `uiomove` goes through on both copies,
the call returns error 0 and cursor 14, reports two entries and end of
directory true, and has moved exactly two whole records, "." then "..", each
with file number 2, type `DT_DIR`, record length `sizeof(struct dirent)` and
the length of its name (1 and 2) as name length. When `uiomove` fails on the
first copy, the call returns its error (0 when it is `ENOBUFS`) with no
entry and cursor 0; when it fails on the second, the call returns that error
with the one entry ".", cursor 7 and end of directory false. -/
theorem C7_full_enumeration (ma : Bool) (sz : Nat) (k : uio → errno_t)
    (ap : vnop_readdir_args)
    (hf : plainMode ap.a_flags) (hs : 2 * sz ≤ ap.a_uio.resid) :
    (k (withCursor ap 0).a_uio = 0 →
      k (afterRecord (withCursor ap 0).a_uio (dotItem sz) sz) = 0 →
      VNOPReadDir ma sz k (withCursor ap 0) =
        some (0, { a_uio :=
                     { offset := 14, resid := ap.a_uio.resid - 2 * sz,
                       moved := ap.a_uio.moved ++
                         [({ d_fileno := 2, d_reclen := sz, d_type := DT_DIR,
                             d_name := ".", d_namlen := 1 }, sz),
                          ({ d_fileno := 2, d_reclen := sz, d_type := DT_DIR,
                             d_name := "..", d_namlen := 2 }, sz)] },
                   a_flags := ap.a_flags,
                   a_eofflag := ap.a_eofflag.map (fun _ => TRUE),
                   a_numdirent := ap.a_numdirent.map (fun _ => 2) })) ∧
    (k (withCursor ap 0).a_uio ≠ 0 →
      VNOPReadDir ma sz k (withCursor ap 0) =
        some (surfaced (k (withCursor ap 0).a_uio),
              { a_uio := (withCursor ap 0).a_uio, a_flags := ap.a_flags,
                a_eofflag := ap.a_eofflag.map (fun _ => FALSE),
                a_numdirent := ap.a_numdirent.map (fun _ => 0) })) ∧
    (k (withCursor ap 0).a_uio = 0 →
      k (afterRecord (withCursor ap 0).a_uio (dotItem sz) sz) ≠ 0 →
      VNOPReadDir ma sz k (withCursor ap 0) =
        some (surfaced (k (afterRecord (withCursor ap 0).a_uio (dotItem sz) sz)),
              { a_uio := { offset := 7, resid := ap.a_uio.resid - sz,
                           moved := ap.a_uio.moved ++ [(dotItem sz, sz)] },
                a_flags := ap.a_flags,
                a_eofflag := ap.a_eofflag.map (fun _ => FALSE),
                a_numdirent := ap.a_numdirent.map (fun _ => 1) })) ∧
    ".".length = 1 ∧ "..".length = 2 := by
  refine ⟨fun hk₁ hk₂ => ?_, fun hk₁ => ?_, fun hk₁ hk₂ => ?_, strlen_dot, strlen_dotdot⟩
  · have e := readdir_index0_two ma sz k (withCursor ap 0) hf (Or.inr rfl) rfl hs hk₁ hk₂
    have hsub : ap.a_uio.resid - sz - sz = ap.a_uio.resid - 2 * sz := by omega
    rw [leaves_eq_some] at e
    rw [e]
    simp [withCursor, hsub, dotItem, dotdotItem]
  · have e := readdir_index0_fail ma sz k (withCursor ap 0) hf (Or.inr rfl) rfl (by
      show sz ≤ ap.a_uio.resid
      omega) hk₁
    rw [leaves_eq_some] at e
    rw [e]
    rfl
  · have e := readdir_index0_one_fail ma sz k (withCursor ap 0) hf (Or.inr rfl) rfl hs hk₁ hk₂
    rw [leaves_eq_some] at e
    rw [e]
    rfl

theorem C7_full_enumeration_witness :
    (VNOPReadDir true 264 goodBuffer (withCursor (sampleArgs 0 600 0) 0)).map
        (fun r => (r.1, r.2.a_numdirent)) =
      some (0, some 2) := by
  rw [(C7_full_enumeration true 264 goodBuffer (sampleArgs 0 600 0) (by decide)
    (by decide)).1 rfl rfl]
  rfl

/-! ## Name lookup: facts and claims -/

theorem namedDot_iff (cnp : componentname) :
    (cnp.cn_namelen = 1 ∧ cnp.cn_nameptr.getD 0 (Char.ofNat 0) = '.') ↔ namedDot cnp := by
  unfold namedDot componentName
  constructor
  · rintro ⟨h1, h2⟩
    refine ⟨h1, ?_⟩
    rw [h1]
    cases hl : cnp.cn_nameptr with
    | nil =>
      rw [hl] at h2
      exact absurd h2 (by decide)
    | cons c t =>
      rw [hl] at h2
      simp at h2
      simp [h2]
  · rintro ⟨h1, h2⟩
    refine ⟨h1, ?_⟩
    rw [h1] at h2
    cases hl : cnp.cn_nameptr with
    | nil =>
      rw [hl] at h2
      simp at h2
    | cons c t =>
      rw [hl] at h2
      simp at h2
      simp [h2]

theorem lookup_found (ma : Bool) (k : VNodeTable) (ap : vnop_lookup_args)
    (hname : ap.a_cnp.cn_flags &&& ISDOTDOT ≠ 0 ∨ namedDot ap.a_cnp)
    (hget : k.vnode_get_err ap.a_dvp = 0) :
    VNOPLookup ma k ap =
      some (0, { ap with a_vpp := some ap.a_dvp },
            { k with iocount := Function.update k.iocount ap.a_dvp (k.iocount ap.a_dvp + 1) }) := by
  rcases hname with h | h
  · simp [VNOPLookup, h, vnode_get, hget, assert]
  · have h2 := (namedDot_iff ap.a_cnp).2 h
    by_cases hd : ap.a_cnp.cn_flags &&& ISDOTDOT = 0
    · have hd2 : ¬ (ap.a_cnp.cn_flags &&& ISDOTDOT ≠ 0) := fun hne => hne hd
      simp only [VNOPLookup, if_neg hd2, if_pos h2]
      simp [vnode_get, hget, assert]
    · simp [VNOPLookup, hd, vnode_get, hget, assert]

theorem lookup_refused (ma : Bool) (k : VNodeTable) (ap : vnop_lookup_args)
    (hname : ap.a_cnp.cn_flags &&& ISDOTDOT ≠ 0 ∨ namedDot ap.a_cnp)
    (hget : k.vnode_get_err ap.a_dvp ≠ 0) :
    VNOPLookup ma k ap = some (k.vnode_get_err ap.a_dvp, { ap with a_vpp := none }, k) := by
  rcases hname with h | h
  · simp [VNOPLookup, h, vnode_get, hget, assert]
  · have h2 := (namedDot_iff ap.a_cnp).2 h
    by_cases hd : ap.a_cnp.cn_flags &&& ISDOTDOT = 0
    · have hd2 : ¬ (ap.a_cnp.cn_flags &&& ISDOTDOT ≠ 0) := fun hne => hne hd
      simp only [VNOPLookup, if_neg hd2, if_pos h2]
      simp [vnode_get, hget, assert]
    · simp [VNOPLookup, hd, vnode_get, hget, assert]

theorem lookup_other (ma : Bool) (k : VNodeTable) (ap : vnop_lookup_args)
    (hd : ap.a_cnp.cn_flags &&& ISDOTDOT = 0) (hn : ¬ namedDot ap.a_cnp) :
    VNOPLookup ma k ap = some (ENOENT, { ap with a_vpp := none }, k) := by
  have h2 : ¬ (ap.a_cnp.cn_namelen = 1 ∧ ap.a_cnp.cn_nameptr.getD 0 (Char.ofNat 0) = '.') :=
    fun h => hn ((namedDot_iff ap.a_cnp).1 h)
  have hd2 : ¬ (ap.a_cnp.cn_flags &&& ISDOTDOT ≠ 0) := fun hne => hne hd
  simp only [VNOPLookup, if_neg hd2, if_neg h2]
  simp [assert, ENOENT]

/-- C8, lookup closure for the two fixed names. For every directory handle
`dvp` on which `vnode_get` succeeds, a lookup of the component named "."
and a lookup of a component flagged `ISDOTDOT` (whatever its name bytes)
return error 0 with the output handle set to `dvp` itself; the one I/O
reference taken is on `dvp`. -/
theorem C8_lookup_closure (ma : Bool) (k : VNodeTable) (ap : vnop_lookup_args)
    (hget : k.vnode_get_err ap.a_dvp = 0)
    (hname : ap.a_cnp.cn_flags &&& ISDOTDOT ≠ 0 ∨ namedDot ap.a_cnp) :
    VNOPLookup ma k ap =
      some (0, { a_dvp := ap.a_dvp, a_vpp := some ap.a_dvp, a_cnp := ap.a_cnp },
            { vnode_get_err := k.vnode_get_err,
              iocount := Function.update k.iocount ap.a_dvp (k.iocount ap.a_dvp + 1) }) :=
  lookup_found ma k ap hname hget

theorem C8_lookup_closure_witness :
    (VNOPLookup true sampleTable (sampleLookup 5 0 ".")).map (fun r => (r.1, r.2.1.a_vpp)) =
      some (0, some 5) ∧
    (VNOPLookup true sampleTable (sampleLookup 5 ISDOTDOT "..")).map
      (fun r => (r.1, r.2.1.a_vpp)) = some (0, some 5) := by
  rw [C8_lookup_closure true sampleTable (sampleLookup 5 0 ".") (by decide) (Or.inr (by decide)),
    C8_lookup_closure true sampleTable (sampleLookup 5 ISDOTDOT "..") (by decide)
      (Or.inl (by decide))]
  exact ⟨rfl, rfl⟩

/-- C9, any other name is not found. For every component that is not
flagged `ISDOTDOT` and whose name is not exactly the one-byte name "." (the
empty name and longer names that start with a dot included), the lookup
returns `ENOENT`, sets the output handle to `NULL`, and leaves the vnode
table as it was: no reference is taken on the directory. -/
theorem C9_lookup_not_found (ma : Bool) (k : VNodeTable) (ap : vnop_lookup_args)
    (hd : ap.a_cnp.cn_flags &&& ISDOTDOT = 0) (hn : ¬ namedDot ap.a_cnp) :
    VNOPLookup ma k ap =
      some (ENOENT, { a_dvp := ap.a_dvp, a_vpp := none, a_cnp := ap.a_cnp }, k) :=
  lookup_other ma k ap hd hn

theorem C9_lookup_not_found_witness :
    (VNOPLookup true sampleTable (sampleLookup 5 0 "")).map (fun r => (r.1, r.2.1.a_vpp)) =
      some (ENOENT, none) ∧
    (VNOPLookup true sampleTable (sampleLookup 5 0 ".hidden")).map
      (fun r => (r.1, r.2.1.a_vpp)) = some (ENOENT, none) ∧
    (VNOPLookup true sampleTable (sampleLookup 5 0 "name")).map
      (fun r => (r.1, r.2.1.a_vpp)) = some (ENOENT, none) := by
  rw [C9_lookup_not_found true sampleTable (sampleLookup 5 0 "") (by decide) (by decide),
    C9_lookup_not_found true sampleTable (sampleLookup 5 0 ".hidden") (by decide) (by decide),
    C9_lookup_not_found true sampleTable (sampleLookup 5 0 "name") (by decide) (by decide)]
  exact ⟨rfl, rfl, rfl⟩

/-- C10, a fresh reference and a consistent result. Every lookup returns
(the post-condition assert never fires), and its error is 0 exactly when the
output handle is not `NULL`. A lookup that returns 0 has made one successful
`vnode_get` on the directory handle, so that the I/O count of that vnode and
of no other went up by one, and hands back that same handle. When
`vnode_get` is reached (the component is flagged `ISDOTDOT` or is named ".")
and fails, its error is returned, the output handle is `NULL` and no
reference was taken. -/
theorem C10_lookup_reference (ma : Bool) (k : VNodeTable) (ap : vnop_lookup_args) :
    ∃ (err : errno_t) (vpp : Option vnode_t) (k' : VNodeTable),
      VNOPLookup ma k ap = some (err, { a_dvp := ap.a_dvp, a_vpp := vpp, a_cnp := ap.a_cnp }, k') ∧
      (err = 0 ↔ vpp ≠ none) ∧
      (err = 0 →
        vpp = some ap.a_dvp ∧ (err, k') = vnode_get k ap.a_dvp ∧
        k'.iocount = Function.update k.iocount ap.a_dvp (k.iocount ap.a_dvp + 1)) ∧
      ((ap.a_cnp.cn_flags &&& ISDOTDOT ≠ 0 ∨ namedDot ap.a_cnp) →
        k.vnode_get_err ap.a_dvp ≠ 0 →
        err = k.vnode_get_err ap.a_dvp ∧ vpp = none ∧ k' = k) := by
  by_cases hname : ap.a_cnp.cn_flags &&& ISDOTDOT ≠ 0 ∨ namedDot ap.a_cnp
  · by_cases hget : k.vnode_get_err ap.a_dvp = 0
    · refine ⟨_, _, _, lookup_found ma k ap hname hget, by simp, fun _ => ⟨rfl, ?_, rfl⟩,
        fun _ h => absurd hget h⟩
      simp [vnode_get, hget]
    · refine ⟨_, _, _, lookup_refused ma k ap hname hget, by simp [hget],
        fun h => absurd h hget, fun _ _ => ⟨rfl, rfl, rfl⟩⟩
  · have hd : ap.a_cnp.cn_flags &&& ISDOTDOT = 0 := by
      by_contra h
      exact hname (Or.inl h)
    have hn : ¬ namedDot ap.a_cnp := fun h => hname (Or.inr h)
    refine ⟨_, _, _, lookup_other ma k ap hd hn, by simp [ENOENT],
      fun h => absurd h (by decide), fun h => absurd h hname⟩

theorem C10_lookup_reference_witness :
    ∃ (err : errno_t) (vpp : Option vnode_t) (k' : VNodeTable),
      VNOPLookup true sampleTable (sampleLookup 6 0 ".") =
        some (err, { a_dvp := 6, a_vpp := vpp, a_cnp := (sampleLookup 6 0 ".").a_cnp }, k') ∧
      err = 2 ∧ vpp = none ∧ k' = sampleTable := by
  obtain ⟨err, vpp, k', h, -, -, h3⟩ := C10_lookup_reference true sampleTable (sampleLookup 6 0 ".")
  obtain ⟨h4, h5, h6⟩ := h3 (Or.inr (by decide)) (by decide)
  exact ⟨err, vpp, k', h, h4, h5, h6⟩

/-! ## The root vnode: facts about the embedding -/

theorem getRootLoopEnd_next {ma : Bool} {t : Nat} {w w' : World} {err : errno_t}
    {r : Option vnode_t} {pc' : GetRootPC}
    (h : getRootLoopEnd ma t w err r = .next w' pc') :
    (err = EAGAIN ∧ w' = { w with mutexOwner := some t } ∧ pc' = .loopTop) ∨
    (err ≠ EAGAIN ∧ w' = { w with mutexOwner := none } ∧
      pc' = .returned err (if err = 0 then r else none)) := by
  unfold getRootLoopEnd at h
  split at h
  · exact absurd h (by simp)
  · split at h
    · simp only [Progress.next.injEq] at h
      exact Or.inl ⟨by assumption, h.1.symm, h.2.symm⟩
    · simp only at h
      split at h
      · exact absurd h (by simp)
      · simp only [Progress.next.injEq] at h
        exact Or.inr ⟨by assumption, h.1.symm, h.2.symm⟩

theorem getRootStep_next {ma : Bool} {t : Nat} {o : Answer} {w w' : World}
    {pc pc' : GetRootPC} (h : getRootStep ma t o w pc = .next w' pc') :
    GetRootTrans t w pc w' pc' := by
  cases pc with
  | entry =>
    simp only [getRootStep] at h
    split at h
    · simp only [Progress.next.injEq] at h
      obtain ⟨rfl, rfl⟩ := h
      exact .lock w (by assumption)
    · exact absurd h (by simp)
  | loopTop =>
    simp only [getRootStep] at h
    split at h
    · simp only [Progress.next.injEq] at h
      obtain ⟨rfl, rfl⟩ := h
      exact .wait w (by assumption)
    · split at h
      · simp only [Progress.next.injEq] at h
        obtain ⟨rfl, rfl⟩ := h
        exact .attach w (by simpa using ‹¬ w.mtmp.fRootAttaching = true›) (by assumption)
      · simp only [Progress.next.injEq] at h
        obtain ⟨rfl, rfl⟩ := h
        exact .found w _ _ (by simpa using ‹¬ w.mtmp.fRootAttaching = true›) (by assumption)
  | sleeping =>
    simp only [getRootStep] at h
    split at h
    · exact absurd h (by simp)
    · split at h
      · rcases getRootLoopEnd_next h with ⟨-, rfl, rfl⟩ | ⟨hne, -, -⟩
        · exact .wake w (by assumption) (by assumption)
        · exact absurd rfl hne
      · exact absurd h (by simp)
  | creating =>
    simp only [getRootStep] at h
    split at h
    · exact absurd h (by simp)
    · simp only [Progress.next.injEq] at h
      obtain ⟨rfl, rfl⟩ := h
      exact .create w o.create_err o.create_vn
  | created err newVN =>
    simp only [getRootStep] at h
    split at h
    · exact absurd h (by simp)
    · have hfree : w.mutexOwner = none := by simpa using ‹¬ w.mutexOwner ≠ none›
      split at h
      · subst err
        split at h
        · exact absurd h (by simp)
        · split at h
          · exact absurd h (by simp)
          · split at h
            · exact absurd h (by simp)
            · rcases getRootLoopEnd_next h with ⟨he, -, -⟩ | ⟨-, rfl, rfl⟩
              · exact absurd he (by decide)
              · exact .install w _ hfree
      · rcases getRootLoopEnd_next h with ⟨rfl, rfl, rfl⟩ | ⟨hne, rfl, rfl⟩
        · exact .failAgain w newVN hfree
        · rw [if_neg (by assumption)]
          exact .fail w err newVN hfree (by assumption) hne
  | revalidating c vid =>
    simp only [getRootStep] at h
    split at h
    · simp only [Progress.next.injEq] at h
      obtain ⟨rfl, rfl⟩ := h
      rw [‹o.getwithvid_err = 0›]
      exact .fresh w c vid
    · simp only [Progress.next.injEq] at h
      obtain ⟨rfl, rfl⟩ := h
      exact .stale w c vid o.getwithvid_err (by assumption)
  | revalidated err r =>
    simp only [getRootStep] at h
    split at h
    · exact absurd h (by simp)
    · have hfree : w.mutexOwner = none := by simpa using ‹¬ w.mutexOwner ≠ none›
      rcases getRootLoopEnd_next h with ⟨rfl, rfl, rfl⟩ | ⟨hne, rfl, rfl⟩
      · exact .again w r hfree
      · exact .done w err r hfree hne
  | returned err vn =>
    simp only [getRootStep] at h
    exact absurd h (by simp)

theorem threads_set_get {l : List GetRootPC} {t : Nat} {pc : GetRootPC} (pc' : GetRootPC)
    (u : Nat) (h : l[t]? = some pc) :
    (l.set t pc')[u]? = if u = t then some pc' else l[u]? := by
  have hlt : t < l.length := by
    by_contra hge
    rw [List.getElem?_eq_none (by omega)] at h
    exact absurd h (by simp)
  by_cases hu : u = t
  · subst hu
    simp [hlt]
  · have hne : t ≠ u := fun e => hu e.symm
    simp [hu, List.getElem?_set_ne hne]

theorem trans_attaching_root {t : Nat} {w w' : World} {pc pc' : GetRootPC}
    (hT : GetRootTrans t w pc w' pc')
    (i1 : w.mtmp.fRootAttaching = true → w.mtmp.fRootVNode = none) :
    w'.mtmp.fRootAttaching = true → w'.mtmp.fRootVNode = none := by
  cases hT <;> simp_all

theorem trans_waiting_attaching {t : Nat} {w w' : World} {pc pc' : GetRootPC}
    (hT : GetRootTrans t w pc w' pc')
    (i2 : w.mtmp.fRootWaiting = true → w.mtmp.fRootAttaching = true) :
    w'.mtmp.fRootWaiting = true → w'.mtmp.fRootAttaching = true := by
  cases hT <;> simp_all

theorem trans_owner_loopTop {t : Nat} {w w' : World} {pc pc' : GetRootPC} {l : List GetRootPC}
    (hT : GetRootTrans t w pc w' pc') (ht : l[t]? = some pc)
    (i3 : ∀ u : Nat, w.mutexOwner = some u ↔ l[u]? = some .loopTop) :
    ∀ u : Nat, w'.mutexOwner = some u ↔ (l.set t pc')[u]? = some .loopTop := by
  intro u
  rw [threads_set_get _ _ ht]
  have i3t := i3 t
  have i3u := i3 u
  rw [ht] at i3t
  by_cases hu : u = t
  · subst hu
    cases hT <;> simp_all
  · have hne : t ≠ u := fun e => hu e.symm
    have key : pc = .loopTop → ¬ l[u]? = some .loopTop := by
      intro hpc hul
      have h1 := (i3 u).2 hul
      have h2 := (i3 t).2 (hpc ▸ ht)
      rw [h1] at h2
      exact hu (Option.some.inj h2)
    cases hT <;> simp_all

theorem trans_creator_unique {t : Nat} {w w' : World} {pc pc' : GetRootPC} {l : List GetRootPC}
    (hT : GetRootTrans t w pc w' pc') (ht : l[t]? = some pc)
    (i4 : ∀ (u : Nat) (qc : GetRootPC), l[u]? = some qc → qc.isCreator = true →
      w.mtmp.fRootAttaching = true)
    (i5 : ∀ (u v : Nat) (pc qc : GetRootPC), l[u]? = some pc → l[v]? = some qc →
      pc.isCreator = true → qc.isCreator = true → u = v) :
    ∀ (u v : Nat) (pc₁ qc : GetRootPC), (l.set t pc')[u]? = some pc₁ →
      (l.set t pc')[v]? = some qc → pc₁.isCreator = true → qc.isCreator = true → u = v := by
  intro u v pc₁ qc
  rw [threads_set_get _ _ ht, threads_set_get _ _ ht]
  by_cases hu : u = t <;> by_cases hv : v = t
  · intros; rw [hu, hv]
  · rw [if_pos hu, if_neg hv]
    intro h1 h2 c1 c2
    rw [Option.some.injEq] at h1
    subst h1
    have ha := i4 v qc h2 c2
    have hu2 := fun hc => i5 t v pc qc ht h2 hc c2
    clear i4 i5
    cases hT <;> simp_all [GetRootPC.isCreator]
  · rw [if_neg hu, if_pos hv]
    intro h1 h2 c1 c2
    rw [Option.some.injEq] at h2
    subst h2
    have ha := i4 u pc₁ h1 c1
    have hu2 := fun hc => i5 t u pc pc₁ ht h1 hc c1
    clear i4 i5
    cases hT <;> simp_all [GetRootPC.isCreator]
  · rw [if_neg hu, if_neg hv]
    exact i5 u v pc₁ qc

theorem trans_creator_attaching {t : Nat} {w w' : World} {pc pc' : GetRootPC}
    {l : List GetRootPC} (hT : GetRootTrans t w pc w' pc') (ht : l[t]? = some pc)
    (i4 : ∀ (u : Nat) (qc : GetRootPC), l[u]? = some qc → qc.isCreator = true →
      w.mtmp.fRootAttaching = true)
    (i5 : ∀ (u v : Nat) (pc qc : GetRootPC), l[u]? = some pc → l[v]? = some qc →
      pc.isCreator = true → qc.isCreator = true → u = v) :
    ∀ (u : Nat) (qc : GetRootPC), (l.set t pc')[u]? = some qc → qc.isCreator = true →
      w'.mtmp.fRootAttaching = true := by
  intro u qc
  rw [threads_set_get _ _ ht]
  by_cases hu : u = t
  · rw [if_pos hu]
    intro h1 c1
    rw [Option.some.injEq] at h1
    subst h1
    have ha := i4 t pc ht
    clear i4 i5
    cases hT <;> simp_all [GetRootPC.isCreator]
  · rw [if_neg hu]
    intro h1 c1
    have ha := i4 u qc h1 c1
    have hu2 := fun hc => i5 t u pc qc ht h1 hc c1
    clear i4 i5
    cases hT <;> simp_all [GetRootPC.isCreator]

theorem trans_locals {t : Nat} {w w' : World} {pc pc' : GetRootPC}
    (hT : GetRootTrans t w pc w' pc') (i6 : pc.localsOk) : pc'.localsOk := by
  cases hT <;> simp_all [GetRootPC.localsOk, EAGAIN]

theorem trans_waitq_sleeping {t : Nat} {w w' : World} {pc pc' : GetRootPC}
    {l : List GetRootPC} (hT : GetRootTrans t w pc w' pc') (ht : l[t]? = some pc)
    (i7 : ∀ u : Nat, u ∈ w.waitq → l[u]? = some .sleeping) :
    ∀ u : Nat, u ∈ w'.waitq → (l.set t pc')[u]? = some .sleeping := by
  intro u
  rw [threads_set_get _ _ ht]
  have hnq : pc ≠ .sleeping → t ∉ w.waitq := by
    intro hne hmem
    have := i7 t hmem
    rw [ht] at this
    exact hne (Option.some.inj this)
  have i7u := i7 u
  by_cases hu : u = t
  · subst hu
    cases hT <;> simp_all
  · cases hT <;> simp_all

theorem trans_waitq_waiting {t : Nat} {w w' : World} {pc pc' : GetRootPC}
    (hT : GetRootTrans t w pc w' pc') (i8 : w.waitq ≠ [] → w.mtmp.fRootWaiting = true) :
    w'.waitq ≠ [] → w'.mtmp.fRootWaiting = true := by
  have i8' : w.mtmp.fRootWaiting = false → w.waitq = [] := by
    intro h
    by_contra hne
    rw [i8 hne] at h
    exact absurd h (by decide)
  cases hT <;> simp_all

theorem RootInv.run_thread {σ : System} {t : Nat} {pc pc' : GetRootPC} {w' : World} (hI : RootInv σ)
    (ht : σ.threads[t]? = some pc) (hT : GetRootTrans t σ.world pc w' pc') :
    RootInv { world := w', threads := σ.threads.set t pc' } where
  attaching_root := trans_attaching_root hT hI.attaching_root
  waiting_attaching := trans_waiting_attaching hT hI.waiting_attaching
  owner_loopTop := trans_owner_loopTop hT ht hI.owner_loopTop
  creator_attaching := trans_creator_attaching hT ht hI.creator_attaching hI.creator_unique
  creator_unique := trans_creator_unique hT ht hI.creator_attaching hI.creator_unique
  locals := by
    intro u qc
    rw [threads_set_get _ _ ht]
    by_cases hu : u = t
    · rw [if_pos hu]
      intro h
      rw [Option.some.injEq] at h
      subst h
      exact trans_locals hT (hI.locals t pc ht)
    · rw [if_neg hu]
      exact hI.locals u qc
  waitq_sleeping := trans_waitq_sleeping hT ht hI.waitq_sleeping
  waitq_waiting := trans_waitq_waiting hT hI.waitq_waiting

theorem detach_next {ma : Bool} {w w' : World} {vn : vnode_t}
    (h : EmptyFSMountDetachRootVNode ma w vn = .next w' ()) :
    w.mutexOwner = none ∧
    ((w.mtmp.fRootVNode = none ∧ w' = w) ∨
     (∃ root : vnode_t, w.mtmp.fRootVNode = some root ∧ (ma = true → root = vn) ∧
        w' = { w with mtmp := { w.mtmp with fRootVNode := none },
                      trace := w.trace ++ [.vnode_removefsref root] })) := by
  unfold EmptyFSMountDetachRootVNode at h
  split at h
  · exact absurd h (by simp)
  · have hfree : w.mutexOwner = none := by simpa using ‹¬ w.mutexOwner ≠ none›
    refine ⟨hfree, ?_⟩
    split at h
    · exact absurd h (by simp)
    · split at h
      · simp only [Progress.next.injEq, and_true] at h
        exact Or.inl ⟨by assumption, h.symm⟩
      · split at h
        · exact absurd h (by simp)
        · rename_i root hroot _ _ hassert
          simp only [Progress.next.injEq, and_true] at h
          refine Or.inr ⟨root, hroot, ?_, h.symm⟩
          intro hma
          subst hma
          simpa [assert] using hassert

theorem RootInv.reclaim {ma : Bool} {σ : System} {w' : World} {vp : vnode_t} (hI : RootInv σ)
    (h : EmptyFSMountDetachRootVNode ma σ.world vp = .next w' ()) :
    RootInv { σ with world := w' } := by
  obtain ⟨-, h2⟩ := detach_next h
  obtain ⟨i1, i2, i3, i4, i5, i6, i7, i8⟩ := hI
  rcases h2 with ⟨-, rfl⟩ | ⟨root, hroot, -, rfl⟩
  · exact ⟨i1, i2, i3, i4, i5, i6, i7, i8⟩
  · exact ⟨fun _ => rfl, i2, i3, i4, i5, i6, i7, i8⟩

theorem RootInv.call {σ : System} (hI : RootInv σ) :
    RootInv { σ with threads := σ.threads ++ [.entry] } := by
  obtain ⟨i1, i2, i3, i4, i5, i6, i7, i8⟩ := hI
  have key : ∀ (u : Nat) (qc : GetRootPC), (σ.threads ++ [GetRootPC.entry])[u]? = some qc →
      σ.threads[u]? = some qc ∨ qc = .entry := by
    intro u qc h
    by_cases hlt : u < σ.threads.length
    · rw [List.getElem?_append_left hlt] at h
      exact Or.inl h
    · rw [List.getElem?_append_right (by omega)] at h
      right
      cases hk : u - σ.threads.length with
      | zero =>
        rw [hk] at h
        simpa using h.symm
      | succ k =>
        rw [hk] at h
        simp at h
  have keep : ∀ (u : Nat) (qc : GetRootPC), σ.threads[u]? = some qc →
      (σ.threads ++ [GetRootPC.entry])[u]? = some qc := by
    intro u qc h
    have hlt : u < σ.threads.length := by
      by_contra hge
      rw [List.getElem?_eq_none (by omega)] at h
      exact absurd h (by simp)
    rw [List.getElem?_append_left hlt]
    exact h
  refine ⟨i1, i2, ?_, ?_, ?_, ?_, ?_, i8⟩
  · intro u
    constructor
    · intro h
      exact keep u _ ((i3 u).1 h)
    · intro h
      rcases key u _ h with h1 | h1
      · exact (i3 u).2 h1
      · exact absurd h1 (by simp)
  · intro u qc h c
    rcases key u qc h with h1 | h1
    · exact i4 u qc h1 c
    · subst h1
      exact absurd c (by simp [GetRootPC.isCreator])
  · intro u v pc qc h1 h2 c1 c2
    rcases key u pc h1 with h1' | h1'
    · rcases key v qc h2 with h2' | h2'
      · exact i5 u v pc qc h1' h2' c1 c2
      · subst h2'
        exact absurd c2 (by simp [GetRootPC.isCreator])
    · subst h1'
      exact absurd c1 (by simp [GetRootPC.isCreator])
  · intro u qc h
    rcases key u qc h with h1 | h1
    · exact i6 u qc h1
    · subst h1
      trivial
  · intro u hu
    exact keep u _ (i7 u hu)

theorem RootInv.spurious {σ : System} (t : Nat) (hI : RootInv σ) :
    RootInv { σ with world := { σ.world with waitq := σ.world.waitq.filter (fun u => u ≠ t) } } := by
  obtain ⟨i1, i2, i3, i4, i5, i6, i7, i8⟩ := hI
  refine ⟨i1, i2, i3, i4, i5, i6, ?_, ?_⟩
  · intro u hu
    exact i7 u (List.mem_of_mem_filter hu)
  · intro hne
    apply i8
    intro hnil
    apply hne
    show List.filter _ σ.world.waitq = []
    rw [hnil]
    rfl

theorem RootInv.of_postMount {m : EmptyFSMount} (n : Nat) (hm : postMount m) :
    RootInv (System.init m n) := by
  obtain ⟨h1, h2, h3⟩ := hm
  have key : ∀ (u : Nat) (qc : GetRootPC),
      (List.replicate n GetRootPC.entry)[u]? = some qc → qc = .entry := by
    intro u qc h
    have := List.getElem?_mem h
    exact List.eq_of_mem_replicate this
  refine ⟨fun _ => h3, fun h => ?_, ?_, ?_, ?_, ?_, ?_, ?_⟩
  · have h' : m.fRootWaiting = true := h
    rw [h2] at h'
    exact absurd h' (by decide)
  · intro u
    constructor
    · intro h
      exact absurd h (by simp [System.init])
    · intro h
      exact absurd (key u _ h) (by simp)
  · intro u qc h c
    rw [key u qc h] at c
    exact absurd c (by simp [GetRootPC.isCreator])
  · intro u v pc qc h _ c _
    rw [key u pc h] at c
    exact absurd c (by simp [GetRootPC.isCreator])
  · intro u qc h
    rw [key u qc h]
    trivial
  · intro u hu
    exact absurd hu (by simp [System.init])
  · intro h
    exact absurd rfl h

theorem RootInv.step {ma : Bool} {σ σ' : System} {l : Label} (hI : RootInv σ)
    (h : σ.step ma l = some σ') : RootInv σ' := by
  cases l with
  | call =>
    simp only [System.step, Option.some.injEq] at h
    subst h
    exact hI.call
  | run t o =>
    simp only [System.step] at h
    split at h
    · exact absurd h (by simp)
    · rename_i pc hpc
      split at h
      · rename_i w pc' hstep
        simp only [Option.some.injEq] at h
        subst h
        exact hI.run_thread hpc (getRootStep_next hstep)
      · exact absurd h (by simp)
  | reclaim vp =>
    simp only [System.step] at h
    split at h
    · rename_i w u hstep
      simp only [Option.some.injEq] at h
      subst h
      exact hI.reclaim hstep
    · exact absurd h (by simp)
  | spurious t =>
    simp only [System.step] at h
    split at h
    · simp only [Option.some.injEq] at h
      subst h
      exact hI.spurious t
    · exact absurd h (by simp)

theorem RootInv.exec {ma : Bool} {ls : List Label} {σ σ' : System} (hI : RootInv σ)
    (h : System.exec ma σ ls = some σ') : RootInv σ' := by
  induction ls generalizing σ with
  | nil =>
    simp only [System.exec, Option.some.injEq] at h
    subst h
    exact hI
  | cons l ls ih =>
    simp only [System.exec] at h
    split at h
    · exact absurd h (by simp)
    · rename_i σ₁ hstep
      exact ih (hI.step hstep) h

theorem reachable_inv {ma : Bool} {σ : System} (h : Reachable ma σ) : RootInv σ := by
  obtain ⟨m, n, ls, hm, hexec⟩ := h
  exact (RootInv.of_postMount n hm).exec hexec

theorem locals_step {ma : Bool} {σ σ' : System} {l : Label}
    (hI : ∀ (t : Nat) (pc : GetRootPC), σ.threads[t]? = some pc → pc.localsOk)
    (h : σ.step ma l = some σ') :
    ∀ (t : Nat) (pc : GetRootPC), σ'.threads[t]? = some pc → pc.localsOk := by
  cases l with
  | call =>
    simp only [System.step, Option.some.injEq] at h
    subst h
    intro u qc hq
    by_cases hlt : u < σ.threads.length
    · rw [List.getElem?_append_left hlt] at hq
      exact hI u qc hq
    · have hmem := List.getElem?_mem hq
      rcases List.mem_append.1 hmem with hm | hm
      · obtain ⟨k, hk⟩ := List.getElem?_of_mem hm
        exact hI k qc hk
      · rw [List.mem_singleton.1 hm]
        trivial
  | run t o =>
    simp only [System.step] at h
    split at h
    · exact absurd h (by simp)
    · rename_i pc hpc
      split at h
      · rename_i w pc' hstep
        simp only [Option.some.injEq] at h
        subst h
        intro u qc
        rw [threads_set_get _ _ hpc]
        by_cases hu : u = t
        · rw [if_pos hu]
          intro hq
          rw [Option.some.injEq] at hq
          subst hq
          exact trans_locals (getRootStep_next hstep) (hI t pc hpc)
        · rw [if_neg hu]
          exact hI u qc
      · exact absurd h (by simp)
  | reclaim vp =>
    simp only [System.step] at h
    split at h
    · simp only [Option.some.injEq] at h
      subst h
      exact hI
    · exact absurd h (by simp)
  | spurious t =>
    simp only [System.step] at h
    split at h
    · simp only [Option.some.injEq] at h
      subst h
      exact hI
    · exact absurd h (by simp)

theorem locals_exec {ma : Bool} {ls : List Label} {σ σ' : System}
    (hI : ∀ (t : Nat) (pc : GetRootPC), σ.threads[t]? = some pc → pc.localsOk)
    (h : System.exec ma σ ls = some σ') :
    ∀ (t : Nat) (pc : GetRootPC), σ'.threads[t]? = some pc → pc.localsOk := by
  induction ls generalizing σ with
  | nil =>
    simp only [System.exec, Option.some.injEq] at h
    subst h
    exact hI
  | cons l ls ih =>
    simp only [System.exec] at h
    split at h
    · exact absurd h (by simp)
    · rename_i σ₁ hstep
      exact ih (locals_step hI hstep) h

/-! ## The root vnode: the claims -/

/-- C11, no handle returned while empty. Whatever the shared state at the
start (any mount record, any mutex owner), whatever the kernel answers and
however the threads interleave: when a call of
`EmptyFSMountGetRootVNodeCreatingIfNecessary` has returned, its error is 0
exactly when the handle it stored is not `NULL`; `VFSOPRoot` then passes its
post-condition assert and returns the same error and handle, so its output
is `NULL` on every error. -/
theorem C11_no_handle_while_empty (ma : Bool) (w : World) (n : Nat) (ls : List Label)
    (σ : System) (t : Nat) (err : errno_t) (vn : Option vnode_t)
    (hexec : System.exec ma { world := w, threads := List.replicate n .entry } ls = some σ)
    (hret : σ.threads[t]? = some (.returned err vn)) :
    (err = 0 ↔ vn ≠ none) ∧ VFSOPRoot ma (err, vn) = some (err, vn) ∧ (err ≠ 0 → vn = none) := by
  have h0 : ∀ (u : Nat) (pc : GetRootPC),
      (List.replicate n GetRootPC.entry)[u]? = some pc → pc.localsOk := by
    intro u pc h
    rw [List.eq_of_mem_replicate (List.getElem?_mem h)]
    trivial
  have hl : (err = 0 ↔ vn ≠ none) := locals_exec h0 hexec t _ hret
  refine ⟨hl, ?_, ?_⟩
  · by_cases he : err = 0
    · have hv := hl.1 he
      simp [VFSOPRoot, assert, hv]
    · simp [VFSOPRoot, assert, he]
  · intro he
    by_contra hv
    exact he (hl.2 hv)

theorem C11_no_handle_while_empty_witness :
    ((0 : errno_t) = 0 ↔ (some 5 : Option vnode_t) ≠ none) ∧
    VFSOPRoot true (0, some 5) = some (0, some 5) ∧
    ((0 : errno_t) ≠ 0 → (some 5 : Option vnode_t) = none) :=
  C11_no_handle_while_empty true (System.init sampleMount 1).world 1
    [.run 0 (answer 0 5), .run 0 (answer 0 5), .run 0 (answer 0 5), .run 0 (answer 0 5)]
    { world := { mtmp := { sampleMount with fRootVNode := some 5 }, mutexOwner := none,
                 waitq := [], trace := [.vnode_create 0 (some 5), .vnode_addfsref 5] },
      threads := [.returned 0 (some 5)] }
    0 0 (some 5) (by decide) (by decide)

/-- C12, evaluation of a construction that fails. Whenever a thread comes
back from a `vnode_create` that failed with an error other than `EAGAIN` and
gets the mutex, it returns that error and leaves the mount record as it
found it: `fRootAttaching` stays set, `fRootWaiting` is not cleared, and
nobody is woken. On a fresh mount with two callers, the first failing with
`ENOMEM`: the first returns `ENOMEM`, `fRootAttaching` is still true
afterwards, and the second caller sleeps with no step left to take. -/
theorem C12_failed_construction_leaves_attaching :
    (∀ (ma : Bool) (t : Nat) (o : Answer) (w : World) (err : errno_t) (newVN : Option vnode_t),
      w.mutexOwner = none → err ≠ 0 → err ≠ EAGAIN →
      getRootStep ma t o w (.created err newVN) = .next w (.returned err none)) ∧
    System.exec true (System.init sampleMount 2)
        [.run 0 (answer 0 5), .run 0 (answer 0 5), .run 0 (answer ENOMEM 5), .run 0 (answer 0 5),
         .run 1 (answer 0 5), .run 1 (answer 0 5)] =
      some { world := { mtmp := { sampleMount with fRootAttaching := true, fRootWaiting := true },
                        mutexOwner := none, waitq := [1],
                        trace := [.vnode_create ENOMEM none] },
             threads := [.returned ENOMEM none, .sleeping] } ∧
    (∀ o : Answer,
      getRootStep true 1 o
        { mtmp := { sampleMount with fRootAttaching := true, fRootWaiting := true },
          mutexOwner := none, waitq := [1], trace := [.vnode_create ENOMEM none] }
        .sleeping = .blocked) := by
  refine ⟨?_, by decide, fun o => rfl⟩
  intro ma t o w err newVN hfree he ha
  have hw : ({ w with mutexOwner := none } : World) = w := by
    cases w
    simp only at hfree
    subst hfree
    rfl
  cases ma <;> simp [getRootStep, getRootLoopEnd, assert, hfree, he, ha, hw]

/-- C13, construction success. In every system that can arise after a mount:
a thread at the top of the loop that finds no root vnode and nobody attaching
sets `fRootAttaching` and drops the mutex; its `vnode_create`, answered with
error 0 and the vnode `h`, is recorded and leaves it with `h`; and when that
thread then gets the mutex, it stores `h` in `fRootVNode`, issues exactly one
`vnode_addfsref(h)`, clears `fRootAttaching` and `fRootWaiting`, issues
`wakeup` (emptying the wait queue) exactly when `fRootWaiting` had been set
meanwhile, releases the mutex and returns error 0 with the handle `h`. No
assert fires on the way. -/
theorem C13_construction_success (ma : Bool) (σ : System) (t : Nat) (o : Answer)
    (hR : Reachable ma σ) :
    (σ.threads[t]? = some .loopTop → σ.world.mtmp.fRootAttaching = false →
      σ.world.mtmp.fRootVNode = none →
      getRootStep ma t o σ.world .loopTop =
        .next { σ.world with mtmp := { σ.world.mtmp with fRootAttaching := true },
                             mutexOwner := none } .creating) ∧
    (σ.threads[t]? = some .creating → o.create_err = 0 →
      getRootStep ma t o σ.world .creating =
        .next { σ.world with trace := σ.world.trace ++ [.vnode_create 0 (some o.create_vn)] }
          (.created 0 (some o.create_vn))) ∧
    (∀ h : vnode_t, σ.threads[t]? = some (.created 0 (some h)) → σ.world.mutexOwner = none →
      getRootStep ma t o σ.world (.created 0 (some h)) =
        .next { mtmp := { σ.world.mtmp with fRootVNode := some h, fRootAttaching := false,
                                               fRootWaiting := false },
                mutexOwner := none,
                waitq := if σ.world.mtmp.fRootWaiting then [] else σ.world.waitq,
                trace := σ.world.trace ++ [.vnode_addfsref h] ++
                           (if σ.world.mtmp.fRootWaiting then [.wakeup] else []) }
          (.returned 0 (some h))) := by
  have hI := reachable_inv hR
  refine ⟨?_, ?_, ?_⟩
  · intro _ ha hr
    simp [getRootStep, ha, hr]
  · intro _ he
    cases ma <;> simp [getRootStep, assert, he]
  · intro h ht hfree
    have hatt := hI.creator_attaching t _ ht rfl
    have hroot := hI.attaching_root hatt
    cases ma <;> simp [getRootStep, getRootLoopEnd, assert, hfree, hatt, hroot, EAGAIN]

theorem C13_construction_success_witness :
    getRootStep true 0 (answer 0 5)
        { mtmp := { sampleMount with fRootAttaching := true, fRootWaiting := true },
          mutexOwner := none, waitq := [1], trace := [.vnode_create 0 (some 5)] }
        (.created 0 (some 5)) =
      .next { mtmp := { sampleMount with fRootVNode := some 5 }, mutexOwner := none, waitq := [],
              trace := [.vnode_create 0 (some 5), .vnode_addfsref 5, .wakeup] }
        (.returned 0 (some 5)) :=
  (C13_construction_success true
    { world := { mtmp := { sampleMount with fRootAttaching := true, fRootWaiting := true },
                 mutexOwner := none, waitq := [1], trace := [.vnode_create 0 (some 5)] },
      threads := [.created 0 (some 5), .sleeping] } 0 (answer 0 5)
    ⟨sampleMount, 2,
      [.run 0 (answer 0 5), .run 0 (answer 0 5), .run 0 (answer 0 5), .run 1 (answer 0 5),
       .run 1 (answer 0 5)], by decide, by decide⟩).2.2 5 (by decide) (by decide)

/-- C15, state invariant 1. In every system that can arise after a mount,
through any calls of `EmptyFSMountGetRootVNodeCreatingIfNecessary` and
`EmptyFSMountDetachRootVNode`, any interleaving and any answers of
`vnode_create` and `vnode_getwithvid`: `fRootAttaching` set implies
`fRootVNode` is `NULL`, so the assert at the start of
`EmptyFSMountDetachRootVNode` passes. -/
theorem C15_attaching_implies_no_root (ma : Bool) (σ : System) (hR : Reachable ma σ) :
    (σ.world.mtmp.fRootAttaching = true → σ.world.mtmp.fRootVNode = none) ∧
    assert ma (!σ.world.mtmp.fRootAttaching || σ.world.mtmp.fRootVNode == none) = some () := by
  have h1 := (reachable_inv hR).attaching_root
  refine ⟨h1, ?_⟩
  cases ha : σ.world.mtmp.fRootAttaching
  · simp [assert]
  · simp [assert, h1 ha]

theorem C15_attaching_implies_no_root_witness :
    ((sampleWorld true false none).mtmp.fRootAttaching = true →
      (sampleWorld true false none).mtmp.fRootVNode = none) ∧
    assert true (!(sampleWorld true false none).mtmp.fRootAttaching ||
      (sampleWorld true false none).mtmp.fRootVNode == none) = some () :=
  C15_attaching_implies_no_root true
    { world := sampleWorld true false none, threads := [.creating] }
    ⟨sampleMount, 1, [.run 0 (answer 0 5), .run 0 (answer 0 5)], by decide, by decide⟩

/-- C16, state invariant 2. In every system that can arise after a mount,
`fRootWaiting` set implies `fRootAttaching` set. Moreover, in any step of
such a system, `fRootWaiting` becomes set only where `fRootAttaching` was
set before the step, and a step that clears `fRootAttaching` leaves
`fRootWaiting` clear. -/
theorem C16_waiting_implies_attaching (ma : Bool) (σ : System) (hR : Reachable ma σ) :
    (σ.world.mtmp.fRootWaiting = true → σ.world.mtmp.fRootAttaching = true) ∧
    (∀ (l : Label) (σ' : System), σ.step ma l = some σ' →
      (σ.world.mtmp.fRootWaiting = false → σ'.world.mtmp.fRootWaiting = true →
        σ.world.mtmp.fRootAttaching = true) ∧
      (σ.world.mtmp.fRootAttaching = true → σ'.world.mtmp.fRootAttaching = false →
        σ'.world.mtmp.fRootWaiting = false)) := by
  refine ⟨(reachable_inv hR).waiting_attaching, ?_⟩
  intro l σ' h
  cases l with
  | call =>
    simp only [System.step, Option.some.injEq] at h
    subst h
    exact ⟨fun h1 h2 => absurd (h1 ▸ h2) (by decide), fun h1 h2 => absurd (h1 ▸ h2) (by decide)⟩
  | run t o =>
    simp only [System.step] at h
    split at h
    · exact absurd h (by simp)
    · split at h
      · rename_i w pc' hstep
        simp only [Option.some.injEq] at h
        subst h
        have hT := getRootStep_next hstep
        cases hT <;> simp_all
      · exact absurd h (by simp)
  | reclaim vp =>
    simp only [System.step] at h
    split at h
    · rename_i w u hstep
      simp only [Option.some.injEq] at h
      subst h
      obtain ⟨-, h2⟩ := detach_next hstep
      rcases h2 with ⟨-, rfl⟩ | ⟨root, -, -, rfl⟩
      · exact ⟨fun h1 h2 => absurd (h1 ▸ h2) (by decide),
          fun h1 h2 => absurd (h1 ▸ h2) (by decide)⟩
      · exact ⟨fun h1 h2 => absurd (h1 ▸ h2) (by decide),
          fun h1 h2 => absurd (h1 ▸ h2) (by decide)⟩
    · exact absurd h (by simp)
  | spurious t =>
    simp only [System.step] at h
    split at h
    · simp only [Option.some.injEq] at h
      subst h
      exact ⟨fun h1 h2 => absurd (h1 ▸ h2) (by decide),
        fun h1 h2 => absurd (h1 ▸ h2) (by decide)⟩
    · exact absurd h (by simp)

theorem C16_waiting_implies_attaching_witness :
    (sampleWorld true true none).mtmp.fRootWaiting = true ∧
    (sampleWorld true true none).mtmp.fRootAttaching = true :=
  ⟨by decide,
   (C16_waiting_implies_attaching true
    { world := { sampleWorld true true none with waitq := [1] },
      threads := [.creating, .sleeping] }
    ⟨sampleMount, 2,
      [.run 0 (answer 0 5), .run 0 (answer 0 5), .run 1 (answer 0 5), .run 1 (answer 0 5)],
      by decide, by decide⟩).1 (by decide)⟩

theorem detach_empty (ma : Bool) (w : World) (vn : vnode_t) (hfree : w.mutexOwner = none)
    (hroot : w.mtmp.fRootVNode = none) :
    EmptyFSMountDetachRootVNode ma w vn = .next w () := by
  cases ma <;> simp [EmptyFSMountDetachRootVNode, assert, hfree, hroot]

theorem detach_root (ma : Bool) (w : World) (h : vnode_t) (hfree : w.mutexOwner = none)
    (hatt : w.mtmp.fRootAttaching = false) (hroot : w.mtmp.fRootVNode = some h) :
    EmptyFSMountDetachRootVNode ma w h =
      .next { w with mtmp := { w.mtmp with fRootVNode := none },
                     trace := w.trace ++ [.vnode_removefsref h] } () := by
  cases ma <;> simp [EmptyFSMountDetachRootVNode, assert, hfree, hroot, hatt]

/-- C17, detach idempotence. For every shared state that satisfies
invariant 1, with the mutex free, and every handle that is the recorded root
or is presented while no root is recorded: the detach completes and leaves
no root recorded, and a second detach with the same handle completes and
returns the very same state: it changes no field and issues no
`vnode_removefsref`. -/
theorem C17_detach_idempotent (ma : Bool) (w : World) (h : vnode_t)
    (hfree : w.mutexOwner = none)
    (hinv : w.mtmp.fRootAttaching = true → w.mtmp.fRootVNode = none)
    (hh : w.mtmp.fRootVNode = some h ∨ w.mtmp.fRootVNode = none) :
    ∃ w₁ : World,
      EmptyFSMountDetachRootVNode ma w h = .next w₁ () ∧
      EmptyFSMountDetachRootVNode ma w₁ h = .next w₁ () ∧
      w₁.mtmp.fRootVNode = none := by
  rcases hh with hroot | hroot
  · have hatt : w.mtmp.fRootAttaching = false := by
      cases ha : w.mtmp.fRootAttaching
      · rfl
      · rw [hinv ha] at hroot
        exact absurd hroot (by simp)
    exact ⟨_, detach_root ma w h hfree hatt hroot, detach_empty ma _ h hfree rfl, rfl⟩
  · exact ⟨w, detach_empty ma w h hfree hroot, detach_empty ma w h hfree hroot, hroot⟩

theorem C17_detach_idempotent_witness :
    ∃ w₁ : World,
      EmptyFSMountDetachRootVNode true (sampleWorld false false (some 5)) 5 = .next w₁ () ∧
      EmptyFSMountDetachRootVNode true w₁ 5 = .next w₁ () ∧
      w₁.mtmp.fRootVNode = none :=
  C17_detach_idempotent true (sampleWorld false false (some 5)) 5 (by decide) (by decide)
    (Or.inl (by decide))

/-- C18, detach during attach is a no-op. In every system that can arise
after a mount in which `fRootAttaching` is set, a detach of any handle waits
while the mutex is held and otherwise completes and returns the shared state
as it was: `fRootVNode`, `fRootAttaching` and `fRootWaiting` unchanged, no
`vnode_removefsref` issued. -/
theorem C18_detach_while_attaching (ma : Bool) (σ : System) (vn : vnode_t)
    (hR : Reachable ma σ) (ha : σ.world.mtmp.fRootAttaching = true) :
    EmptyFSMountDetachRootVNode ma σ.world vn =
      if σ.world.mutexOwner = none then .next σ.world () else .blocked := by
  have hroot := (reachable_inv hR).attaching_root ha
  by_cases hfree : σ.world.mutexOwner = none
  · rw [if_pos hfree]
    exact detach_empty ma σ.world vn hfree hroot
  · rw [if_neg hfree]
    simp [EmptyFSMountDetachRootVNode, hfree]

theorem C18_detach_while_attaching_witness :
    EmptyFSMountDetachRootVNode true (sampleWorld true false none) 5 =
      .next (sampleWorld true false none) () :=
  C18_detach_while_attaching true
    { world := sampleWorld true false none, threads := [.creating] } 5
    ⟨sampleMount, 1, [.run 0 (answer 0 5), .run 0 (answer 0 5)], by decide, by decide⟩
    (by decide)

/-- C20, counterexample. In a kernel built without `MACH_ASSERT`, a detach
with handle 6 while the recorded root is 5 completes normally, clears
`fRootVNode` and unregisters the soft reference of the recorded root. -/
theorem C20_mismatch_completes_without_asserts :
    (5 : vnode_t) ≠ 6 ∧
    EmptyFSMountDetachRootVNode false (sampleWorld false false (some 5)) 6 =
      .next { sampleWorld false false none with trace := [.vnode_removefsref 5] } () := by
  decide

/-- C20 as amended. For every shared state whose recorded root is not
`NULL` and every handle different from it: in a kernel built with
`MACH_ASSERT` the detach never completes normally, and once it has the mutex
it panics at an assert, so nothing is cleared or unregistered; in a kernel
built without `MACH_ASSERT` the asserts are compiled out and the detach,
once it has the mutex, clears `fRootVNode` and unregisters the recorded
root. -/
theorem C20_mismatch_fatal_with_asserts (w : World) (h root : vnode_t)
    (hroot : w.mtmp.fRootVNode = some root) (hne : root ≠ h) :
    (∀ w' : World, EmptyFSMountDetachRootVNode true w h ≠ .next w' ()) ∧
    (w.mutexOwner = none → EmptyFSMountDetachRootVNode true w h = .panic) ∧
    (w.mutexOwner = none → EmptyFSMountDetachRootVNode false w h =
      .next { w with mtmp := { w.mtmp with fRootVNode := none },
                     trace := w.trace ++ [.vnode_removefsref root] } ()) := by
  refine ⟨?_, ?_, ?_⟩
  · intro w' hd
    obtain ⟨-, h2⟩ := detach_next hd
    rcases h2 with ⟨h3, -⟩ | ⟨r, h3, h4, -⟩
    · rw [hroot] at h3
      exact absurd h3 (by simp)
    · rw [hroot] at h3
      have := h4 rfl
      exact hne ((Option.some.inj h3).trans this)
  · intro hfree
    cases ha : w.mtmp.fRootAttaching <;>
      simp [EmptyFSMountDetachRootVNode, assert, hfree, hroot, ha, hne]
  · intro hfree
    simp [EmptyFSMountDetachRootVNode, assert, hfree, hroot]

theorem C20_mismatch_fatal_with_asserts_witness :
    EmptyFSMountDetachRootVNode true (sampleWorld false false (some 5)) 6 = .panic :=
  (C20_mismatch_fatal_with_asserts (sampleWorld false false (some 5)) 6 5 (by decide)
    (by decide)).2.1 (by decide)

/-! ## Concurrent callers on a fresh mount: facts -/

theorem createCalls_append (tr₁ tr₂ : List Event) :
    createCalls (tr₁ ++ tr₂) = createCalls tr₁ ++ createCalls tr₂ := by
  induction tr₁ with
  | nil => rfl
  | cons e tr ih =>
    cases e <;> simp [createCalls, ih]

theorem getRootStep_creating {ma : Bool} {t : Nat} {o : Answer} {w w' : World}
    {pc' : GetRootPC} (h : getRootStep ma t o w .creating = .next w' pc') :
    pc' = .created o.create_err (if o.create_err = 0 then some o.create_vn else none) := by
  simp only [getRootStep] at h
  split at h
  · exact absurd h (by simp)
  · simp only [Progress.next.injEq] at h
    exact h.2.symm

theorem getRootStep_revalidating {ma : Bool} {t : Nat} {o : Answer} {w w' : World}
    {c : vnode_t} {vid : Nat} {pc' : GetRootPC}
    (h : getRootStep ma t o w (.revalidating c vid) = .next w' pc')
    (ho : o.getwithvid_err = 0) : pc' = .revalidated 0 (some c) := by
  simp only [getRootStep, ho, if_true, Progress.next.injEq] at h
  exact h.2.symm

theorem steady_fresh_none {t : Nat} {w w' : World} {pc pc' : GetRootPC}
    (hT : GetRootTrans t w pc w' pc')
    (i1 : w.mtmp.fRootAttaching = true → w.mtmp.fRootVNode = none)
    (i4 : pc.isCreator = true → w.mtmp.fRootAttaching = true)
    (k1 : w.mtmp.fRootAttaching = false → w.mtmp.fRootVNode = none → createCalls w.trace = []) :
    w'.mtmp.fRootAttaching = false → w'.mtmp.fRootVNode = none →
      createCalls w'.trace = [] := by
  cases hT <;> simp_all [createCalls_append, createCalls, GetRootPC.isCreator]

theorem steady_root_created {t : Nat} {w w' : World} {pc pc' : GetRootPC}
    (hT : GetRootTrans t w pc w' pc')
    (i1 : w.mtmp.fRootAttaching = true → w.mtmp.fRootVNode = none)
    (i4 : pc.isCreator = true → w.mtmp.fRootAttaching = true)
    (k2 : ∀ h : vnode_t, w.mtmp.fRootVNode = some h → createCalls w.trace = [(0, some h)])
    (k4 : ∀ (e : errno_t) (v : Option vnode_t), pc = .created e v →
      e = 0 ∧ ∃ h : vnode_t, v = some h ∧ createCalls w.trace = [(0, some h)]) :
    ∀ h : vnode_t, w'.mtmp.fRootVNode = some h → createCalls w'.trace = [(0, some h)] := by
  intro h
  have k2h := k2 h
  clear k2
  cases hT <;> simp_all [createCalls_append, createCalls, GetRootPC.isCreator]
  · rename_i vn _
    intro hv
    subst hv
    cases hw : w.mtmp.fRootWaiting <;> simp [createCalls]

theorem steady_creating_none {t : Nat} {w w' : World} {pc pc' : GetRootPC}
    {l : List GetRootPC} (hT : GetRootTrans t w pc w' pc') (ht : l[t]? = some pc)
    (i5 : ∀ (u v : Nat) (pc qc : GetRootPC), l[u]? = some pc → l[v]? = some qc →
      pc.isCreator = true → qc.isCreator = true → u = v)
    (k1 : w.mtmp.fRootAttaching = false → w.mtmp.fRootVNode = none → createCalls w.trace = [])
    (k3 : ∀ u : Nat, l[u]? = some .creating → createCalls w.trace = []) :
    ∀ u : Nat, (l.set t pc')[u]? = some .creating → createCalls w'.trace = [] := by
  intro u
  rw [threads_set_get _ _ ht]
  by_cases hu : u = t
  · rw [if_pos hu]
    intro h1
    rw [Option.some.injEq] at h1
    subst h1
    clear i5 k3
    cases hT
    simp_all
  · rw [if_neg hu]
    intro h1
    have k3u := k3 u h1
    have hu2 := fun hc => i5 t u pc .creating ht h1 hc rfl
    clear i5 k3
    cases hT <;> simp_all [createCalls_append, createCalls, GetRootPC.isCreator]

theorem steady_created_ok {t : Nat} {w w' : World} {pc pc' : GetRootPC}
    {l : List GetRootPC} (hT : GetRootTrans t w pc w' pc') (ht : l[t]? = some pc)
    (hgood : ∀ (e : errno_t) (v : Option vnode_t), pc' = .created e v → e = 0)
    (i5 : ∀ (u v : Nat) (pc qc : GetRootPC), l[u]? = some pc → l[v]? = some qc →
      pc.isCreator = true → qc.isCreator = true → u = v)
    (k3 : ∀ u : Nat, l[u]? = some .creating → createCalls w.trace = [])
    (k4 : ∀ (u : Nat) (e : errno_t) (v : Option vnode_t), l[u]? = some (.created e v) →
      e = 0 ∧ ∃ h : vnode_t, v = some h ∧ createCalls w.trace = [(0, some h)]) :
    ∀ (u : Nat) (e : errno_t) (v : Option vnode_t), (l.set t pc')[u]? = some (.created e v) →
      e = 0 ∧ ∃ h : vnode_t, v = some h ∧ createCalls w'.trace = [(0, some h)] := by
  intro u e v
  rw [threads_set_get _ _ ht]
  by_cases hu : u = t
  · rw [if_pos hu]
    intro h1
    rw [Option.some.injEq] at h1
    subst h1
    have he := hgood e v rfl
    subst he
    have k3t := k3 t
    clear i5 k3 k4 hgood
    cases hT
    rename_i v₀
    have hk := k3t ht
    simp [createCalls_append, createCalls, hk]
  · rw [if_neg hu]
    intro h1
    have k4u := k4 u e v h1
    have hu2 := fun hc => i5 t u pc (.created e v) ht h1 hc rfl
    clear i5 k3 k4 hgood
    cases hT <;> simp_all [createCalls_append, createCalls, GetRootPC.isCreator]

theorem steady_returned_root {t : Nat} {w w' : World} {pc pc' : GetRootPC}
    {l : List GetRootPC} (hT : GetRootTrans t w pc w' pc') (ht : l[t]? = some pc)
    (i1 : w.mtmp.fRootAttaching = true → w.mtmp.fRootVNode = none)
    (i4 : pc.isCreator = true → w.mtmp.fRootAttaching = true)
    (k4 : ∀ (e : errno_t) (v : Option vnode_t), pc = .created e v → e = 0)
    (k5 : ∀ (u : Nat) (e : errno_t) (v : Option vnode_t), l[u]? = some (.returned e v) →
      e = 0 ∧ v = w.mtmp.fRootVNode ∧ v ≠ none)
    (k7 : ∀ (e : errno_t) (r : Option vnode_t), pc = .revalidated e r →
      (e = 0 ∧ r = w.mtmp.fRootVNode ∧ r ≠ none) ∨ (e = EAGAIN ∧ r = none)) :
    ∀ (u : Nat) (e : errno_t) (v : Option vnode_t), (l.set t pc')[u]? = some (.returned e v) →
      e = 0 ∧ v = w'.mtmp.fRootVNode ∧ v ≠ none := by
  intro u e v
  rw [threads_set_get _ _ ht]
  by_cases hu : u = t
  · rw [if_pos hu]
    intro h1
    rw [Option.some.injEq] at h1
    subst h1
    clear k5
    cases hT
    · simp
    · rename_i h he ha
      exact absurd (k4 _ _ rfl) he
    · rename_i h ha
      rcases k7 _ _ rfl with ⟨h1, h2, h3⟩ | ⟨h1, -⟩
      · subst h1
        simp [h2.symm, h3]
      · exact absurd h1 ha
  · rw [if_neg hu]
    intro h1
    obtain ⟨rfl, rfl, hv⟩ := k5 u e v h1
    clear k5 k4 k7 h1
    cases hT <;> simp_all [GetRootPC.isCreator]

theorem steady_revalidating_root {t : Nat} {w w' : World} {pc pc' : GetRootPC}
    {l : List GetRootPC} (hT : GetRootTrans t w pc w' pc') (ht : l[t]? = some pc)
    (i1 : w.mtmp.fRootAttaching = true → w.mtmp.fRootVNode = none)
    (i4 : pc.isCreator = true → w.mtmp.fRootAttaching = true)
    (k6 : ∀ (u : Nat) (c : vnode_t) (vid : Nat), l[u]? = some (.revalidating c vid) →
      w.mtmp.fRootVNode = some c) :
    ∀ (u : Nat) (c : vnode_t) (vid : Nat), (l.set t pc')[u]? = some (.revalidating c vid) →
      w'.mtmp.fRootVNode = some c := by
  intro u c vid
  rw [threads_set_get _ _ ht]
  by_cases hu : u = t
  · rw [if_pos hu]
    intro h1
    rw [Option.some.injEq] at h1
    subst h1
    clear k6
    cases hT
    assumption
  · rw [if_neg hu]
    intro h1
    have k6u := k6 u c vid h1
    clear k6
    cases hT <;> simp_all [GetRootPC.isCreator]

theorem steady_revalidated_root {t : Nat} {w w' : World} {pc pc' : GetRootPC}
    {l : List GetRootPC} (hT : GetRootTrans t w pc w' pc') (ht : l[t]? = some pc)
    (i1 : w.mtmp.fRootAttaching = true → w.mtmp.fRootVNode = none)
    (i4 : pc.isCreator = true → w.mtmp.fRootAttaching = true)
    (k6 : ∀ (c : vnode_t) (vid : Nat), pc = .revalidating c vid → w.mtmp.fRootVNode = some c)
    (k7 : ∀ (u : Nat) (e : errno_t) (r : Option vnode_t), l[u]? = some (.revalidated e r) →
      (e = 0 ∧ r = w.mtmp.fRootVNode ∧ r ≠ none) ∨ (e = EAGAIN ∧ r = none)) :
    ∀ (u : Nat) (e : errno_t) (r : Option vnode_t), (l.set t pc')[u]? = some (.revalidated e r) →
      (e = 0 ∧ r = w'.mtmp.fRootVNode ∧ r ≠ none) ∨ (e = EAGAIN ∧ r = none) := by
  intro u e r
  rw [threads_set_get _ _ ht]
  by_cases hu : u = t
  · rw [if_pos hu]
    intro h1
    rw [Option.some.injEq] at h1
    subst h1
    clear k7
    cases hT
    · left
      simp [k6 _ _ rfl]
    · right
      exact ⟨rfl, rfl⟩
  · rw [if_neg hu]
    intro h1
    have k7u := k7 u e r h1
    clear k6 k7
    cases hT <;> simp_all [GetRootPC.isCreator]

theorem steady_attaching_creator {t : Nat} {w w' : World} {pc pc' : GetRootPC}
    {l : List GetRootPC} (hT : GetRootTrans t w pc w' pc') (ht : l[t]? = some pc)
    (k4 : ∀ (e : errno_t) (v : Option vnode_t), pc = .created e v → e = 0)
    (k8 : w.mtmp.fRootAttaching = true →
      ∃ (u : Nat) (qc : GetRootPC), l[u]? = some qc ∧ qc.isCreator = true) :
    w'.mtmp.fRootAttaching = true →
      ∃ (u : Nat) (qc : GetRootPC), (l.set t pc')[u]? = some qc ∧ qc.isCreator = true := by
  intro ha'
  cases hc' : pc'.isCreator
  · have key : w.mtmp.fRootAttaching = true ∧ pc.isCreator = false := by
      clear k8
      cases hT <;> simp_all [GetRootPC.isCreator]
      exact absurd k4 (by decide)
    obtain ⟨u, qc, hq, hc⟩ := k8 key.1
    have hu : u ≠ t := by
      intro e
      subst e
      rw [ht, Option.some.injEq] at hq
      subst hq
      rw [key.2] at hc
      exact absurd hc (by decide)
    exact ⟨u, qc, by rw [threads_set_get _ _ ht, if_neg hu]; exact hq, hc⟩
  · exact ⟨t, pc', by rw [threads_set_get _ _ ht, if_pos rfl], hc'⟩

theorem SteadyInv.run_steady {σ : System} {t : Nat} {pc pc' : GetRootPC} {w' : World}
    (hI : RootInv σ) (hK : SteadyInv σ) (ht : σ.threads[t]? = some pc)
    (hT : GetRootTrans t σ.world pc w' pc')
    (hgood : ∀ (e : errno_t) (v : Option vnode_t), pc' = .created e v → e = 0) :
    SteadyInv { world := w', threads := σ.threads.set t pc' } where
  fresh_none := steady_fresh_none hT hI.attaching_root (hI.creator_attaching t pc ht)
    hK.fresh_none
  root_created := steady_root_created hT hI.attaching_root (hI.creator_attaching t pc ht)
    hK.root_created (fun e v h => hK.created_ok t e v (h ▸ ht))
  creating_none := steady_creating_none hT ht hI.creator_unique hK.fresh_none hK.creating_none
  created_ok := steady_created_ok hT ht hgood hI.creator_unique hK.creating_none hK.created_ok
  returned_root := steady_returned_root hT ht hI.attaching_root (hI.creator_attaching t pc ht)
    (fun e v h => (hK.created_ok t e v (h ▸ ht)).1) hK.returned_root
    (fun e r h => hK.revalidated_root t e r (h ▸ ht))
  revalidating_root := steady_revalidating_root hT ht hI.attaching_root
    (hI.creator_attaching t pc ht) hK.revalidating_root
  revalidated_root := steady_revalidated_root hT ht hI.attaching_root
    (hI.creator_attaching t pc ht) (fun c vid h => hK.revalidating_root t c vid (h ▸ ht))
    hK.revalidated_root
  attaching_creator := steady_attaching_creator hT ht
    (fun e v h => (hK.created_ok t e v (h ▸ ht)).1) hK.attaching_creator

theorem SteadyInv.of_fresh {m : EmptyFSMount} (n : Nat) (hm : postMount m) :
    SteadyInv (System.init m n) := by
  obtain ⟨h1, h2, h3⟩ := hm
  have key : ∀ (u : Nat) (qc : GetRootPC),
      (List.replicate n GetRootPC.entry)[u]? = some qc → qc = .entry := by
    intro u qc h
    exact List.eq_of_mem_replicate (List.getElem?_mem h)
  refine ⟨fun _ _ => rfl, ?_, ?_, ?_, ?_, ?_, ?_, ?_⟩
  · intro h hh
    have hh' : m.fRootVNode = some h := hh
    rw [h3] at hh'
    exact absurd hh' (by simp)
  · intro u h
    exact absurd (key u _ h) (by simp)
  · intro u e v h
    exact absurd (key u _ h) (by simp)
  · intro u e v h
    exact absurd (key u _ h) (by simp)
  · intro u c vid h
    exact absurd (key u _ h) (by simp)
  · intro u e r h
    exact absurd (key u _ h) (by simp)
  · intro h
    have h' : m.fRootAttaching = true := h
    rw [h1] at h'
    exact absurd h' (by decide)

theorem steady_step {ma : Bool} {σ σ' : System} {l : Label} (hI : RootInv σ)
    (hK : SteadyInv σ) (hl : l.steady = true) (h : σ.step ma l = some σ') :
    SteadyInv σ' := by
  cases l with
  | call => exact absurd hl (by simp [Label.steady])
  | reclaim vp => exact absurd hl (by simp [Label.steady])
  | run t o =>
    simp only [System.step] at h
    split at h
    · exact absurd h (by simp)
    · rename_i pc hpc
      split at h
      · rename_i w pc' hstep
        simp only [Option.some.injEq] at h
        subst h
        have hT := getRootStep_next hstep
        refine hK.run_steady hI hpc hT ?_
        intro e v hpc'
        subst hpc'
        have hpc0 : pc = .creating := by
          cases hT
          rfl
        subst hpc0
        have := getRootStep_creating hstep
        simp only [GetRootPC.created.injEq] at this
        rw [this.1]
        simpa [Label.steady] using hl
      · exact absurd h (by simp)
  | spurious t =>
    simp only [System.step] at h
    split at h
    · simp only [Option.some.injEq] at h
      subst h
      obtain ⟨k1, k2, k3, k4, k5, k6, k7, k8⟩ := hK
      exact ⟨k1, k2, k3, k4, k5, k6, k7, k8⟩
    · exact absurd h (by simp)

theorem steady_exec {ma : Bool} {ls : List Label} {σ σ' : System} (hI : RootInv σ)
    (hK : SteadyInv σ) (hl : ∀ l ∈ ls, l.steady = true)
    (h : System.exec ma σ ls = some σ') : RootInv σ' ∧ SteadyInv σ' := by
  induction ls generalizing σ with
  | nil =>
    simp only [System.exec, Option.some.injEq] at h
    subst h
    exact ⟨hI, hK⟩
  | cons l ls ih =>
    simp only [System.exec] at h
    split at h
    · exact absurd h (by simp)
    · rename_i σ₁ hstep
      exact ih (hI.step hstep) (steady_step hI hK (hl l (List.mem_cons_self l ls)) hstep)
        (fun l' hl' => hl l' (List.mem_cons_of_mem l hl')) h

theorem steady_creates_le_one {σ : System} (hK : SteadyInv σ) :
    (createCalls σ.world.trace).length ≤ 1 := by
  cases hr : σ.world.mtmp.fRootVNode with
  | some h => rw [hK.root_created h hr]; simp
  | none =>
    cases ha : σ.world.mtmp.fRootAttaching with
    | false => rw [hK.fresh_none ha hr]; simp
    | true =>
      obtain ⟨u, qc, hq, hc⟩ := hK.attaching_creator ha
      cases qc with
      | creating => rw [hK.creating_none u hq]; simp
      | created e v =>
        obtain ⟨-, h, -, hcr⟩ := hK.created_ok u e v hq
        rw [hcr]; simp
      | _ => exact absurd hc (by simp [GetRootPC.isCreator])

theorem calm_steady {l : Label} (h : l.calm = true) : l.steady = true := by
  cases l <;> simp_all [Label.calm, Label.steady]

theorem sum_map_set (f : GetRootPC → Nat) {l : List GetRootPC} {t : Nat} {pc : GetRootPC}
    (pc' : GetRootPC) (h : l[t]? = some pc) :
    ((l.set t pc').map f).sum + f pc = (l.map f).sum + f pc' := by
  induction l generalizing t with
  | nil => simp at h
  | cons a l ih =>
    cases t with
    | zero =>
      simp only [List.getElem?_cons_zero, Option.some.injEq] at h
      subst h
      simp only [List.set_cons_zero, List.map_cons, List.sum_cons]
      omega
    | succ t =>
      simp only [List.getElem?_cons_succ] at h
      have := ih h
      simp only [List.set_cons_succ, List.map_cons, List.sum_cons]
      omega

theorem sum_map_le (f g : GetRootPC → Nat) (h : ∀ x, f x ≤ g x) (l : List GetRootPC) :
    (l.map f).sum ≤ (l.map g).sum := by
  induction l with
  | nil => simp
  | cons a l ih =>
    simp only [List.map_cons, List.sum_cons]
    have := h a
    omega

theorem weight_done_le (pc : GetRootPC) : pc.weight true ≤ pc.weight false := by
  cases pc <;> simp [GetRootPC.weight]

theorem trans_measure {t : Nat} {w w' : World} {pc pc' : GetRootPC} {l : List GetRootPC}
    (hT : GetRootTrans t w pc w' pc') (ht : l[t]? = some pc)
    (i1 : w.mtmp.fRootAttaching = true → w.mtmp.fRootVNode = none)
    (i4 : pc.isCreator = true → w.mtmp.fRootAttaching = true)
    (k4 : ∀ (e : errno_t) (v : Option vnode_t), pc = .created e v → e = 0)
    (l1 : ∀ (e : errno_t) (r : Option vnode_t), pc = .revalidated e r → e = 0)
    (l2 : pc = .sleeping → t ∉ w.waitq → w.mtmp.fRootVNode ≠ none)
    (hcalm : ∀ (e : errno_t) (r : Option vnode_t), pc' = .revalidated e r → e = 0) :
    ((l.set t pc').map (GetRootPC.weight w'.mtmp.fRootVNode.isSome)).sum <
      (l.map (GetRootPC.weight w.mtmp.fRootVNode.isSome)).sum := by
  have hsame : w'.mtmp.fRootVNode = w.mtmp.fRootVNode →
      pc'.weight w.mtmp.fRootVNode.isSome < pc.weight w.mtmp.fRootVNode.isSome →
      ((l.set t pc').map (GetRootPC.weight w'.mtmp.fRootVNode.isSome)).sum <
        (l.map (GetRootPC.weight w.mtmp.fRootVNode.isSome)).sum := by
    intro hr hlt
    rw [hr]
    have := sum_map_set (GetRootPC.weight w.mtmp.fRootVNode.isSome) pc' ht
    omega
  cases hT with
  | lock h =>
    apply hsame rfl
    cases w.mtmp.fRootVNode <;> simp [GetRootPC.weight]
  | wait h =>
    apply hsame rfl
    simp [GetRootPC.weight, i1 h]
  | attach h hr =>
    apply hsame rfl
    simp [GetRootPC.weight, hr]
  | found c vid h hr =>
    apply hsame rfl
    simp [GetRootPC.weight, hr]
  | wake hq h =>
    apply hsame rfl
    have := l2 rfl hq
    cases hr : w.mtmp.fRootVNode with
    | none => exact absurd hr this
    | some c => simp [GetRootPC.weight]
  | create err v =>
    apply hsame rfl
    simp [GetRootPC.weight]
  | install vn h =>
    have hr : w.mtmp.fRootVNode = none := i1 (i4 rfl)
    have h1 := sum_map_set (GetRootPC.weight false) (.returned 0 (some vn)) ht
    have h2 := sum_map_le (GetRootPC.weight true) (GetRootPC.weight false) weight_done_le
      (l.set t (.returned 0 (some vn)))
    simp only [hr, Option.isSome_none, Option.isSome_some]
    simp only [GetRootPC.weight] at h1
    omega
  | fail err newVN h he ha => exact absurd (k4 _ _ rfl) he
  | failAgain newVN h => exact absurd (k4 _ _ rfl) (by decide)
  | fresh c vid =>
    apply hsame rfl
    simp [GetRootPC.weight]
  | stale c vid err he => exact absurd (hcalm _ _ rfl) (by decide)
  | done err r h ha =>
    apply hsame rfl
    simp [GetRootPC.weight]
  | again r h => exact absurd (l1 _ _ rfl) (by decide)

theorem calm_revalidated_ok {t : Nat} {pc pc' : GetRootPC}
    {l : List GetRootPC} (ht : l[t]? = some pc)
    (hcalm : ∀ (e : errno_t) (r : Option vnode_t), pc' = .revalidated e r → e = 0)
    (l1 : ∀ (u : Nat) (e : errno_t) (r : Option vnode_t), l[u]? = some (.revalidated e r) →
      e = 0) :
    ∀ (u : Nat) (e : errno_t) (r : Option vnode_t), (l.set t pc')[u]? = some (.revalidated e r) →
      e = 0 := by
  intro u e r
  rw [threads_set_get _ _ ht]
  by_cases hu : u = t
  · rw [if_pos hu]
    intro h1
    rw [Option.some.injEq] at h1
    exact hcalm e r h1
  · rw [if_neg hu]
    exact l1 u e r

theorem calm_sleeping_waitq {t : Nat} {w w' : World} {pc pc' : GetRootPC}
    {l : List GetRootPC} (hT : GetRootTrans t w pc w' pc') (ht : l[t]? = some pc)
    (l2 : w.mtmp.fRootVNode = none → ∀ u : Nat, l[u]? = some .sleeping → u ∈ w.waitq) :
    w'.mtmp.fRootVNode = none →
      ∀ u : Nat, (l.set t pc')[u]? = some .sleeping → u ∈ w'.waitq := by
  intro hr u
  rw [threads_set_get _ _ ht]
  by_cases hu : u = t
  · rw [if_pos hu]
    intro h1
    rw [Option.some.injEq] at h1
    subst h1
    subst hu
    clear l2
    cases hT
    simp
  · rw [if_neg hu]
    intro h1
    have l2u := fun h => l2 h u h1
    clear l2
    cases hT <;> simp_all

theorem calm_step {ma : Bool} {σ σ' : System} {l : Label} (hI : RootInv σ)
    (hK : SteadyInv σ) (hC : CalmInv σ) (hl : l.calm = true) (h : σ.step ma l = some σ') :
    CalmInv σ' ∧ σ'.measure < σ.measure ∧ σ'.threads.length = σ.threads.length := by
  cases l with
  | call => exact absurd hl (by simp [Label.calm])
  | reclaim vp => exact absurd hl (by simp [Label.calm])
  | spurious t => exact absurd hl (by simp [Label.calm])
  | run t o =>
    simp only [Label.calm, Bool.and_eq_true, beq_iff_eq] at hl
    simp only [System.step] at h
    split at h
    · exact absurd h (by simp)
    · rename_i pc hpc
      split at h
      · rename_i w pc' hstep
        simp only [Option.some.injEq] at h
        subst h
        have hT := getRootStep_next hstep
        have hcalm : ∀ (e : errno_t) (r : Option vnode_t), pc' = .revalidated e r → e = 0 := by
          intro e r hpc'
          subst hpc'
          cases hT with
          | fresh c vid => rfl
          | stale c vid err he =>
            have := getRootStep_revalidating hstep hl.2
            simp only [GetRootPC.revalidated.injEq] at this
            exact this.1
        refine ⟨⟨calm_revalidated_ok hpc hcalm hC.revalidated_ok,
          calm_sleeping_waitq hT hpc hC.sleeping_waitq⟩, ?_, by simp⟩
        exact trans_measure hT hpc hI.attaching_root (hI.creator_attaching t pc hpc)
          (fun e v h => (hK.created_ok t e v (h ▸ hpc)).1)
          (fun e r h => hC.revalidated_ok t e r (h ▸ hpc))
          (fun hs hq hr => hq (hC.sleeping_waitq hr t (hs ▸ hpc))) hcalm
      · exact absurd h (by simp)

theorem CalmInv.of_entry (m : EmptyFSMount) (n : Nat) : CalmInv (System.init m n) := by
  have key : ∀ (u : Nat) (qc : GetRootPC),
      (List.replicate n GetRootPC.entry)[u]? = some qc → qc = .entry := by
    intro u qc h
    exact List.eq_of_mem_replicate (List.getElem?_mem h)
  refine ⟨?_, ?_⟩
  · intro u e r h
    exact absurd (key u _ h) (by simp)
  · intro _ u h
    exact absurd (key u _ h) (by simp)

theorem calm_exec {ma : Bool} {ls : List Label} {σ σ' : System} (hI : RootInv σ)
    (hK : SteadyInv σ) (hC : CalmInv σ) (hl : ∀ l ∈ ls, l.calm = true)
    (h : System.exec ma σ ls = some σ') :
    CalmInv σ' ∧ σ'.measure + ls.length ≤ σ.measure := by
  induction ls generalizing σ with
  | nil =>
    simp only [System.exec, Option.some.injEq] at h
    subst h
    exact ⟨hC, by simp⟩
  | cons l ls ih =>
    simp only [System.exec] at h
    split at h
    · exact absurd h (by simp)
    · rename_i σ₁ hstep
      have hl0 := hl l (List.mem_cons_self l ls)
      obtain ⟨hC₁, hlt, -⟩ := calm_step hI hK hC hl0 hstep
      obtain ⟨hC', hle⟩ := ih (hI.step hstep) (steady_step hI hK (calm_steady hl0) hstep) hC₁
        (fun l' hl' => hl l' (List.mem_cons_of_mem l hl')) h
      refine ⟨hC', ?_⟩
      simp only [List.length_cons]
      omega

theorem steady_threads_length {ma : Bool} {ls : List Label} {σ σ' : System}
    (hl : ∀ l ∈ ls, l.steady = true) (h : System.exec ma σ ls = some σ') :
    σ'.threads.length = σ.threads.length := by
  induction ls generalizing σ with
  | nil =>
    simp only [System.exec, Option.some.injEq] at h
    subst h
    rfl
  | cons l ls ih =>
    simp only [System.exec] at h
    split at h
    · exact absurd h (by simp)
    · rename_i σ₁ hstep
      rw [ih (fun l' hl' => hl l' (List.mem_cons_of_mem l hl')) h]
      have hl0 := hl l (List.mem_cons_self l ls)
      cases l with
      | call => exact absurd hl0 (by simp [Label.steady])
      | reclaim vp => exact absurd hl0 (by simp [Label.steady])
      | run t o =>
        simp only [System.step] at hstep
        split at hstep
        · exact absurd hstep (by simp)
        · split at hstep
          · simp only [Option.some.injEq] at hstep
            subst hstep
            simp
          · exact absurd hstep (by simp)
      | spurious t =>
        simp only [System.step] at hstep
        split at hstep
        · simp only [Option.some.injEq] at hstep
          subst hstep
          rfl
        · exact absurd hstep (by simp)

theorem measure_init (m : EmptyFSMount) (n : Nat) (hm : postMount m) :
    (System.init m n).measure = 7 * n := by
  have hr : (System.init m n).world.mtmp.fRootVNode = none := hm.2.2
  unfold System.measure
  rw [hr]
  simp [System.init, GetRootPC.weight]
  omega

theorem run_enabled {ma : Bool} {σ : System} {t : Nat} {pc : GetRootPC} {o : Answer}
    {w : World} {pc' : GetRootPC} (ht : σ.threads[t]? = some pc)
    (h : getRootStep ma t o σ.world pc = .next w pc') :
    σ.step ma (.run t o) = some { world := w, threads := σ.threads.set t pc' } := by
  simp [System.step, ht, h]

theorem run_enabled_of_isNext {ma : Bool} {σ : System} {t : Nat} {pc : GetRootPC}
    (ht : σ.threads[t]? = some pc)
    (h : (getRootStep ma t (answer 0 0) σ.world pc).isNext = true) :
    ∃ (l : Label) (σ' : System), l.calm = true ∧ σ.step ma l = some σ' := by
  cases hs : getRootStep ma t (answer 0 0) σ.world pc with
  | blocked => rw [hs] at h; exact absurd h (by simp [Progress.isNext])
  | panic => rw [hs] at h; exact absurd h (by simp [Progress.isNext])
  | next w pc' => exact ⟨.run t (answer 0 0), _, rfl, run_enabled ht hs⟩

theorem calm_progress {ma : Bool} {σ : System} (hI : RootInv σ) (hK : SteadyInv σ)
    (hex : ∃ (t : Nat) (pc : GetRootPC), σ.threads[t]? = some pc ∧
      ∀ (e : errno_t) (v : Option vnode_t), pc ≠ .returned e v) :
    ∃ (l : Label) (σ' : System), l.calm = true ∧ σ.step ma l = some σ' := by
  cases ho : σ.world.mutexOwner with
  | some t =>
    have ht := (hI.owner_loopTop t).1 ho
    cases ha : σ.world.mtmp.fRootAttaching with
    | true =>
      exact run_enabled_of_isNext ht (by simp [Progress.isNext, getRootStep, ha])
    | false =>
      cases hr : σ.world.mtmp.fRootVNode with
      | none => exact run_enabled_of_isNext ht (by simp [Progress.isNext, getRootStep, ha, hr])
      | some c => exact run_enabled_of_isNext ht (by simp [Progress.isNext, getRootStep, ha, hr])
  | none =>
    by_cases hrun : ∃ (t : Nat) (pc : GetRootPC), σ.threads[t]? = some pc ∧
        (∀ (e : errno_t) (v : Option vnode_t), pc ≠ .returned e v) ∧
        ¬ (pc = .sleeping ∧ t ∈ σ.world.waitq)
    · obtain ⟨t, pc, ht, hnr, hns⟩ := hrun
      cases pc with
      | entry => exact run_enabled_of_isNext ht (by simp [Progress.isNext, getRootStep, ho])
      | loopTop =>
        have := (hI.owner_loopTop t).2 ht
        rw [ho] at this
        exact absurd this (by simp)
      | sleeping =>
        have hq : t ∉ σ.world.waitq := fun hq => hns ⟨rfl, hq⟩
        exact run_enabled_of_isNext ht (by
          cases ma <;> simp [Progress.isNext, getRootStep, getRootLoopEnd, assert, ho, hq, EAGAIN])
      | creating =>
        exact run_enabled_of_isNext ht (by
          cases ma <;> simp [Progress.isNext, getRootStep, assert, answer])
      | created e v =>
        obtain ⟨rfl, h, rfl, -⟩ := hK.created_ok t e v ht
        have hatt := hI.creator_attaching t _ ht rfl
        have hroot := hI.attaching_root hatt
        exact run_enabled_of_isNext ht (by
          cases ma <;> simp [Progress.isNext, getRootStep, getRootLoopEnd, assert, ho, hatt, hroot, EAGAIN])
      | revalidating c vid =>
        exact run_enabled_of_isNext ht (by simp [Progress.isNext, getRootStep, answer])
      | revalidated e r =>
        have hloc : (e = 0 ↔ r ≠ none) := hI.locals t _ ht
        by_cases he : e = EAGAIN
        · have hr : r = none := by
            by_contra hr
            rw [hloc.2 hr] at he
            exact absurd he (by decide)
          subst he hr
          exact run_enabled_of_isNext ht (by
            cases ma <;> simp [Progress.isNext, getRootStep, getRootLoopEnd, assert, ho, EAGAIN])
        · by_cases he0 : e = 0
          · have hr := hloc.1 he0
            subst he0
            exact run_enabled_of_isNext ht (by
              cases ma <;> simp [Progress.isNext, getRootStep, getRootLoopEnd, assert, ho, hr, EAGAIN])
          · have hr : r = none := by
              by_contra hr
              exact he0 (hloc.2 hr)
            exact run_enabled_of_isNext ht (by
              cases ma <;> simp [Progress.isNext, getRootStep, getRootLoopEnd, assert, ho, he, he0, hr])
      | returned e v => exact absurd rfl (hnr e v)
    · exfalso
      obtain ⟨t, pc, ht, hnr⟩ := hex
      have hall : ∀ (u : Nat) (qc : GetRootPC), σ.threads[u]? = some qc →
          (∀ (e : errno_t) (v : Option vnode_t), qc ≠ .returned e v) →
          qc = .sleeping ∧ u ∈ σ.world.waitq := by
        intro u qc hq hqn
        by_contra hc
        exact hrun ⟨u, qc, hq, hqn, hc⟩
      have hq := (hall t pc ht hnr).2
      have hne : σ.world.waitq ≠ [] := List.ne_nil_of_mem hq
      have hatt := hI.waiting_attaching (hI.waitq_waiting hne)
      obtain ⟨u, qc, hu, hc⟩ := hK.attaching_creator hatt
      have hs := (hall u qc hu (by
        intro e v hqc
        rw [hqc] at hc
        exact absurd hc (by simp [GetRootPC.isCreator]))).1
      rw [hs] at hc
      exact absurd hc (by simp [GetRootPC.isCreator])

/-- C14, at most one construction. Take `n` concurrent calls on a fresh
mount and any interleaving of their steps in which nothing is reclaimed and
`vnode_create` succeeds whenever it is called (revalidations may fail and
sleeps may end spuriously). Then at every moment: `vnode_create` has been
called at most once; every call that has returned has returned error 0 and
the handle that one `vnode_create` made, so all returned calls hold the same
handle and `vnode_create` was called exactly once; and at most one thread is
between setting `fRootAttaching` and taking the mutex again after
`vnode_create`. If moreover revalidations succeed and no sleep ends
spuriously, the run has at most `7 * n` steps, some step can be taken as
long as a call has not returned, and so every run that cannot go on ends
with all `n` calls returned with the same handle after exactly one
`vnode_create`. -/
theorem C14_at_most_one_construction (ma : Bool) (m : EmptyFSMount) (n : Nat)
    (ls : List Label) (σ : System) (hm : postMount m) (hl : ∀ l ∈ ls, l.steady = true)
    (hexec : System.exec ma (System.init m n) ls = some σ) :
    σ.threads.length = n ∧
    (createCalls σ.world.trace).length ≤ 1 ∧
    (∀ (t : Nat) (e : errno_t) (v : Option vnode_t), σ.threads[t]? = some (.returned e v) →
      e = 0 ∧ ∃ h : vnode_t, v = some h ∧ createCalls σ.world.trace = [(0, some h)]) ∧
    (∀ (t u : Nat) (pc qc : GetRootPC), σ.threads[t]? = some pc → σ.threads[u]? = some qc →
      pc.isCreator = true → qc.isCreator = true → t = u) ∧
    ((∀ l ∈ ls, l.calm = true) →
      ls.length ≤ 7 * n ∧
      ((∃ (t : Nat) (pc : GetRootPC), σ.threads[t]? = some pc ∧
          ∀ (e : errno_t) (v : Option vnode_t), pc ≠ .returned e v) →
        ∃ (l : Label) (σ' : System), l.calm = true ∧ σ.step ma l = some σ') ∧
      ((∀ l : Label, l.calm = true → σ.step ma l = none) → 0 < n →
        ∃ h : vnode_t, createCalls σ.world.trace = [(0, some h)] ∧
          ∀ t : Nat, t < n → σ.threads[t]? = some (.returned 0 (some h)))) := by
  have hI0 := RootInv.of_postMount n hm
  have hK0 := SteadyInv.of_fresh n hm
  obtain ⟨hI, hK⟩ := steady_exec hI0 hK0 hl hexec
  have hlen : σ.threads.length = n := by
    rw [steady_threads_length hl hexec]
    simp [System.init]
  have hret : ∀ (t : Nat) (e : errno_t) (v : Option vnode_t),
      σ.threads[t]? = some (.returned e v) →
      e = 0 ∧ ∃ h : vnode_t, v = some h ∧ createCalls σ.world.trace = [(0, some h)] := by
    intro t e v ht
    obtain ⟨he, hv, hne⟩ := hK.returned_root t e v ht
    cases hv' : v with
    | none => exact absurd hv' hne
    | some h =>
      refine ⟨he, h, rfl, ?_⟩
      rw [hv'] at hv
      exact hK.root_created h hv.symm
  refine ⟨hlen, steady_creates_le_one hK, hret, hI.creator_unique, ?_⟩
  intro hc
  obtain ⟨-, hle⟩ := calm_exec hI0 hK0 (CalmInv.of_entry m n) hc hexec
  rw [measure_init m n hm] at hle
  refine ⟨by omega, calm_progress hI hK, ?_⟩
  intro hstuck hn
  have hall : ∀ (t : Nat) (pc : GetRootPC), σ.threads[t]? = some pc →
      ∃ (e : errno_t) (v : Option vnode_t), pc = .returned e v := by
    intro t pc ht
    by_contra hnr
    have hp : ∃ (l : Label) (σ' : System), l.calm = true ∧ σ.step ma l = some σ' :=
      calm_progress hI hK ⟨t, pc, ht, fun e v hpc => hnr ⟨e, v, hpc⟩⟩
    obtain ⟨l, σ', hlc, hs⟩ := hp
    rw [hstuck l hlc] at hs
    exact absurd hs (by simp)
  have h0 : (0 : Nat) < σ.threads.length := by omega
  obtain ⟨e₀, v₀, hpc₀⟩ := hall 0 _ (List.getElem?_eq_getElem h0)
  obtain ⟨-, h, -, hcr⟩ := hret 0 e₀ v₀ (by rw [List.getElem?_eq_getElem h0, hpc₀])
  refine ⟨h, hcr, ?_⟩
  intro t ht
  have htl : t < σ.threads.length := by omega
  obtain ⟨e, v, hpc⟩ := hall t _ (List.getElem?_eq_getElem htl)
  have hts : σ.threads[t]? = some (.returned e v) := by
    rw [List.getElem?_eq_getElem htl, hpc]
  obtain ⟨rfl, h', rfl, hcr'⟩ := hret t e v hts
  rw [hcr] at hcr'
  simp only [List.cons.injEq, Prod.mk.injEq, Option.some.injEq, true_and, and_true] at hcr'
  rw [hts, hcr']

theorem C14_at_most_one_construction_witness :
    ∃ h : vnode_t,
      createCalls [.vnode_create 0 (some 5), .vnode_addfsref 5, .wakeup,
        .vnode_getwithvid 5 1 0] = [(0, some h)] ∧
      ∀ t : Nat, t < 2 →
        [GetRootPC.returned 0 (some 5), GetRootPC.returned 0 (some 5)][t]? =
          some (.returned 0 (some h)) := by
  have hlabels : ∀ l ∈ [Label.run 0 (answer 0 5), .run 0 (answer 0 5), .run 1 (answer 0 5),
      .run 1 (answer 0 5), .run 0 (answer 0 5), .run 0 (answer 0 5), .run 1 (answer 0 5),
      .run 1 (answer 0 5), .run 1 (answer 0 5), .run 1 (answer 0 5)], l.calm = true := by
    decide
  have key := C14_at_most_one_construction true sampleMount 2
    [.run 0 (answer 0 5), .run 0 (answer 0 5), .run 1 (answer 0 5), .run 1 (answer 0 5),
     .run 0 (answer 0 5), .run 0 (answer 0 5), .run 1 (answer 0 5), .run 1 (answer 0 5),
     .run 1 (answer 0 5), .run 1 (answer 0 5)]
    { world := { mtmp := { sampleMount with fRootVNode := some 5 }, mutexOwner := none,
                 waitq := [],
                 trace := [.vnode_create 0 (some 5), .vnode_addfsref 5, .wakeup,
                           .vnode_getwithvid 5 1 0] },
      threads := [.returned 0 (some 5), .returned 0 (some 5)] }
    (by decide) (fun l hl => calm_steady (hlabels l hl)) (by decide)
  refine (key.2.2.2.2 hlabels).2.2 ?_ (by decide)
  intro l hl
  cases l with
  | call => exact absurd hl (by simp [Label.calm])
  | reclaim vp => exact absurd hl (by simp [Label.calm])
  | spurious t => exact absurd hl (by simp [Label.calm])
  | run t o =>
    match t with
    | 0 => rfl
    | 1 => rfl
    | (t + 2) => rfl

/-! ## Loading and unloading: the claim -/

/-- C30, evaluation of the error conversion. `ErrnoFromKernReturn` returns 0
for `KERN_SUCCESS` and `EINVAL` for every other value. `KernReturnFromErrno`
returns its argument, not the `kernErr` it has just set: 0 is returned as
`KERN_SUCCESS`, but a non-zero `err` comes back as that errno value, which is
`KERN_FAILURE` only when `err` happens to be 5. So `MODULE_STOP` returns 16
when `vfs_fsremove` fails with `EBUSY` (a volume is still mounted), and
`MODULE_START` returns 22 when `OSMalloc_Tagalloc` fails and 12 when
`vfs_fsadd` fails with `ENOMEM`; none of these is `KERN_SUCCESS` or
`KERN_FAILURE`. -/
theorem C30_errno_returned_unconverted :
    (∀ kernErr : kern_return_t,
      ErrnoFromKernReturn kernErr = if kernErr = KERN_SUCCESS then 0 else EINVAL) ∧
    (∀ err : errno_t, KernReturnFromErrno err = err) ∧
    KernReturnFromErrno 0 = KERN_SUCCESS ∧
    (∀ err : errno_t, err ≠ 0 → err ≠ 5 → KernReturnFromErrno err ≠ KERN_FAILURE) ∧
    KernReturnFromErrno EBUSY = 16 ∧ KernReturnFromErrno EBUSY ≠ KERN_FAILURE ∧
    (∀ (o : LoadAnswer) (g : Globals), o.fsremove_err = EBUSY →
      MODULE_STOP o g = (16, g)) ∧
    (∀ (ma : Bool) (o : LoadAnswer), o.tagalloc = none →
      MODULE_START ma o noGlobals = some (22, noGlobals)) ∧
    (∀ (ma : Bool) (o : LoadAnswer) (a b : Nat), o.tagalloc = some a → o.grp_alloc = some b →
      o.fsadd_err = ENOMEM → MODULE_START ma o noGlobals = some (12, noGlobals)) := by
  refine ⟨fun _ => rfl, fun _ => rfl, rfl, fun err h0 h5 => ?_, rfl, by decide, ?_, ?_, ?_⟩
  · show err ≠ 5
    exact h5
  · intro o g h
    simp [h, MODULE_STOP, KernReturnFromErrno, EBUSY]
  · intro ma o h
    cases ma <;>
      simp [h, MODULE_START, InitMemoryAndLocks, TermMemoryAndLocks, assert, noGlobals,
        KERN_SUCCESS, KERN_FAILURE, ErrnoFromKernReturn, KernReturnFromErrno, EINVAL]
  · intro ma o a b ha hb he
    cases ma <;>
      simp [ha, hb, he, MODULE_START, InitMemoryAndLocks, TermMemoryAndLocks, assert, noGlobals,
        KERN_SUCCESS, KERN_FAILURE, ErrnoFromKernReturn, KernReturnFromErrno, ENOMEM]

/-! ## Directory enumeration: cursor arithmetic and resumption -/

theorem entriesFrom_length_le (sz : Nat) (i : Int) : (entriesFrom sz i).length ≤ 2 := by
  unfold entriesFrom
  split_ifs <;> simp

theorem entriesFrom_pos {sz : Nat} {i : Int} (h : 0 < (entriesFrom sz i).length) :
    i = 0 ∨ i = 1 := by
  unfold entriesFrom at h
  split_ifs at h with h0 h1
  · exact Or.inl h0
  · exact Or.inr h1
  · simp at h

theorem cursor_isOff {sz : Nat} {c : Int} {n : Nat} (hc : isOff c)
    (hn : n ≤ (entriesFrom sz (Int.tdiv c 7)).length) : isOff ((Int.tdiv c 7 + n) * 7) := by
  rcases Nat.eq_zero_or_pos n with h0 | hpos
  · subst h0
    simpa using tdiv_mul_isOff hc
  · have h2 := entriesFrom_length_le sz (Int.tdiv c 7)
    rcases entriesFrom_pos (lt_of_lt_of_le hpos hn) with h | h <;>
      · rw [h]
        unfold isOff
        constructor <;> norm_num <;> omega

/-- C27, cursor arithmetic. Plain mode, any cursor `c` in the range of
`off_t`, any space, whatever the kernel answers to `uiomove`. The call fails
to return only by the offset assert (a kernel built with `MACH_ASSERT`, `c`
no multiple of 7). When it returns, with
`n` the number of entries it reports: `n` is at most 2; the cursor it leaves
is `7 * (c / 7 + n)` with the truncating division of C, a value inside the
range of `off_t` (the arithmetic does not wrap); that cursor is a multiple of
7; and when `c` is a non-negative multiple of 7 the cursor has not moved
back. -/
theorem C27_cursor_arithmetic (ma : Bool) (sz : Nat) (k : uio → errno_t)
    (ap : vnop_readdir_args)
    (hf : plainMode ap.a_flags) (hc : isOff ap.a_uio.offset) :
    (VNOPReadDir ma sz k ap = none ↔ (ma = true ∧ Int.tmod ap.a_uio.offset 7 ≠ 0)) ∧
    (∀ (err : errno_t) (o : vnop_readdir_args), VNOPReadDir ma sz k ap = some (err, o) →
      ∃ n : Nat,
        o.a_numdirent = ap.a_numdirent.map (fun _ => (n : Int)) ∧
        n ≤ 2 ∧
        isOff (7 * (Int.tdiv ap.a_uio.offset 7 + n)) ∧
        o.a_uio.offset = 7 * (Int.tdiv ap.a_uio.offset 7 + n) ∧
        Int.tmod o.a_uio.offset 7 = 0 ∧
        (0 ≤ ap.a_uio.offset → Int.tmod ap.a_uio.offset 7 = 0 →
          ap.a_uio.offset ≤ o.a_uio.offset)) := by
  by_cases hp : ma = true ∧ Int.tmod ap.a_uio.offset 7 ≠ 0
  · obtain ⟨rfl, hne⟩ := hp
    have hnone := readdir_panics sz k ap hf hne
    refine ⟨by simp [hnone, hne], fun err o h => ?_⟩
    rw [hnone] at h
    exact absurd h (by simp)
  · obtain ⟨n, e, hlen, -, -, h⟩ := readdir_plain ma sz k ap hf (not_panics_iff hp)
    have hoff := cursor_isOff hc hlen
    rw [leaves_eq_some, wrap64_of_isOff hoff] at h
    refine ⟨?_, fun err o ho => ?_⟩
    · constructor
      · intro hnone
        rw [hnone] at h
        exact absurd h (by simp)
      · intro hp2
        exact absurd hp2 hp
    · rw [h] at ho
      simp only [Option.some.injEq, Prod.mk.injEq] at ho
      obtain ⟨-, rfl⟩ := ho
      have hcomm : (Int.tdiv ap.a_uio.offset 7 + (n : Int)) * 7 =
          7 * (Int.tdiv ap.a_uio.offset 7 + n) := by ring
      refine ⟨n, rfl, le_trans hlen (entriesFrom_length_le _ _), ?_, ?_, ?_, ?_⟩
      · rw [← hcomm]
        exact hoff
      · exact hcomm
      · show Int.tmod ((Int.tdiv ap.a_uio.offset 7 + (n : Int)) * 7) 7 = 0
        exact Int.mul_tmod_left _ _
      · intro h0 h7
        show ap.a_uio.offset ≤ (Int.tdiv ap.a_uio.offset 7 + (n : Int)) * 7
        rw [tmod7_eq] at h7
        omega

theorem C27_cursor_arithmetic_witness :
    ∃ n : Nat, (some 1 : Option Int) = some (n : Int) ∧ n ≤ 2 ∧
      (14 : Int) = 7 * (Int.tdiv 7 7 + n) := by
  obtain ⟨n, h₁, h₂, -, h₄, -⟩ :=
    (C27_cursor_arithmetic true 264 goodBuffer (sampleArgs 7 500 0) (by decide)
      (by decide)).2 0
      { a_uio := { offset := 14, resid := 236, moved := [(dotdotItem 264, 264)] }, a_flags := 0,
        a_eofflag := some 1, a_numdirent := some 1 } (by decide)
  exact ⟨n, h₁, h₂, h₄⟩

theorem entriesFrom_drop (sz : Nat) (a : Nat) (ha : a ≤ 2) :
    entriesFrom sz (a : Int) = [(dotItem sz, sz), (dotdotItem sz, sz)].drop a := by
  interval_cases a <;> simp [entriesFrom]

theorem emitCount_le (sz a resid : Nat) (ha : a ≤ 2) : a + emitCount sz a resid ≤ 2 := by
  unfold emitCount
  omega

/-- One resumed call, whatever `uiomove` answers: at cursor `7 * a` with `a`
at most 2, a plain-mode call returns after emitting the next `n` records of
".", ".." for some `n`, leaves the cursor at `7 * (a + n)`, and reports end
of directory exactly when `a + n` is 2. -/
theorem readdir_resumed_any (ma : Bool) (sz : Nat) (k : uio → errno_t)
    (ap : vnop_readdir_args) (hf : plainMode ap.a_flags) (a : Nat) (ha : a ≤ 2) :
    ∃ (n : Nat) (err : errno_t), a + n ≤ 2 ∧
      VNOPReadDir ma sz k (withCursor ap (7 * (a : Int))) =
        some (err,
          { a_uio := { offset := 7 * ((a + n : Nat) : Int),
                       resid := ap.a_uio.resid - n * sz,
                       moved := ap.a_uio.moved ++
                         ([(dotItem sz, sz), (dotdotItem sz, sz)].drop a).take n },
            a_flags := ap.a_flags,
            a_eofflag := ap.a_eofflag.map (fun _ => if a + n = 2 then TRUE else FALSE),
            a_numdirent := ap.a_numdirent.map (fun _ => (n : Int)) }) := by
  have hdiv : Int.tdiv (7 * (a : Int)) 7 = a := by
    rw [tdiv7_eq]
    split_ifs <;> omega
  have hmod : Int.tmod (7 * (a : Int)) 7 = 0 := by
    rw [tmod7_eq, hdiv]
    omega
  obtain ⟨n, err, hlen, -, -, h⟩ :=
    readdir_plain ma sz k (withCursor ap (7 * (a : Int))) hf (Or.inr hmod)
  have hoff : (withCursor ap (7 * (a : Int))).a_uio.offset = 7 * (a : Int) := rfl
  have hres : (withCursor ap (7 * (a : Int))).a_uio.resid = ap.a_uio.resid := rfl
  have hmov : (withCursor ap (7 * (a : Int))).a_uio.moved = ap.a_uio.moved := rfl
  rw [hoff, hdiv] at hlen h
  rw [hres, hmov] at h
  rw [entriesFrom_drop sz a ha] at hlen h
  have hl : ([(dotItem sz, sz), (dotdotItem sz, sz)].drop a).length = 2 - a := by simp
  rw [hl] at hlen
  have hsmall : wrap64 (((a : Int) + (n : Int)) * 7) = 7 * ((a + n : Nat) : Int) := by
    rw [wrap64_small (by omega) (by omega)]
    push_cast
    ring
  have heof : ((a : Int) + (n : Int) > 1) ↔ a + n = 2 := by omega
  refine ⟨n, err, by omega, ?_⟩
  rw [h, leaves_eq_some, hsmall]
  simp only [heof]
  rfl

/-- One resumed call when every copy goes through: at cursor `7 * a` with
`a` at most 2, a plain-mode call returns what `resumedCall` says. -/
theorem readdir_resumed (ma : Bool) (sz : Nat) (k : uio → errno_t) (hsz : 0 < sz)
    (hk : ∀ u : uio, k u = 0) (ap : vnop_readdir_args)
    (hf : plainMode ap.a_flags) (a : Nat) (ha : a ≤ 2) :
    VNOPReadDir ma sz k (withCursor ap (7 * (a : Int))) = some (resumedCall sz a ap) := by
  have hdiv : Int.tdiv (7 * (a : Int)) 7 = a := by
    rw [tdiv7_eq]
    split_ifs <;> omega
  have hmod : Int.tmod (7 * (a : Int)) 7 = 0 := by
    rw [tmod7_eq, hdiv]
    omega
  obtain ⟨n, hlen, hfit, hstop, h⟩ :=
    readdir_plain_good ma sz k (withCursor ap (7 * (a : Int))) hf (Or.inr hmod) hk
  have hoff : (withCursor ap (7 * (a : Int))).a_uio.offset = 7 * (a : Int) := rfl
  have hres : (withCursor ap (7 * (a : Int))).a_uio.resid = ap.a_uio.resid := rfl
  have hmov : (withCursor ap (7 * (a : Int))).a_uio.moved = ap.a_uio.moved := rfl
  rw [hoff, hdiv] at hlen hstop h
  rw [hres] at hfit hstop h
  rw [hmov] at h
  rw [entriesFrom_drop sz a ha] at hlen hstop h
  have hl : ([(dotItem sz, sz), (dotdotItem sz, sz)].drop a).length = 2 - a := by simp
  rw [hl] at hlen hstop
  have hn : n = emitCount sz a ap.a_uio.resid := by
    unfold emitCount
    have h1 : n ≤ ap.a_uio.resid / sz := (Nat.le_div_iff_mul_le hsz).2 hfit
    by_cases hlt : n < 2 - a
    · have h2 : ap.a_uio.resid / sz < n + 1 := (Nat.div_lt_iff_lt_mul hsz).2 (hstop hlt)
      omega
    · omega
  have hsmall : wrap64 (((a : Int) + (n : Int)) * 7) = 7 * ((a + n : Nat) : Int) := by
    rw [wrap64_small (by omega) (by omega)]
    push_cast
    ring
  have heof : ((a : Int) + (n : Int) > 1) ↔ a + n = 2 := by omega
  rw [h, leaves_eq_some, hsmall]
  subst hn
  simp only [resumedCall, heof]
  rfl

/-- A resumed enumeration that starts after `a` records, `a` at most 2, when
every copy goes through: every call returns, and the calls return what
`resumedRun` says. -/
theorem readDirFrom_resumed (ma : Bool) (sz : Nat) (k : uio → errno_t) (hsz : 0 < sz)
    (hk : ∀ u : uio, k u = 0) (aps : List vnop_readdir_args) :
    ∀ a : Nat, a ≤ 2 → (∀ ap ∈ aps, plainMode ap.a_flags) →
      readDirFrom ma sz k (7 * (a : Int)) aps = some (resumedRun sz a aps) := by
  induction aps with
  | nil => intro a _ _; rfl
  | cons ap aps ih =>
    intro a ha hf
    have h1 := readdir_resumed ma sz k hsz hk ap (hf ap (List.mem_cons_self _ _)) a ha
    have h2 := ih (a + emitCount sz a ap.a_uio.resid) (emitCount_le sz a _ ha)
      (fun x hx => hf x (List.mem_cons_of_mem _ hx))
    have h3 : (resumedCall sz a ap).2.a_uio.offset =
        7 * ((a + emitCount sz a ap.a_uio.resid : Nat) : Int) := rfl
    simp only [readDirFrom, h1, h3, h2, resumedRun]

/-- A resumed enumeration that starts after `a` records, `a` at most 2,
whatever `uiomove` answers: every call returns, the records the calls emit
continue the list ".", ".." where the calls before stopped and stay within
it, and every call reports end of directory exactly when both records have
been emitted by then. -/
theorem readDirFrom_any (ma : Bool) (sz : Nat) (k : uio → errno_t)
    (aps : List vnop_readdir_args) :
    ∀ a : Nat, a ≤ 2 → (∀ ap ∈ aps, plainMode ap.a_flags) →
      ∃ rs : List (errno_t × vnop_readdir_args),
        readDirFrom ma sz k (7 * (a : Int)) aps = some rs ∧ rs.length = aps.length ∧
        (∃ j : Nat, a + j ≤ 2 ∧
          emittedBy aps rs = ([(dotItem sz, sz), (dotdotItem sz, sz)].drop a).take j) ∧
        eofWhenDone a aps rs := by
  induction aps with
  | nil =>
    intro a ha _
    exact ⟨[], rfl, rfl, ⟨0, by omega, by simp [emittedBy]⟩, trivial⟩
  | cons ap aps ih =>
    intro a ha hf
    obtain ⟨n, err, hn, h1⟩ :=
      readdir_resumed_any ma sz k ap (hf ap (List.mem_cons_self _ _)) a ha
    obtain ⟨rs, h2, hlen, ⟨j, hj, he⟩, heof⟩ :=
      ih (a + n) hn (fun x hx => hf x (List.mem_cons_of_mem _ hx))
    have hcount : (List.take n (List.drop a [(dotItem sz, sz), (dotdotItem sz, sz)])).length =
        n := by
      simp
      omega
    refine ⟨(err,
          { a_uio := { offset := 7 * ((a + n : Nat) : Int),
                       resid := ap.a_uio.resid - n * sz,
                       moved := ap.a_uio.moved ++
                         ([(dotItem sz, sz), (dotdotItem sz, sz)].drop a).take n },
            a_flags := ap.a_flags,
            a_eofflag := ap.a_eofflag.map (fun _ => if a + n = 2 then TRUE else FALSE),
            a_numdirent := ap.a_numdirent.map (fun _ => (n : Int)) }) :: rs,
      ?_, by simp [hlen], ⟨n + j, by omega, ?_⟩, ?_⟩
    · simp only [readDirFrom, h1, h2]
    · simp only [emittedBy, he, List.drop_left, List.take_add, List.drop_drop]
    · simp only [eofWhenDone, List.length_append, hcount, Nat.add_sub_cancel_left]
      exact ⟨trivial, heof⟩

/-- The records a resumed enumeration is to emit continue the list ".", ".."
where the calls before it stopped, and stay within it. -/
theorem emittedBy_resumed (sz : Nat) (aps : List vnop_readdir_args) :
    ∀ a : Nat, a ≤ 2 → ∃ k : Nat, a + k ≤ 2 ∧
      emittedBy aps (resumedRun sz a aps) =
        ([(dotItem sz, sz), (dotdotItem sz, sz)].drop a).take k := by
  induction aps with
  | nil => intro a ha; exact ⟨0, by omega, by simp [emittedBy]⟩
  | cons ap aps ih =>
    intro a ha
    obtain ⟨k, hk, he⟩ := ih (a + emitCount sz a ap.a_uio.resid) (emitCount_le sz a _ ha)
    refine ⟨emitCount sz a ap.a_uio.resid + k, by omega, ?_⟩
    simp only [resumedRun, emittedBy, he, resumedCall, List.drop_left, List.take_add,
      List.drop_drop]

/-- In a resumed enumeration the number of records counted as emitted before
call `k` is the number the calls before it did emit. -/
theorem resumedRun_get (sz : Nat) (aps : List vnop_readdir_args) :
    ∀ (a k : Nat) (ap : vnop_readdir_args), a ≤ 2 → aps[k]? = some ap →
      (resumedRun sz a aps)[k]? =
        some (resumedCall sz
          (a + (emittedBy (aps.take k) ((resumedRun sz a aps).take k)).length) ap) := by
  induction aps with
  | nil => intro a k ap _ h; simp at h
  | cons ap₀ aps ih =>
    intro a k ap ha h
    cases k with
    | zero =>
      simp only [List.getElem?_cons_zero, Option.some.injEq] at h
      subst h
      simp [resumedRun, emittedBy]
    | succ k =>
      simp only [List.getElem?_cons_succ] at h
      have h2 := ih (a + emitCount sz a ap₀.a_uio.resid) k ap (emitCount_le sz a _ ha) h
      have hlen : (List.take (emitCount sz a ap₀.a_uio.resid)
          (List.drop a [(dotItem sz, sz), (dotdotItem sz, sz)])).length =
          emitCount sz a ap₀.a_uio.resid := by
        have := emitCount_le sz a ap₀.a_uio.resid ha
        simp
        omega
      simp only [resumedRun, List.getElem?_cons_succ, h2, List.take_succ_cons, emittedBy,
        resumedCall, List.drop_left, List.length_append, hlen, Nat.add_assoc]

/-- C28, counterexample. One call at cursor 0 with space for two records of
264 bytes (600 bytes), on a buffer that cannot be written: the call returns
`EFAULT` and emits no record, where `min (2 - 0) (600 / 264)` is 2. -/
theorem C28_copy_failure_emits_less :
    readDirFrom true 264 badBuffer 0 [sampleArgs 0 600 0] =
      some [(EFAULT, { a_uio := { offset := 0, resid := 600, moved := [] }, a_flags := 0,
                       a_eofflag := some FALSE, a_numdirent := some 0 })] ∧
    emitCount 264 0 600 = 2 ∧ min (2 - 0) (600 / 264) = 2 ∧ EFAULT ≠ 0 := by
  decide

/-- C28 as amended, resumable enumeration. For a record size that is
positive and any finite sequence of plain-mode calls, the first at cursor 0
and each later one at the cursor the call before it left. Whatever `uiomove`
answers: every call returns, the records emitted by all the calls, put end to
end, are the first `j` of ".", ".." for some `j` at most 2, and every call
reports end of directory exactly when the number of records emitted up to and
including that call is 2. When every copy goes through: every call returns
error 0, and call `i`, with `already` the number of records the calls before
it emitted, emits the next `min (2 - already) (resid / sizeof(struct
dirent))` records of ".", ".." whole and reports that count (`resumedRun`,
`resumedCall`). -/
theorem C28_resumable_enumeration (ma : Bool) (sz : Nat) (k : uio → errno_t)
    (aps : List vnop_readdir_args)
    (hsz : 0 < sz) (hf : ∀ ap ∈ aps, plainMode ap.a_flags) :
    (∃ rs : List (errno_t × vnop_readdir_args),
      readDirFrom ma sz k 0 aps = some rs ∧ rs.length = aps.length ∧
      (∃ j : Nat, j ≤ 2 ∧
        emittedBy aps rs = [(dotItem sz, sz), (dotdotItem sz, sz)].take j) ∧
      eofWhenDone 0 aps rs) ∧
    ((∀ u : uio, k u = 0) → readDirFrom ma sz k 0 aps = some (resumedRun sz 0 aps)) ∧
    (∀ (i : Nat) (ap : vnop_readdir_args), aps[i]? = some ap →
      (resumedRun sz 0 aps)[i]? =
        some (resumedCall sz
          (emittedBy (aps.take i) ((resumedRun sz 0 aps).take i)).length ap)) ∧
    (dotItem sz).d_name = "." ∧ (dotdotItem sz).d_name = ".." := by
  refine ⟨?_, fun hk => ?_, fun i ap h => ?_, rfl, rfl⟩
  · obtain ⟨rs, h1, h2, ⟨j, hj, he⟩, h4⟩ := readDirFrom_any ma sz k aps 0 (by omega) hf
    exact ⟨rs, by simpa using h1, h2, ⟨j, by omega, by simpa using he⟩, h4⟩
  · simpa using readDirFrom_resumed ma sz k hsz hk aps 0 (by omega) hf
  · simpa using resumedRun_get sz aps 0 i ap (by omega) h

theorem C28_resumable_enumeration_witness :
    readDirFrom true 264 goodBuffer 0
        [sampleArgs 0 300 0, sampleArgs 0 100 0, sampleArgs 0 600 0] =
      some (resumedRun 264 0 [sampleArgs 0 300 0, sampleArgs 0 100 0, sampleArgs 0 600 0]) :=
  (C28_resumable_enumeration true 264 goodBuffer
    [sampleArgs 0 300 0, sampleArgs 0 100 0, sampleArgs 0 600 0] (by decide)
    (by decide)).2.1 (fun _ => rfl)

/-! ## The root vnode: revalidation, errors, locking and soft references -/

theorem threads_set_self {l : List GetRootPC} {t : Nat} {pc : GetRootPC} (pc' : GetRootPC)
    (h : l[t]? = some pc) : (l.set t pc')[t]? = some pc' := by
  rw [threads_set_get pc' t h]
  simp

/-- C25, revalidated fast path. A call on a mount whose mutex is free, with
`fRootAttaching` clear and `fRootVNode` holding `h`, that runs without
another thread in between and whose `vnode_getwithvid` succeeds: it takes the
mutex, reads `h` and its vid `vid` under the mutex, releases the mutex, calls
`vnode_getwithvid(h, vid)`, takes and releases the mutex again and returns
error 0 with `h`. The mount record is left as it was and the call of
`vnode_getwithvid` is the only call made: no `vnode_create`, no
`vnode_addfsref`. No assert fires. The same holds step by step whatever
other threads do in between. -/
theorem C25_revalidated_fast_path (ma : Bool) (σ : System) (t : Nat) (h : vnode_t)
    (o₁ o₂ o₃ o₄ : Answer)
    (ht : σ.threads[t]? = some .entry) (hfree : σ.world.mutexOwner = none)
    (ha : σ.world.mtmp.fRootAttaching = false) (hr : σ.world.mtmp.fRootVNode = some h)
    (hv : o₃.getwithvid_err = 0) :
    System.exec ma σ [.run t o₁, .run t o₂, .run t o₃, .run t o₄] =
      some { world := { σ.world with
                          trace := σ.world.trace ++ [.vnode_getwithvid h o₂.vid 0] },
             threads := σ.threads.set t (.returned 0 (some h)) } ∧
    (∀ w : World, w.mtmp.fRootAttaching = false → w.mtmp.fRootVNode = some h →
      getRootStep ma t o₂ w .loopTop =
        .next { w with mutexOwner := none } (.revalidating h o₂.vid)) ∧
    (∀ (w : World) (vid : Nat),
      getRootStep ma t o₃ w (.revalidating h vid) =
        .next { w with trace := w.trace ++ [.vnode_getwithvid h vid 0] }
          (.revalidated 0 (some h))) ∧
    (∀ w : World, w.mutexOwner = none →
      getRootStep ma t o₄ w (.revalidated 0 (some h)) =
        .next { w with mutexOwner := none } (.returned 0 (some h))) := by
  have s₂ : ∀ w : World, w.mtmp.fRootAttaching = false → w.mtmp.fRootVNode = some h →
      getRootStep ma t o₂ w .loopTop =
        .next { w with mutexOwner := none } (.revalidating h o₂.vid) := by
    intro w ha hr
    simp [getRootStep, ha, hr]
  have s₃ : ∀ (w : World) (vid : Nat),
      getRootStep ma t o₃ w (.revalidating h vid) =
        .next { w with trace := w.trace ++ [.vnode_getwithvid h vid 0] }
          (.revalidated 0 (some h)) := by
    intro w vid
    simp [getRootStep, hv]
  have s₄ : ∀ w : World, w.mutexOwner = none →
      getRootStep ma t o₄ w (.revalidated 0 (some h)) =
        .next { w with mutexOwner := none } (.returned 0 (some h)) := by
    intro w hf
    cases ma <;> simp [getRootStep, getRootLoopEnd, assert, hf, EAGAIN]
  refine ⟨?_, s₂, s₃, s₄⟩
  have e₁ : System.step ma σ (.run t o₁) =
      some { world := { σ.world with mutexOwner := some t },
             threads := σ.threads.set t .loopTop } := by
    simp [System.step, ht, getRootStep, hfree]
  have e₂ : System.step ma { world := { σ.world with mutexOwner := some t },
                             threads := σ.threads.set t .loopTop } (.run t o₂) =
      some { world := { σ.world with mutexOwner := none },
             threads := σ.threads.set t (.revalidating h o₂.vid) } := by
    simp [System.step, threads_set_self _ ht, getRootStep, ha, hr, List.set_set]
  have e₃ : System.step ma { world := { σ.world with mutexOwner := none },
                             threads := σ.threads.set t (.revalidating h o₂.vid) } (.run t o₃) =
      some { world := { σ.world with
                          mutexOwner := none,
                          trace := σ.world.trace ++ [.vnode_getwithvid h o₂.vid 0] },
             threads := σ.threads.set t (.revalidated 0 (some h)) } := by
    simp [System.step, threads_set_self _ ht, getRootStep, hv, List.set_set]
  have e₄ : System.step ma
      { world := { σ.world with
                     mutexOwner := none,
                     trace := σ.world.trace ++ [.vnode_getwithvid h o₂.vid 0] },
        threads := σ.threads.set t (.revalidated 0 (some h)) } (.run t o₄) =
      some { world := { σ.world with
                          mutexOwner := none,
                          trace := σ.world.trace ++ [.vnode_getwithvid h o₂.vid 0] },
             threads := σ.threads.set t (.returned 0 (some h)) } := by
    cases ma <;>
      simp [System.step, threads_set_self _ ht, getRootStep, getRootLoopEnd, assert, EAGAIN,
        List.set_set]
  have hw : ({ σ.world with
                 mutexOwner := none,
                 trace := σ.world.trace ++ [.vnode_getwithvid h o₂.vid 0] } : World) =
      { σ.world with trace := σ.world.trace ++ [.vnode_getwithvid h o₂.vid 0] } := by
    rw [← hfree]
  rw [← hw]
  simp only [System.exec, e₁, e₂, e₃, e₄]

theorem C25_revalidated_fast_path_witness :
    System.exec true { world := sampleWorld false false (some 5), threads := [.entry] }
        [.run 0 (answer 0 0), .run 0 (answer 0 0), .run 0 (answer 0 0), .run 0 (answer 0 0)] =
      some { world := { (sampleWorld false false (some 5)) with
                          trace := [.vnode_getwithvid 5 1 0] },
             threads := [.returned 0 (some 5)] } :=
  (C25_revalidated_fast_path true
    { world := sampleWorld false false (some 5), threads := [.entry] } 0 5
    (answer 0 0) (answer 0 0) (answer 0 0) (answer 0 0) (by decide) (by decide) (by decide)
    (by decide) (by decide)).1

theorem trans_trace {t : Nat} {w w' : World} {pc pc' : GetRootPC}
    (hT : GetRootTrans t w pc w' pc') : ∃ evs : List Event, w'.trace = w.trace ++ evs := by
  cases hT
  case create err v => exact ⟨_, rfl⟩
  case install vn h => exact ⟨_, List.append_assoc _ _ _⟩
  case fresh c vid => exact ⟨_, rfl⟩
  case stale c vid err he => exact ⟨_, rfl⟩
  all_goals exact ⟨[], (List.append_nil _).symm⟩

theorem errOk_mono {tr : List Event} (evs : List Event) {pc : GetRootPC}
    (h : pc.errOk tr) : pc.errOk (tr ++ evs) := by
  cases pc <;> simp_all [GetRootPC.errOk]

theorem trans_errOk {t : Nat} {w w' : World} {pc pc' : GetRootPC}
    (hT : GetRootTrans t w pc w' pc') (h : pc.errOk w.trace) : pc'.errOk w'.trace := by
  cases hT <;> simp_all [GetRootPC.errOk, EAGAIN]
  case fail =>
    obtain ⟨h1, h2⟩ := h
    rw [← h2]
    exact h1

theorem errInv_step {ma : Bool} {σ σ' : System} {l : Label} (hE : ErrInv σ)
    (h : σ.step ma l = some σ') : ErrInv σ' := by
  cases l with
  | call =>
    simp only [System.step, Option.some.injEq] at h
    subst h
    intro pc hpc
    rcases List.mem_append.1 hpc with h1 | h1
    · exact hE pc h1
    · rw [List.mem_singleton.1 h1]
      trivial
  | run t o =>
    simp only [System.step] at h
    split at h
    · exact absurd h (by simp)
    · rename_i pc hpc
      split at h
      · rename_i w pc' hstep
        simp only [Option.some.injEq] at h
        subst h
        have hT := getRootStep_next hstep
        obtain ⟨evs, hevs⟩ := trans_trace hT
        intro q hq
        rcases List.mem_or_eq_of_mem_set hq with h1 | h1
        · show q.errOk w.trace
          rw [hevs]
          exact errOk_mono evs (hE q h1)
        · rw [h1]
          exact trans_errOk hT (hE pc (List.getElem?_mem hpc))
      · exact absurd h (by simp)
  | reclaim vp =>
    simp only [System.step] at h
    split at h
    · rename_i w u hd
      simp only [Option.some.injEq] at h
      subst h
      obtain ⟨-, h2⟩ := detach_next hd
      rcases h2 with ⟨-, rfl⟩ | ⟨root, -, -, rfl⟩
      · exact hE
      · intro q hq
        exact errOk_mono _ (hE q hq)
    · exact absurd h (by simp)
  | spurious t =>
    simp only [System.step] at h
    split at h
    · simp only [Option.some.injEq] at h
      subst h
      exact hE
    · exact absurd h (by simp)

theorem errInv_exec {ma : Bool} {ls : List Label} {σ σ' : System} (hE : ErrInv σ)
    (h : System.exec ma σ ls = some σ') : ErrInv σ' := by
  induction ls generalizing σ with
  | nil =>
    simp only [System.exec, Option.some.injEq] at h
    subst h
    exact hE
  | cons l ls ih =>
    simp only [System.exec] at h
    split at h
    · exact absurd h (by simp)
    · rename_i σ₁ hstep
      exact ih (errInv_step hE hstep) h

theorem errInv_of_entry (w : World) (n : Nat) :
    ErrInv { world := w, threads := List.replicate n .entry } := by
  intro pc hpc
  rw [List.eq_of_mem_replicate hpc]
  trivial

/-- C21, staleness never surfaced. Whatever error `vnode_getwithvid`
returns, the thread leaves the revalidation with `EAGAIN` and no vnode, and
with that takes the mutex and goes back to the top of the loop. A step of a
thread ends in a return with a non-zero error only when the thread came back
from its own `vnode_create` with that error, and a thread comes back from
`vnode_create` with the error the kernel answered to its call. So in every
run of any system of callers, from any shared state, with any answers and any
interleaving: a call that has returned did not return `EAGAIN`, and when it
returned a non-zero error, a `vnode_create` has failed with that error. -/
theorem C21_staleness_never_surfaced (ma : Bool) (w : World) (n : Nat) (ls : List Label)
    (σ : System)
    (hexec : System.exec ma { world := w, threads := List.replicate n .entry } ls = some σ) :
    (∀ (t : Nat) (o : Answer) (w₁ : World) (c : vnode_t) (vid : Nat), o.getwithvid_err ≠ 0 →
      getRootStep ma t o w₁ (.revalidating c vid) =
        .next { w₁ with trace := w₁.trace ++ [.vnode_getwithvid c vid o.getwithvid_err] }
          (.revalidated EAGAIN none)) ∧
    (∀ (t : Nat) (o : Answer) (w₁ : World), w₁.mutexOwner = none →
      getRootStep ma t o w₁ (.revalidated EAGAIN none) =
        .next { w₁ with mutexOwner := some t } .loopTop) ∧
    (∀ (t : Nat) (o : Answer) (w₂ : World) (pc : GetRootPC) (e : errno_t)
        (v : Option vnode_t), σ.threads[t]? = some pc →
      getRootStep ma t o σ.world pc = .next w₂ (.returned e v) → e ≠ 0 →
        ∃ newVN : Option vnode_t, pc = .created e newVN) ∧
    (∀ (t : Nat) (o : Answer) (w₁ w₂ : World) (pc : GetRootPC) (e : errno_t)
        (v : Option vnode_t),
      getRootStep ma t o w₁ pc = .next w₂ (.created e v) →
        pc = .creating ∧ e = o.create_err ∧ w₂.trace = w₁.trace ++ [.vnode_create e v]) ∧
    (∀ (t : Nat) (e : errno_t) (v : Option vnode_t), σ.threads[t]? = some (.returned e v) →
      e ≠ EAGAIN ∧ (e ≠ 0 → Event.vnode_create e none ∈ σ.world.trace)) := by
  refine ⟨?_, ?_, ?_, ?_, ?_⟩
  · intro t o w₁ c vid he
    simp [getRootStep, he]
  · intro t o w₁ hfree
    cases ma <;> simp [getRootStep, getRootLoopEnd, assert, hfree, EAGAIN]
  · intro t o w₂ pc e v ht hstep he
    have hE := errInv_exec (errInv_of_entry w n) hexec pc (List.getElem?_mem ht)
    have hT := getRootStep_next hstep
    cases hT
    case install => exact absurd rfl he
    case fail => exact ⟨_, rfl⟩
    case done =>
      rename_i r hfree ha
      rcases hE with h0 | h0
      · exact absurd h0 he
      · exact absurd h0 ha
  · intro t o w₁ w₂ pc e v hstep
    have hT := getRootStep_next hstep
    have hpc : pc = .creating := by
      cases hT
      rfl
    subst hpc
    have h1 := getRootStep_creating hstep
    simp only [GetRootPC.created.injEq] at h1
    obtain ⟨h2, h3⟩ := h1
    subst h2 h3
    refine ⟨rfl, rfl, ?_⟩
    simp only [getRootStep] at hstep
    split at hstep
    · exact absurd hstep (by simp)
    · simp only [Progress.next.injEq] at hstep
      rw [← hstep.1]
  · intro t e v ht
    exact errInv_exec (errInv_of_entry w n) hexec _ (List.getElem?_mem ht)

theorem C21_staleness_never_surfaced_witness :
    (12 : errno_t) ≠ EAGAIN ∧
    ((12 : errno_t) ≠ 0 → Event.vnode_create 12 none ∈ [Event.vnode_create 12 none]) :=
  (C21_staleness_never_surfaced true (sampleWorld false false none) 1
    [.run 0 (answer 12 5), .run 0 (answer 12 5), .run 0 (answer 12 5), .run 0 (answer 12 5)]
    { world := { mtmp := { sampleMount with fRootAttaching := true }, mutexOwner := none,
                 waitq := [], trace := [.vnode_create 12 none] },
      threads := [.returned 12 none] }
    (by decide)).2.2.2.2 0 12 none (by decide)

theorem fsrefHolder_append (tr₁ tr₂ : List Event) : ∀ held : Option vnode_t,
    fsrefHolder held (tr₁ ++ tr₂) = (fsrefHolder held tr₁).bind (fun h => fsrefHolder h tr₂) := by
  induction tr₁ with
  | nil => intro held; rfl
  | cons e tr ih =>
    intro held
    cases e
    case vnode_addfsref vn =>
      show (if held = none then fsrefHolder (some vn) (tr ++ tr₂) else none) = _
      simp only [fsrefHolder, ih]
      split_ifs <;> simp
    case vnode_removefsref vn =>
      show (if held = some vn then fsrefHolder none (tr ++ tr₂) else none) = _
      simp only [fsrefHolder, ih]
      split_ifs <;> simp
    all_goals exact ih held

theorem fsrefHolder_counts (tr : List Event) : ∀ held held' : Option vnode_t,
    fsrefHolder held tr = some held' →
      addfsrefCount tr + (if held.isSome then 1 else 0) =
        removefsrefCount tr + (if held'.isSome then 1 else 0) := by
  induction tr with
  | nil =>
    intro held held' h
    simp only [fsrefHolder, Option.some.injEq] at h
    subst h
    simp [addfsrefCount, removefsrefCount]
  | cons e tr ih =>
    intro held held' h
    cases e
    case vnode_addfsref vn =>
      simp only [fsrefHolder] at h
      split_ifs at h with h0
      subst h0
      have := ih _ _ h
      simp [addfsrefCount, removefsrefCount] at this ⊢
      omega
    case vnode_removefsref vn =>
      simp only [fsrefHolder] at h
      split_ifs at h with h0
      subst h0
      have := ih _ _ h
      simp [addfsrefCount, removefsrefCount] at this ⊢
      omega
    all_goals
      simp only [fsrefHolder] at h
      simpa [addfsrefCount, removefsrefCount] using ih _ _ h

theorem trans_fsref {t : Nat} {w w' : World} {pc pc' : GetRootPC}
    (hT : GetRootTrans t w pc w' pc')
    (i1 : w.mtmp.fRootAttaching = true → w.mtmp.fRootVNode = none)
    (i4 : pc.isCreator = true → w.mtmp.fRootAttaching = true)
    (h : fsrefHolder none w.trace = some w.mtmp.fRootVNode) :
    fsrefHolder none w'.trace = some w'.mtmp.fRootVNode := by
  cases hT
  case install vn hfree =>
    have hroot := i1 (i4 rfl)
    simp only [fsrefHolder_append, h, hroot, Option.some_bind, fsrefHolder, if_true]
    split_ifs <;> rfl
  all_goals simp_all [fsrefHolder_append, fsrefHolder]

theorem fsref_step {ma : Bool} {σ σ' : System} {l : Label} (hI : RootInv σ)
    (hF : fsrefHolder none σ.world.trace = some σ.world.mtmp.fRootVNode)
    (h : σ.step ma l = some σ') :
    fsrefHolder none σ'.world.trace = some σ'.world.mtmp.fRootVNode := by
  cases l with
  | call =>
    simp only [System.step, Option.some.injEq] at h
    subst h
    exact hF
  | run t o =>
    simp only [System.step] at h
    split at h
    · exact absurd h (by simp)
    · rename_i pc hpc
      split at h
      · rename_i w pc' hstep
        simp only [Option.some.injEq] at h
        subst h
        exact trans_fsref (getRootStep_next hstep) hI.attaching_root
          (hI.creator_attaching t pc hpc) hF
      · exact absurd h (by simp)
  | reclaim vp =>
    simp only [System.step] at h
    split at h
    · rename_i w u hd
      simp only [Option.some.injEq] at h
      subst h
      obtain ⟨-, h2⟩ := detach_next hd
      rcases h2 with ⟨-, rfl⟩ | ⟨root, hroot, -, rfl⟩
      · exact hF
      · simp [fsrefHolder_append, hF, hroot, fsrefHolder]
    · exact absurd h (by simp)
  | spurious t =>
    simp only [System.step] at h
    split at h
    · simp only [Option.some.injEq] at h
      subst h
      exact hF
    · exact absurd h (by simp)

theorem fsref_exec {ma : Bool} {ls : List Label} {σ σ' : System} (hI : RootInv σ)
    (hF : fsrefHolder none σ.world.trace = some σ.world.mtmp.fRootVNode)
    (h : System.exec ma σ ls = some σ') :
    fsrefHolder none σ'.world.trace = some σ'.world.mtmp.fRootVNode := by
  induction ls generalizing σ with
  | nil =>
    simp only [System.exec, Option.some.injEq] at h
    subst h
    exact hF
  | cons l ls ih =>
    simp only [System.exec] at h
    split at h
    · exact absurd h (by simp)
    · rename_i σ₁ hstep
      exact ih (hI.step hstep) (fsref_step hI hF hstep) h

theorem reachable_fsref {ma : Bool} {σ : System} (h : Reachable ma σ) :
    fsrefHolder none σ.world.trace = some σ.world.mtmp.fRootVNode := by
  obtain ⟨m, n, ls, hm, hexec⟩ := h
  refine fsref_exec (RootInv.of_postMount n hm) ?_ hexec
  show some none = some m.fRootVNode
  rw [hm.2.2]

theorem trans_fsref_events {t : Nat} {w w' : World} {pc pc' : GetRootPC}
    (hT : GetRootTrans t w pc w' pc')
    (i1 : w.mtmp.fRootAttaching = true → w.mtmp.fRootVNode = none)
    (i4 : pc.isCreator = true → w.mtmp.fRootAttaching = true) :
    ∃ evs : List Event, w'.trace = w.trace ++ evs ∧
      (∀ vn : vnode_t, Event.vnode_addfsref vn ∈ evs →
        w.mtmp.fRootVNode = none ∧ w'.mtmp.fRootVNode = some vn) ∧
      (∀ vn : vnode_t, Event.vnode_removefsref vn ∈ evs →
        w.mtmp.fRootVNode = some vn ∧ w'.mtmp.fRootVNode = none) := by
  cases hT
  case install vn hfree =>
    have hroot := i1 (i4 rfl)
    refine ⟨[.vnode_addfsref vn] ++ (if w.mtmp.fRootWaiting then [.wakeup] else []),
      List.append_assoc _ _ _, ?_, ?_⟩
    · intro v hv
      have hv' : v = vn := by
        split_ifs at hv <;> simpa using hv
      subst hv'
      exact ⟨hroot, rfl⟩
    · intro v hv
      split_ifs at hv <;> simp at hv
  case create err v => exact ⟨_, rfl, by simp, by simp⟩
  case fresh c vid => exact ⟨_, rfl, by simp, by simp⟩
  case stale c vid err he => exact ⟨_, rfl, by simp, by simp⟩
  all_goals exact ⟨[], (List.append_nil _).symm, by simp, by simp⟩

/-- C29, soft-reference balance. In every system that can arise after a
mount, through any calls of `EmptyFSMountGetRootVNodeCreatingIfNecessary` and
`EmptyFSMountDetachRootVNode` in any interleaving: the number of
`vnode_addfsref` calls made so far is the number of `vnode_removefsref` calls
plus 1 when `fRootVNode` holds a vnode, and equal to it when `fRootVNode` is
`NULL`; the calls alternate, each `vnode_removefsref` on the vnode of the
`vnode_addfsref` before it, and the vnode left holding the reference is
`fRootVNode`. In every step from such a system, a `vnode_addfsref vn` is made
only by a step that finds `fRootVNode` `NULL` and leaves `vn` in it, and a
`vnode_removefsref vn` only by a step that finds `vn` in `fRootVNode` and
leaves it `NULL`. -/
theorem C29_soft_reference_balance (ma : Bool) (σ : System) (hR : Reachable ma σ) :
    addfsrefCount σ.world.trace =
      removefsrefCount σ.world.trace + (if σ.world.mtmp.fRootVNode.isSome then 1 else 0) ∧
    fsrefHolder none σ.world.trace = some σ.world.mtmp.fRootVNode ∧
    (∀ (l : Label) (σ' : System), σ.step ma l = some σ' →
      ∃ evs : List Event, σ'.world.trace = σ.world.trace ++ evs ∧
        (∀ vn : vnode_t, Event.vnode_addfsref vn ∈ evs →
          σ.world.mtmp.fRootVNode = none ∧ σ'.world.mtmp.fRootVNode = some vn) ∧
        (∀ vn : vnode_t, Event.vnode_removefsref vn ∈ evs →
          σ.world.mtmp.fRootVNode = some vn ∧ σ'.world.mtmp.fRootVNode = none)) := by
  have hI := reachable_inv hR
  have hF := reachable_fsref hR
  refine ⟨?_, hF, ?_⟩
  · simpa using fsrefHolder_counts _ _ _ hF
  · intro l σ' h
    cases l with
    | call =>
      simp only [System.step, Option.some.injEq] at h
      subst h
      exact ⟨[], (List.append_nil _).symm, by simp, by simp⟩
    | run t o =>
      simp only [System.step] at h
      split at h
      · exact absurd h (by simp)
      · rename_i pc hpc
        split at h
        · rename_i w pc' hstep
          simp only [Option.some.injEq] at h
          subst h
          exact trans_fsref_events (getRootStep_next hstep) hI.attaching_root
            (hI.creator_attaching t pc hpc)
        · exact absurd h (by simp)
    | reclaim vp =>
      simp only [System.step] at h
      split at h
      · rename_i w u hd
        simp only [Option.some.injEq] at h
        subst h
        obtain ⟨-, h2⟩ := detach_next hd
        rcases h2 with ⟨-, rfl⟩ | ⟨root, hroot, -, rfl⟩
        · exact ⟨[], (List.append_nil _).symm, by simp, by simp⟩
        · refine ⟨[.vnode_removefsref root], rfl, by simp, ?_⟩
          intro vn hvn
          simp only [List.mem_singleton, Event.vnode_removefsref.injEq] at hvn
          subst hvn
          exact ⟨hroot, rfl⟩
      · exact absurd h (by simp)
    | spurious t =>
      simp only [System.step] at h
      split at h
      · simp only [Option.some.injEq] at h
        subst h
        exact ⟨[], (List.append_nil _).symm, by simp, by simp⟩
      · exact absurd h (by simp)

theorem C29_soft_reference_balance_witness :
    addfsrefCount [.vnode_create 0 (some 5), .vnode_addfsref 5, .vnode_removefsref 5,
        .vnode_create 0 (some 6), .vnode_addfsref 6] =
      removefsrefCount [.vnode_create 0 (some 5), .vnode_addfsref 5, .vnode_removefsref 5,
        .vnode_create 0 (some 6), .vnode_addfsref 6] + 1 :=
  (C29_soft_reference_balance true
    { world := { mtmp := { sampleMount with fRootVNode := some 6 }, mutexOwner := none,
                 waitq := [],
                 trace := [.vnode_create 0 (some 5), .vnode_addfsref 5, .vnode_removefsref 5,
                           .vnode_create 0 (some 6), .vnode_addfsref 6] },
      threads := [.returned 0 (some 5), .returned 0 (some 6)] }
    ⟨sampleMount, 2,
      [.run 0 (answer 0 5), .run 0 (answer 0 5), .run 0 (answer 0 5), .run 0 (answer 0 5),
       .reclaim 5,
       .run 1 (answer 0 6), .run 1 (answer 0 6), .run 1 (answer 0 6), .run 1 (answer 0 6)],
      by decide, by decide⟩).1

theorem lockReplay_append (ops₁ ops₂ : List LockOp) : ∀ held : Bool,
    lockReplay held (ops₁ ++ ops₂) =
      (lockReplay held ops₁).bind (fun h => lockReplay h ops₂) := by
  induction ops₁ with
  | nil => intro held; rfl
  | cons e ops ih =>
    intro held
    cases e <;> simp only [List.cons_append, lockReplay] <;> (try split_ifs) <;> simp [ih]

theorem lockReplay_counts (ops : List LockOp) : ∀ held held' : Bool,
    lockReplay held ops = some held' →
      acquireCount ops + (if held then 1 else 0) = releaseCount ops + (if held' then 1 else 0) := by
  induction ops with
  | nil =>
    intro held held' h
    simp only [lockReplay, Option.some.injEq] at h
    subst h
    simp [acquireCount, releaseCount]
  | cons e ops ih =>
    intro held held' h
    cases e <;> simp only [lockReplay] at h <;> try split_ifs at h
    all_goals
      have := ih _ _ h
      simp_all [acquireCount, releaseCount]
    all_goals omega

/-- One step of a thread keeps the lock discipline, the calls among its
operations are the calls the step records, and a root field the step changes
is a field it writes. -/
theorem step_ops {ma : Bool} {t : Nat} {o : Answer} {w w' : World} {pc pc' : GetRootPC}
    (h : getRootStep ma t o w pc = .next w' pc') :
    lockReplay pc.holdsMutex (getRootOps ma o w pc) = some pc'.holdsMutex ∧
    w'.trace = w.trace ++ callsOf (getRootOps ma o w pc) ∧
    (w'.mtmp.fRootAttaching ≠ w.mtmp.fRootAttaching →
      LockOp.write .fRootAttaching ∈ getRootOps ma o w pc) ∧
    (w'.mtmp.fRootWaiting ≠ w.mtmp.fRootWaiting →
      LockOp.write .fRootWaiting ∈ getRootOps ma o w pc) ∧
    (w'.mtmp.fRootVNode ≠ w.mtmp.fRootVNode →
      LockOp.write .fRootVNode ∈ getRootOps ma o w pc) := by
  have hT := getRootStep_next h
  cases hT
  case lock hfree =>
    simp [getRootOps, lockReplay, callsOf, GetRootPC.holdsMutex]
  case wait ha =>
    simp [getRootOps, lockReplay, callsOf, GetRootPC.holdsMutex, ha]
  case attach ha hr =>
    simp [getRootOps, lockReplay, callsOf, GetRootPC.holdsMutex, ha, hr]
  case found c vid ha hr =>
    simp [getRootOps, lockReplay, callsOf, GetRootPC.holdsMutex, ha, hr]
  case wake hq hfree =>
    simp [getRootOps, lockReplay, callsOf, GetRootPC.holdsMutex]
  case create err v =>
    have h1 := getRootStep_creating h
    simp only [GetRootPC.created.injEq] at h1
    obtain ⟨h2, h3⟩ := h1
    simp [getRootOps, lockReplay, callsOf, GetRootPC.holdsMutex, Event.unlocked, ← h2, h3]
  case install vn hfree =>
    cases ma <;> cases hw : w.mtmp.fRootWaiting <;>
      simp [getRootOps, lockReplay, callsOf, GetRootPC.holdsMutex, Event.unlocked, EAGAIN, hw]
  case fail err newVN hfree he ha =>
    simp [getRootOps, lockReplay, callsOf, GetRootPC.holdsMutex, he, ha]
  case failAgain newVN hfree =>
    simp [getRootOps, lockReplay, callsOf, GetRootPC.holdsMutex, EAGAIN]
  case fresh c vid =>
    by_cases ho : o.getwithvid_err = 0
    · simp [getRootOps, lockReplay, callsOf, GetRootPC.holdsMutex, Event.unlocked, ho]
    · simp [getRootStep, ho, EAGAIN] at h
  case stale c vid err he =>
    by_cases ho : o.getwithvid_err = 0
    · simp [getRootStep, ho, EAGAIN] at h
    · simp only [getRootStep, ho, if_false, Progress.next.injEq] at h
      have h2 := congrArg World.trace h.1
      simp only at h2
      simp [getRootOps, lockReplay, callsOf, GetRootPC.holdsMutex, Event.unlocked, ← h2]
  case done err r hfree ha =>
    simp [getRootOps, lockReplay, callsOf, GetRootPC.holdsMutex, ha]
  case again r hfree =>
    simp [getRootOps, lockReplay, callsOf, GetRootPC.holdsMutex, EAGAIN]

theorem step_held {ma : Bool} {σ σ' : System} {l : Label} (t : Nat)
    (h : σ.step ma l = some σ') :
    lockReplay (σ.heldBy t) (σ.stepOps ma t l) = some (σ'.heldBy t) := by
  cases l with
  | call =>
    simp only [System.step, Option.some.injEq] at h
    subst h
    simp only [System.stepOps, lockReplay, System.heldBy, Option.some.injEq]
    by_cases hlt : t < σ.threads.length
    · rw [List.getElem?_append_left hlt]
    · rw [List.getElem?_eq_none (by omega)]
      by_cases heq : t = σ.threads.length
      · subst heq
        simp [GetRootPC.holdsMutex]
      · rw [List.getElem?_eq_none (by simp; omega)]
  | run u o =>
    simp only [System.step] at h
    split at h
    · exact absurd h (by simp)
    · rename_i pc hpc
      split at h
      · rename_i w pc' hstep
        simp only [Option.some.injEq] at h
        subst h
        by_cases hu : u = t
        · subst hu
          simp only [System.stepOps, hpc, if_true, System.heldBy, threads_set_self _ hpc]
          exact (step_ops hstep).1
        · have hne : (σ.threads.set u pc')[t]? = σ.threads[t]? := List.getElem?_set_ne hu
          simp only [System.stepOps, System.heldBy, hne]
          cases ht : σ.threads[t]? <;> simp [hu, lockReplay]
      · exact absurd h (by simp)
  | reclaim vp =>
    simp only [System.step] at h
    split at h
    · simp only [Option.some.injEq] at h
      subst h
      simp [System.stepOps, lockReplay, System.heldBy]
    · exact absurd h (by simp)
  | spurious u =>
    simp only [System.step] at h
    split at h
    · simp only [Option.some.injEq] at h
      subst h
      simp [System.stepOps, lockReplay, System.heldBy]
    · exact absurd h (by simp)

theorem ops_exec {ma : Bool} (t : Nat) {ls : List Label} {σ σ' : System}
    (h : System.exec ma σ ls = some σ') :
    lockReplay (σ.heldBy t) (System.opsOf ma t σ ls) = some (σ'.heldBy t) := by
  induction ls generalizing σ with
  | nil =>
    simp only [System.exec, Option.some.injEq] at h
    subst h
    rfl
  | cons l ls ih =>
    simp only [System.exec] at h
    split at h
    · exact absurd h (by simp)
    · rename_i σ₁ hstep
      simp only [System.opsOf, hstep, lockReplay_append, step_held t hstep, Option.some_bind]
      exact ih h

theorem acquireCount_append (ops₁ ops₂ : List LockOp) :
    acquireCount (ops₁ ++ ops₂) = acquireCount ops₁ + acquireCount ops₂ := by
  induction ops₁ with
  | nil => simp [acquireCount]
  | cons e ops ih =>
    have ih' : acquireCount (ops.append ops₂) = acquireCount ops + acquireCount ops₂ := ih
    cases e <;> simp only [List.cons_append, acquireCount, ih, ih'] <;> omega

theorem step_entry {ma : Bool} {σ σ' : System} {l : Label} (t : Nat)
    (h : σ.step ma l = some σ')
    (h0 : σ.threads[t]? = some .entry ∨ σ.threads[t]? = none) :
    (σ'.threads[t]? = some .entry ∨ σ'.threads[t]? = none) ∨
      0 < acquireCount (σ.stepOps ma t l) := by
  cases l with
  | call =>
    simp only [System.step, Option.some.injEq] at h
    subst h
    left
    by_cases hlt : t < σ.threads.length
    · rw [List.getElem?_append_left hlt]
      exact h0
    · by_cases heq : t = σ.threads.length
      · subst heq
        left
        simp
      · right
        exact List.getElem?_eq_none (by simp; omega)
  | run u o =>
    simp only [System.step] at h
    split at h
    · exact absurd h (by simp)
    · rename_i pc hpc
      split at h
      · rename_i w pc' hstep
        simp only [Option.some.injEq] at h
        subst h
        by_cases hu : u = t
        · subst hu
          right
          rcases h0 with h0 | h0
          · rw [hpc] at h0
            simp only [Option.some.injEq] at h0
            subst h0
            simp [System.stepOps, hpc, getRootOps, acquireCount]
          · rw [hpc] at h0
            exact absurd h0 (by simp)
        · left
          have hne : (σ.threads.set u pc')[t]? = σ.threads[t]? := List.getElem?_set_ne hu
          simpa [hne] using h0
      · exact absurd h (by simp)
  | reclaim vp =>
    simp only [System.step] at h
    split at h
    · simp only [Option.some.injEq] at h
      subst h
      exact Or.inl h0
    · exact absurd h (by simp)
  | spurious u =>
    simp only [System.step] at h
    split at h
    · simp only [Option.some.injEq] at h
      subst h
      exact Or.inl h0
    · exact absurd h (by simp)

theorem acquired_exec {ma : Bool} (t : Nat) {ls : List Label} {σ σ' : System}
    (h : System.exec ma σ ls = some σ')
    (h0 : σ.threads[t]? = some .entry ∨ σ.threads[t]? = none) :
    (σ'.threads[t]? = some .entry ∨ σ'.threads[t]? = none) ∨
      0 < acquireCount (System.opsOf ma t σ ls) := by
  induction ls generalizing σ with
  | nil =>
    simp only [System.exec, Option.some.injEq] at h
    subst h
    exact Or.inl h0
  | cons l ls ih =>
    simp only [System.exec] at h
    split at h
    · exact absurd h (by simp)
    · rename_i σ₁ hstep
      simp only [System.opsOf, hstep, acquireCount_append]
      rcases step_entry t hstep h0 with h1 | h1
      · rcases ih h h1 with h2 | h2
        · exact Or.inl h2
        · exact Or.inr (by omega)
      · exact Or.inr (by omega)

theorem init_heldBy (m : EmptyFSMount) (n t : Nat) : (System.init m n).heldBy t = false := by
  simp only [System.heldBy, System.init]
  split
  · rename_i pc hpc
    rw [List.eq_of_mem_replicate (List.getElem?_mem hpc)]
    rfl
  · rfl

theorem init_entry (m : EmptyFSMount) (n t : Nat) :
    (System.init m n).threads[t]? = some .entry ∨ (System.init m n).threads[t]? = none := by
  cases h : (System.init m n).threads[t]? with
  | none => exact Or.inr rfl
  | some pc =>
    left
    rw [List.eq_of_mem_replicate (List.getElem?_mem h)]

/-- C26, lock discipline. In every run of a system of callers after a mount,
for every caller `t`: along the operations of `t` so far, in order, the mutex
is taken only while `t` does not hold it and released only while it does,
every read and every write of `fRootAttaching`, `fRootWaiting` and
`fRootVNode` is made with the mutex held, and `vnode_create` and
`vnode_getwithvid` are called with the mutex not held (`lockReplay`); `t`
holds the mutex by that account exactly when the mutex records `t` as its
owner; and once the call of `t` has returned, `t` does not hold the mutex, it
has taken the mutex at least once, and the number of releases (by
`lck_mtx_unlock` or inside `msleep`) is one more than the number of times it
took the mutex again after the first `lck_mtx_lock`. The operations of a step
are those of the step the embedding takes: the calls among them are the calls
the step records, and a root field the step changes is one they write. -/
theorem C26_lock_discipline (ma : Bool) (m : EmptyFSMount) (n : Nat) (ls : List Label)
    (σ : System) (t : Nat) (hm : postMount m)
    (hexec : System.exec ma (System.init m n) ls = some σ) :
    lockReplay false (System.opsOf ma t (System.init m n) ls) = some (σ.heldBy t) ∧
    (σ.heldBy t = true ↔ σ.world.mutexOwner = some t) ∧
    (∀ (e : errno_t) (v : Option vnode_t), σ.threads[t]? = some (.returned e v) →
      σ.heldBy t = false ∧ σ.world.mutexOwner ≠ some t ∧
      0 < acquireCount (System.opsOf ma t (System.init m n) ls) ∧
      releaseCount (System.opsOf ma t (System.init m n) ls) =
        (acquireCount (System.opsOf ma t (System.init m n) ls) - 1) + 1) ∧
    (∀ (u : Nat) (o : Answer) (w w' : World) (pc pc' : GetRootPC),
      getRootStep ma u o w pc = .next w' pc' →
        lockReplay pc.holdsMutex (getRootOps ma o w pc) = some pc'.holdsMutex ∧
        w'.trace = w.trace ++ callsOf (getRootOps ma o w pc) ∧
        (w'.mtmp.fRootAttaching ≠ w.mtmp.fRootAttaching →
          LockOp.write .fRootAttaching ∈ getRootOps ma o w pc) ∧
        (w'.mtmp.fRootWaiting ≠ w.mtmp.fRootWaiting →
          LockOp.write .fRootWaiting ∈ getRootOps ma o w pc) ∧
        (w'.mtmp.fRootVNode ≠ w.mtmp.fRootVNode →
          LockOp.write .fRootVNode ∈ getRootOps ma o w pc)) := by
  have hI : RootInv σ := reachable_inv ⟨m, n, ls, hm, hexec⟩
  have hrep := ops_exec t hexec
  rw [init_heldBy] at hrep
  have hown : σ.heldBy t = true ↔ σ.world.mutexOwner = some t := by
    rw [hI.owner_loopTop t]
    unfold System.heldBy
    cases h : σ.threads[t]? with
    | none => simp
    | some pc => cases pc <;> simp [GetRootPC.holdsMutex]
  refine ⟨hrep, hown, ?_, fun u o w w' pc pc' h => step_ops h⟩
  intro e v ht
  have hheld : σ.heldBy t = false := by
    simp [System.heldBy, ht, GetRootPC.holdsMutex]
  have hcount := lockReplay_counts _ _ _ hrep
  rw [hheld] at hcount
  have hacq : 0 < acquireCount (System.opsOf ma t (System.init m n) ls) := by
    rcases acquired_exec t hexec (init_entry m n t) with h1 | h1
    · rw [ht] at h1
      rcases h1 with h1 | h1 <;> exact absurd h1 (by simp)
    · exact h1
  refine ⟨hheld, ?_, hacq, ?_⟩
  · intro hc
    have := hown.2 hc
    rw [hheld] at this
    exact absurd this (by decide)
  · simp at hcount
    omega

theorem C26_lock_discipline_witness :
    lockReplay false (System.opsOf true 0 (System.init sampleMount 2)
        [.run 0 (answer 0 5), .run 0 (answer 0 5), .run 0 (answer 0 5), .run 1 (answer 0 5),
         .run 1 (answer 0 5), .run 0 (answer 0 5), .run 1 (answer 0 5)]) = some false :=
  (C26_lock_discipline true sampleMount 2
    [.run 0 (answer 0 5), .run 0 (answer 0 5), .run 0 (answer 0 5), .run 1 (answer 0 5),
     .run 1 (answer 0 5), .run 0 (answer 0 5), .run 1 (answer 0 5)]
    { world := { mtmp := { sampleMount with fRootVNode := some 5 }, mutexOwner := some 1,
                 waitq := [],
                 trace := [.vnode_create 0 (some 5), .vnode_addfsref 5, .wakeup] },
      threads := [.returned 0 (some 5), .loopTop] }
    0 (by decide) (by decide)).1

/-! ## Mounting and unmounting: the claims -/

/-- The clean-up at the end of a `VFSOPMount` that fails before it has
allocated a record: with no private pointer, `VFSOPUnmount` calls `vflush`
and does nothing else. -/
theorem unmount_no_record (ma : Bool) (o : MountAnswer) (s : Mount) (mntflags : Nat)
    (hp : s.fsprivate = none) :
    VFSOPUnmount ma o s mntflags =
      some (o.vflush_err,
        { s with calls := s.calls ++
            [.vflush (if (mntflags &&& MNT_FORCE != 0) = true then FORCECLOSE else 0)
              o.vflush_err] }) := by
  by_cases hv : o.vflush_err = 0
  · simp [VFSOPUnmount, vflush, hp, hv]
  · simp [VFSOPUnmount, vflush, hp, hv]

/-- A mount that fails at `vnode_ref` or at `lck_mtx_alloc_init` has not set
`fMountPoint` yet, so in a kernel built with `MACH_ASSERT` its clean-up
panics in `EmptyFSMountFromMount`, at `assert(result->fMountPoint == mp)`. -/
theorem mount_early_failure_panics (kEmptyFSMountArgsMagic : Nat) (o : MountAnswer) (s : Mount)
    (devvp : vnode_t) (p : Nat)
    (hu : s.isupdate = false) (hc : o.copyin_err = 0)
    (hm : o.args.fMagic = kEmptyFSMountArgsMagic) (ha : o.malloc = some p)
    (hv : o.vflush_err = 0) (hf : o.vnode_ref_err ≠ 0 ∨ o.mutex = none) :
    VFSOPMount true kEmptyFSMountArgsMagic o s devvp = none := by
  obtain ⟨mp, isupdate, fsprivate, heap, calls⟩ := s
  simp only at hu
  subst hu
  have hF : MNT_FORCE ≠ 0 := by decide
  have hN : ENOMEM ≠ 0 := by decide
  by_cases hr : o.vnode_ref_err = 0
  · rcases hf with hf | hf
    · exact absurd hr hf
    · simp [VFSOPMount, VFSOPUnmount, vflush, EmptyFSMountFromMount, Mount.store, Mount.deref,
        zeroMount, assert, hc, hm, ha, hv, hr, hf, hF, hN, kEmptyFSMountMagic]
  · simp [VFSOPMount, VFSOPUnmount, vflush, EmptyFSMountFromMount, Mount.store, Mount.deref,
      zeroMount, assert, hc, hm, ha, hv, hr, hF, kEmptyFSMountMagic]

/-- C22, counterexample. A mount that fails by the force-failure flag, in
either build: `VFSOPMount` returns `ENOTSUP` after its clean-up has freed the
record at address 100, and the private pointer of the mount still holds 100.
A later `VFSOPUnmount` of that mount therefore does not skip the clean-up: it
goes on to use the freed record. -/
theorem C22_private_pointer_not_cleared :
    VFSOPMount true 77 (mountAnswer 77 1) freshMount 9 = some (ENOTSUP, failedMount) ∧
    VFSOPMount false 77 (mountAnswer 77 1) freshMount 9 = some (ENOTSUP, failedMount) ∧
    failedMount.fsprivate = some 100 ∧ failedMount.heap = none ∧
    failedMount.deref 100 = none ∧
    VFSOPUnmount true (mountAnswer 77 1) failedMount 0 = none ∧
    VFSOPUnmount false (mountAnswer 77 1) failedMount 0 = none := by
  decide

/-- C22 as amended. A mount request that is not an update, whose arguments
are copied in and carry the magic, and for which `OSMalloc` gives a record at
`p`, so that the record is allocated and attached to the mount; the `vflush`
of the clean-up succeeds. When the mount then fails by the force-failure flag
(either build), or at `vnode_ref` or `lck_mtx_alloc_init` in a kernel built
without `MACH_ASSERT`: `VFSOPMount` returns the error, and its clean-up call
of `VFSOPUnmount` has released the device vnode if it was referenced, freed
the mutex if it was allocated, set the bad magic and freed the record. The
private pointer of the mount is left holding `p`. -/
theorem C22_failed_mount_cleanup (ma : Bool) (kEmptyFSMountArgsMagic : Nat) (o : MountAnswer)
    (s : Mount) (devvp : vnode_t) (p : Nat)
    (hu : s.isupdate = false) (hc : o.copyin_err = 0)
    (hm : o.args.fMagic = kEmptyFSMountArgsMagic) (ha : o.malloc = some p)
    (hv : o.vflush_err = 0) :
    (o.vnode_ref_err ≠ 0 → ma = false →
      VFSOPMount ma kEmptyFSMountArgsMagic o s devvp =
        some (o.vnode_ref_err,
          { s with
              fsprivate := some p, heap := none,
              calls := s.calls ++
                [.OSMalloc (some p), .vfs_setfsprivate p, .vnode_ref devvp o.vnode_ref_err,
                 .vfs_setflags, .vflush FORCECLOSE 0,
                 .OSFree p { zeroMount with fMagic := kEmptyFSMountBadMagic }] })) ∧
    (o.vnode_ref_err = 0 → o.mutex = none → ma = false →
      VFSOPMount ma kEmptyFSMountArgsMagic o s devvp =
        some (ENOMEM,
          { s with
              fsprivate := some p, heap := none,
              calls := s.calls ++
                [.OSMalloc (some p), .vfs_setfsprivate p, .vnode_ref devvp 0,
                 .lck_mtx_alloc_init none, .vfs_setflags, .vflush FORCECLOSE 0,
                 .vnode_rele devvp,
                 .OSFree p { zeroMount with fMagic := kEmptyFSMountBadMagic }] })) ∧
    (∀ m : Nat, o.vnode_ref_err = 0 → o.mutex = some m → o.args.fForceFailure ≠ 0 →
      VFSOPMount ma kEmptyFSMountArgsMagic o s devvp =
        some (ENOTSUP,
          { s with
              fsprivate := some p, heap := none,
              calls := s.calls ++
                [.OSMalloc (some p), .vfs_setfsprivate p, .vnode_ref devvp 0,
                 .lck_mtx_alloc_init (some m), .vfs_setflags, .vflush FORCECLOSE 0,
                 .vnode_rele devvp, .lck_mtx_free m,
                 .OSFree p { zeroMount with fMagic := kEmptyFSMountBadMagic,
                                            fMountPoint := some s.mp,
                                            fDebugLevel := o.args.fDebugLevel,
                                            fRootMutex := some m }] })) := by
  obtain ⟨mp, isupdate, fsprivate, heap, calls⟩ := s
  simp only at hu
  subst hu
  have hF : MNT_FORCE ≠ 0 := by decide
  have hN : ENOMEM ≠ 0 := by decide
  have hS : ENOTSUP ≠ 0 := by decide
  refine ⟨?_, ?_, ?_⟩
  · intro hr hma
    subst hma
    simp [VFSOPMount, VFSOPUnmount, vflush, EmptyFSMountFromMount, Mount.store, Mount.deref,
      zeroMount, assert, hc, hm, ha, hv, hr, hF]
  · intro hr hmx hma
    subst hma
    simp [VFSOPMount, VFSOPUnmount, vflush, EmptyFSMountFromMount, Mount.store, Mount.deref,
      zeroMount, assert, hc, hm, ha, hv, hr, hmx, hF, hN]
  · intro m hr hmx hff
    cases ma <;>
      simp [VFSOPMount, VFSOPUnmount, vflush, EmptyFSMountFromMount, Mount.store, Mount.deref,
        zeroMount, assert, hc, hm, ha, hv, hr, hmx, hff, hF, hS, kEmptyFSMountMagic]

theorem C22_failed_mount_cleanup_witness :
    VFSOPMount true 77 (mountAnswer 77 1) freshMount 9 = some (ENOTSUP, failedMount) :=
  (C22_failed_mount_cleanup true 77 (mountAnswer 77 1) freshMount 9 100 (by decide) (by decide)
    (by decide) (by decide) (by decide)).2.2 200 (by decide) (by decide) (by decide)

theorem reclaim_next {ma : Bool} {w w' : World} {vp : vnode_t} {e : errno_t}
    (h : VNOPReclaim ma w vp = .next w' e) :
    EmptyFSMountDetachRootVNode ma w vp = .next w' () := by
  unfold VNOPReclaim at h
  split at h
  · exact absurd h (by simp)
  · split at h
    · exact absurd h (by simp)
    · split at h
      · exact absurd h (by simp)
      · exact absurd h (by simp)
      · rename_i w₁ u hd
        simp only [Progress.next.injEq] at h
        rw [hd, h.1]

/-- What `vflush` leaves: the error is the one the kernel answered, the mount
keeps its identity and its private pointer, a failing `vflush` changes
nothing but the list of calls, and after a successful one the record of the
mount, if it has one, has no root vnode. -/
theorem vflush_some {ma : Bool} {err e : errno_t} {s s₁ : Mount} {flags : Nat}
    (h : vflush ma err s flags = some (e, s₁)) :
    e = err ∧ s₁.fsprivate = s.fsprivate ∧ s₁.mp = s.mp ∧
    (err ≠ 0 → s₁ = { s with calls := s.calls ++ [.vflush flags err] }) ∧
    (err = 0 → ∀ (p : Nat) (r : EmptyFSMount), s₁.fsprivate = some p → s₁.deref p = some r →
      r.fRootVNode = none) := by
  obtain ⟨mp, isupdate, fsprivate, heap, calls⟩ := s
  by_cases he : err = 0
  · subst he
    cases fsprivate with
    | none =>
      simp only [vflush, ne_eq, not_true_eq_false, if_false, Option.some.injEq,
        Prod.mk.injEq] at h
      obtain ⟨rfl, rfl⟩ := h
      exact ⟨rfl, rfl, rfl, fun hc => absurd rfl hc, fun _ p r hp _ => absurd hp (by simp)⟩
    | some p =>
      cases heap with
      | none =>
        simp only [vflush, ne_eq, not_true_eq_false, if_false, Option.some.injEq,
          Prod.mk.injEq] at h
        obtain ⟨rfl, rfl⟩ := h
        exact ⟨rfl, rfl, rfl, fun hc => absurd rfl hc,
          fun _ p r _ hr => absurd hr (by simp [Mount.deref])⟩
      | some qr =>
        obtain ⟨q, r⟩ := qr
        simp only [vflush, ne_eq, not_true_eq_false, if_false] at h
        cases hvn : r.fRootVNode with
        | none =>
          simp only [hvn, Option.some.injEq, Prod.mk.injEq] at h
          obtain ⟨rfl, rfl⟩ := h
          refine ⟨rfl, rfl, rfl, fun hc => absurd rfl hc, fun _ p' r' _ hr' => ?_⟩
          simp only [Mount.deref] at hr'
          split_ifs at hr'
          simp only [Option.some.injEq] at hr'
          subst hr'
          exact hvn
        | some vn =>
          simp only [hvn] at h
          by_cases hpq : p = q
          · subst hpq
            simp only [if_true] at h
            split at h
            · rename_i w u hrec
              simp only [Option.some.injEq, Prod.mk.injEq] at h
              obtain ⟨rfl, rfl⟩ := h
              refine ⟨rfl, rfl, rfl, fun hc => absurd rfl hc, fun _ p' r' hp' hr' => ?_⟩
              simp only [Mount.deref] at hr'
              split_ifs at hr'
              simp only [Option.some.injEq] at hr'
              subst hr'
              obtain ⟨-, h2⟩ := detach_next (reclaim_next hrec)
              rcases h2 with ⟨h3, -⟩ | ⟨root, -, -, rfl⟩
              · simp only at h3
                rw [hvn] at h3
                exact absurd h3 (by simp)
              · rfl
            · exact absurd h (by simp)
          · simp only [hpq, if_false, Option.some.injEq, Prod.mk.injEq] at h
            obtain ⟨rfl, rfl⟩ := h
            refine ⟨rfl, rfl, rfl, fun hc => absurd rfl hc, fun _ p' r' hp' hr' => ?_⟩
            simp only [Option.some.injEq] at hp'
            subst hp'
            simp [Mount.deref, Ne.symm hpq] at hr'
  · simp only [vflush, ne_eq, he, not_false_eq_true, if_true, Option.some.injEq,
      Prod.mk.injEq] at h
    obtain ⟨rfl, rfl⟩ := h
    exact ⟨rfl, rfl, rfl, fun _ => rfl, fun hc => absurd hc he⟩

theorem getLast_vflush (l : List MountEvent) (flags : Nat) (err : errno_t)
    (tr : List Event) (p : Nat) (r : EmptyFSMount) :
    (l ++ [MountEvent.vflush flags err] ++ tr.map MountEvent.vnop).getLast? ≠
      some (.OSFree p r) := by
  rw [List.getLast?_append, List.getLast?_append]
  cases h : (tr.map MountEvent.vnop).getLast? with
  | none => simp
  | some e =>
    have hm := List.mem_of_getLast?_eq_some h
    simp only [List.mem_map] at hm
    obtain ⟨x, -, rfl⟩ := hm
    simp

/-- The last call `vflush` records is never an `OSFree`. -/
theorem vflush_last {ma : Bool} {err e : errno_t} {s s₁ : Mount} {flags : Nat}
    (h : vflush ma err s flags = some (e, s₁)) (p : Nat) (r : EmptyFSMount) :
    s₁.calls.getLast? ≠ some (.OSFree p r) := by
  have key : ∀ tr : List Event, s₁.calls = s.calls ++ [.vflush flags err] ++ tr.map .vnop →
      s₁.calls.getLast? ≠ some (.OSFree p r) := by
    intro tr htr
    rw [htr]
    exact getLast_vflush _ _ _ _ _ _
  unfold vflush at h
  simp only at h
  split_ifs at h with he
  · simp only [Option.some.injEq, Prod.mk.injEq] at h
    exact key [] (by rw [← h.2]; simp)
  · split at h
    · split at h
      · split_ifs at h
        · split at h
          · rename_i w u hrec
            simp only [Option.some.injEq, Prod.mk.injEq] at h
            exact key w.trace (by rw [← h.2])
          · exact absurd h (by simp)
        · simp only [Option.some.injEq, Prod.mk.injEq] at h
          exact key [] (by rw [← h.2]; simp)
      · simp only [Option.some.injEq, Prod.mk.injEq] at h
        exact key [] (by rw [← h.2]; simp)
    · simp only [Option.some.injEq, Prod.mk.injEq] at h
      exact key [] (by rw [← h.2]; simp)

theorem assert_bind {α : Type} {ma c : Bool} {f : Unit → Option α} {x : α}
    (h : (assert ma c).bind f = some x) : (ma = true → c = true) ∧ f () = some x := by
  unfold assert at h
  split_ifs at h with hc
  · exact absurd h (by simp)
  · simp only [Option.some_bind] at h
    refine ⟨fun hma => ?_, h⟩
    subst hma
    simpa using hc

theorem fromMount_some {ma : Bool} {s : Mount} {x : Option Nat}
    (h : EmptyFSMountFromMount ma s = some x) : x = s.fsprivate := by
  unfold EmptyFSMountFromMount at h
  simp only at h
  split_ifs at h
  · split at h
    · exact absurd h (by simp)
    · split at h
      · exact absurd h (by simp)
      · rename_i p hp r hr
        cases h1 : assert ma (r.fMagic == kEmptyFSMountMagic) with
        | none => simp [h1] at h
        | some u =>
          cases h2 : assert ma (r.fMountPoint == some s.mp) with
          | none => simp [h1, h2] at h
          | some v =>
            simp only [h1, h2, Option.some_bind, Option.map_some', Option.some.injEq] at h
            exact h.symm
  · simp only [Option.some.injEq] at h
    exact h.symm

/-- What a return of `VFSOPUnmount` tells: the error is the one `vflush`
answered; when that error is not 0 the mount is as it was, but for the call
of `vflush`; and when the call ends by freeing the record, `vflush` has
succeeded, the record carries the bad magic and no root vnode, and in a
kernel built with `MACH_ASSERT` neither `fRootAttaching` nor `fRootWaiting`
is set in it. -/
theorem unmount_some {ma : Bool} {o : MountAnswer} {s s' : Mount} {mntflags : Nat}
    {err : errno_t} (h : VFSOPUnmount ma o s mntflags = some (err, s')) :
    err = o.vflush_err ∧
    (o.vflush_err ≠ 0 →
      s' = { s with calls := s.calls ++
               [.vflush (if (mntflags &&& MNT_FORCE != 0) = true then FORCECLOSE else 0)
                 o.vflush_err] }) ∧
    (∀ (p : Nat) (r : EmptyFSMount), s'.calls.getLast? = some (.OSFree p r) →
      o.vflush_err = 0 ∧ s'.heap = none ∧ r.fMagic = kEmptyFSMountBadMagic ∧
      r.fRootVNode = none ∧ (ma = true → r.fRootAttaching = false ∧ r.fRootWaiting = false)) := by
  unfold VFSOPUnmount at h
  simp only at h
  cases hfl : vflush ma o.vflush_err s
      (if (mntflags &&& MNT_FORCE != 0) = true then FORCECLOSE else 0) with
  | none =>
    rw [hfl] at h
    exact absurd h (by simp)
  | some f =>
    obtain ⟨e, s₁⟩ := f
    obtain ⟨he, hfp, hmp, hfail, hroot⟩ := vflush_some hfl
    have hlast := vflush_last hfl
    rw [hfl] at h
    simp only [Option.some_bind] at h
    subst he
    by_cases h0 : o.vflush_err = 0
    · simp only [h0, if_true] at h
      by_cases h1 : s₁.fsprivate = none
      · simp only [h1, ne_eq, not_true_eq_false, if_false, Option.some.injEq,
          Prod.mk.injEq] at h
        obtain ⟨rfl, rfl⟩ := h
        exact ⟨h0.symm, fun hc => absurd h0 hc, fun p r hl => absurd hl (hlast p r)⟩
      · simp only [h1, ne_eq, not_false_eq_true, if_true] at h
        cases hfm : EmptyFSMountFromMount ma s₁ with
        | none =>
          rw [hfm] at h
          exact absurd h (by simp)
        | some mtmp =>
          have hx := fromMount_some hfm
          rw [hfm] at h
          simp only [Option.some_bind] at h
          cases mtmp with
          | none => exact absurd h (by simp)
          | some p =>
            simp only at h
            cases hd : s₁.deref p with
            | none =>
              rw [hd] at h
              exact absurd h (by simp)
            | some r =>
              have hr := hroot h0 p r hx.symm hd
              rw [hd] at h
              simp only at h
              obtain ⟨ha, h⟩ := assert_bind h
              obtain ⟨hw, h⟩ := assert_bind h
              obtain ⟨-, h⟩ := assert_bind h
              simp only [Option.some.injEq, Prod.mk.injEq] at h
              obtain ⟨rfl, rfl⟩ := h
              refine ⟨h0.symm, fun hc => absurd h0 hc, ?_⟩
              intro p' r' hl
              simp only [List.getLast?_append, List.getLast?_singleton, Option.or_some,
                Option.some.injEq, MountEvent.OSFree.injEq] at hl
              obtain ⟨-, rfl⟩ := hl
              refine ⟨h0, rfl, rfl, ?_, fun hma => ?_⟩
              · cases hb : r.fBlockDevVNode <;> simp [hb, hr]
              · have ha' := ha hma
                have hw' := hw hma
                cases hb : r.fBlockDevVNode <;> simp [hb] at ha' hw' ⊢ <;> exact ⟨ha', hw'⟩
    · simp only [h0, if_false, Option.some.injEq, Prod.mk.injEq] at h
      obtain ⟨rfl, rfl⟩ := h
      exact ⟨rfl, fun _ => hfail h0, fun p r hl => absurd hl (hlast p r)⟩

theorem unmount_flush_fails (ma : Bool) (o : MountAnswer) (s : Mount) (mntflags : Nat)
    (hv : o.vflush_err ≠ 0) :
    VFSOPUnmount ma o s mntflags =
      some (o.vflush_err,
        { s with calls := s.calls ++
            [.vflush (if (mntflags &&& MNT_FORCE != 0) = true then FORCECLOSE else 0)
              o.vflush_err] }) := by
  simp [VFSOPUnmount, vflush, hv]

/-- C24, evaluation of an unmount after a construction that failed. What
holds of `VFSOPUnmount`: when `vflush` fails, the call returns that error and leaves
the mount as it was (no `vnode_rele`, no `lck_mtx_free`, the magic and the
record untouched); the call returns the error of `vflush` whenever it
returns; and when it ends by freeing the record, `vflush` has succeeded and
the record has no root vnode. But `fRootAttaching` can still be set at that
point. On a fresh mount, a call of `VFSOPRoot` whose `vnode_create` fails
with `ENOMEM` returns with `fRootAttaching` left set (the defect of C12); the
unmount that follows, with `vflush` succeeding, then frees a record in which
`fRootAttaching` is set when the kernel is built without `MACH_ASSERT`, and
panics at `assert(!mtmp->fRootAttaching)` when it is built with it. -/
theorem C24_teardown_with_attaching_set :
    (∀ (ma : Bool) (o : MountAnswer) (s : Mount) (mntflags : Nat), o.vflush_err ≠ 0 →
      VFSOPUnmount ma o s mntflags =
        some (o.vflush_err,
          { s with calls := s.calls ++
              [.vflush (if (mntflags &&& MNT_FORCE != 0) = true then FORCECLOSE else 0)
                o.vflush_err] })) ∧
    (∀ (ma : Bool) (o : MountAnswer) (s s' : Mount) (mntflags : Nat) (err : errno_t),
      VFSOPUnmount ma o s mntflags = some (err, s') →
        err = o.vflush_err ∧
        (∀ (p : Nat) (r : EmptyFSMount), s'.calls.getLast? = some (.OSFree p r) →
          o.vflush_err = 0 ∧ s'.heap = none ∧ r.fMagic = kEmptyFSMountBadMagic ∧
          r.fRootVNode = none ∧
          (ma = true → r.fRootAttaching = false ∧ r.fRootWaiting = false))) ∧
    (∃ σ : System,
      System.exec false (System.init sampleMount 1)
        [.run 0 (answer ENOMEM 5), .run 0 (answer ENOMEM 5), .run 0 (answer ENOMEM 5),
         .run 0 (answer ENOMEM 5)] = some σ ∧
      σ.threads = [.returned ENOMEM none] ∧
      σ.world.mtmp = { sampleMount with fRootAttaching := true } ∧
      VFSOPUnmount false (mountAnswer 0 0) (mountedWith σ.world.mtmp) 0 =
        some (0, { mountedWith σ.world.mtmp with
                     heap := none,
                     calls := [.vflush 0 0, .vnode_rele 9, .lck_mtx_free 1,
                               .OSFree 100 { sampleMount with
                                               fMagic := kEmptyFSMountBadMagic,
                                               fBlockDevVNode := none,
                                               fBlockRDevNum := 0,
                                               fRootAttaching := true }] }) ∧
      VFSOPUnmount true (mountAnswer 0 0) (mountedWith σ.world.mtmp) 0 = none) := by
  refine ⟨unmount_flush_fails, ?_, ?_⟩
  · intro ma o s s' mntflags err h
    obtain ⟨h1, -, h3⟩ := unmount_some h
    exact ⟨h1, h3⟩
  · refine ⟨{ world := { mtmp := { sampleMount with fRootAttaching := true },
                         mutexOwner := none, waitq := [],
                         trace := [.vnode_create ENOMEM none] },
              threads := [.returned ENOMEM none] }, ?_, rfl, rfl, ?_, ?_⟩ <;> decide

end EmptyFS
